import Mathlib

/-! The SeisSol mesh reader, the fault parameter test and the sample integral.

A shallow embedding of `seissol::geometry::MeshReader` (`src/Geometry/MeshReader.cpp`):
`displaceMesh`, `scaleMesh`, `extractFaultInformation` and the packing loop of
`exchangeGhostlayerMetadata`; of `ParameterDB::faultParameterizedByTraction`
(`src/Initializer/ParameterDB.cpp`); and of `computeSampleTimeIntegral`
(`src/Kernels/PointSourceCluster.h`), with the properties that the specification states about
them.

Conventions of the embedding.

* `double` is a type parameter `R`.  The definitions use the operations of `R` only, with a
  square-root function passed explicitly, so the same code runs in exact arithmetic (a
  linearly ordered field; `Real.sqrt` over `ℝ` is real arithmetic) and in `Binary64`, the
  model of IEEE-754 double precision below.  A theorem says which arithmetic it is about.
* `int` is `Int`; no value of the development comes near the 32-bit range.
* `int x[4]` is `Fin 4 → Int`; `std::vector` is `List`; `std::map<int, V>` is an association
  list kept in ascending key order, which is the order in which the source iterates the map.
* A read or write outside an array is undefined behaviour in the source.  The embedding is
  total: such a read gives the zero vector, such a write changes nothing.
-/

namespace seissol

/-! ## Data model -/

/-- Modelled from the spec: the type `VrtxCoords` of `MeshDefinition.h` (not among the
sources), a `double[3]`. -/
structure VrtxCoords (R : Type) where
  c0 : R
  c1 : R
  c2 : R
deriving DecidableEq, Repr

/-- Modelled from the spec: the struct `Vertex` of `MeshDefinition.h` (not among the sources);
`MeshReader.cpp` uses its field `coords`. -/
structure Vertex (R : Type) where
  coords : VrtxCoords R
deriving DecidableEq, Repr

/-- Modelled from the spec: the struct `Element` of `MeshDefinition.h` (not among the
sources), with the fields that `MeshReader.cpp` reads and writes. -/
structure Element where
  localId : Int
  vertices : Fin 4 → Int
  neighbors : Fin 4 → Int
  neighborSides : Fin 4 → Int
  sideOrientations : Fin 4 → Int
  boundaries : Fin 4 → Int
  neighborRanks : Fin 4 → Int
  mpiIndices : Fin 4 → Int
  mpiFaultIndices : Fin 4 → Int
  faultTags : Fin 4 → Int
  group : Int

/-- Modelled from the spec: the struct `MPINeighborElement` of `MeshDefinition.h` (not among
the sources).  The fields stand in the order of the brace initialiser
`{i.localId, j, i.mpiIndices[j], i.neighborSides[j]}`: the local element id, the local side,
the exchange index of the remote side, and the remote side. -/
structure MPINeighborElement where
  localElement : Int
  localSide : Int
  neighborElement : Int
  neighborSide : Int
deriving DecidableEq, Repr

/-- Modelled from the spec: the struct `Fault` of `MeshDefinition.h` (not among the sources),
with the fields that `extractFaultInformation` assigns. -/
structure Fault (R : Type) where
  element : Int
  side : Int
  neighborElement : Int
  neighborSide : Int
  tag : Int
  normal : VrtxCoords R
  tangent1 : VrtxCoords R
  tangent2 : VrtxCoords R
deriving DecidableEq, Repr

/-- Modelled from the spec: the enumeration `seissol::initializer::parameters::RefPointMethod`
(its header is not among the sources); `extractFaultInformation` only tests for `Point`. -/
inductive RefPointMethod where
  | Point
  | Normal
deriving DecidableEq, Repr

/-- Modelled from the spec: the struct `MPINeighbor` of `MeshDefinition.h` (not among the
sources), an entry of the neighbour table: the local elements that a rank mirrors to one
neighbour rank. -/
structure MPINeighbor where
  localID : Int
  elements : List MPINeighborElement
deriving DecidableEq, Repr

/-- Modelled from the spec: the struct `GhostElementMetadata` (its header is not among the
sources): `double vertices[4][3]` and `int group`. -/
structure GhostElementMetadata (R : Type) where
  vertices : Fin 4 → VrtxCoords R
  group : Int

/-- The state of a `MeshReader` that `displaceMesh`, `scaleMesh`, `extractFaultInformation` and
the packing loop of `exchangeGhostlayerMetadata` touch.  The neighbour table `m_MPINeighbors`
is empty unless a mesh sets it. -/
structure MeshReader (R : Type) where
  m_rank : Int
  m_elements : List Element
  m_vertices : List (Vertex R)
  m_MPIFaultNeighbors : List (Int × List MPINeighborElement)
  m_fault : List (Fault R)
  m_hasPlusFault : Bool
  m_MPINeighbors : List (Int × MPINeighbor) := []

/-- The accessor `MeshReader::hasPlusFault`. -/
def MeshReader.hasPlusFault {R : Type} (m : MeshReader R) : Bool := m.m_hasPlusFault

/-- The accessor `MeshReader::hasFault`: `m_fault.size() > 0`. -/
def MeshReader.hasFault {R : Type} (m : MeshReader R) : Bool := decide (0 < m.m_fault.length)

/-! ## MeshTools -/

namespace MeshTools

/-- The three lookup tables of `MeshTools` that `extractFaultInformation` reads.  Their
declaration is not among the sources, so they are a parameter of the embedding. -/
structure Tables where
  FACE2NODES : Fin 4 → Fin 3 → Fin 4
  FACE2MISSINGNODE : Fin 4 → Fin 4
  NEIGHBORFACENODE2LOCAL : Fin 3 → Fin 3

/-- Modelled from the spec: `MeshTools::sub`, the subtraction of coordinate triples
(`MeshTools.h` is not among the sources). -/
def sub {R : Type} [Sub R] (v1 v2 : VrtxCoords R) : VrtxCoords R :=
  ⟨v1.c0 - v2.c0, v1.c1 - v2.c1, v1.c2 - v2.c2⟩

/-- Modelled from the spec: `MeshTools::cross`, the cross product
(`MeshTools.h` is not among the sources). -/
def cross {R : Type} [Sub R] [Mul R] (v1 v2 : VrtxCoords R) : VrtxCoords R :=
  ⟨v1.c1 * v2.c2 - v1.c2 * v2.c1, v1.c2 * v2.c0 - v1.c0 * v2.c2, v1.c0 * v2.c1 - v1.c1 * v2.c0⟩

/-- Modelled from the spec: `MeshTools::dot`, the dot product
(`MeshTools.h` is not among the sources). -/
def dot {R : Type} [Add R] [Mul R] (v1 v2 : VrtxCoords R) : R :=
  v1.c0 * v2.c0 + v1.c1 * v2.c1 + v1.c2 * v2.c2

/-- Modelled from the spec: `MeshTools::norm`, the Euclidean norm, over the square root `sqrt`
(`MeshTools.h` is not among the sources). -/
def norm {R : Type} [Add R] [Mul R] (sqrt : R → R) (v : VrtxCoords R) : R :=
  sqrt (dot v v)

/-- Modelled from the spec: `MeshTools::mul`, the product of a triple with a scalar
(`MeshTools.h` is not among the sources). -/
def mul {R : Type} [Mul R] (v : VrtxCoords R) (s : R) : VrtxCoords R :=
  ⟨v.c0 * s, v.c1 * s, v.c2 * s⟩

end MeshTools

/-- A concrete set of tables, for the examples: `FACE2NODES` is the `LocalVertexMap` of
`ElementWiseOutput::getElementVertexId` (`DrElementWiseOutput.hpp`), `FACE2MISSINGNODE` is the
local vertex that a row of `FACE2NODES` leaves out, as the spec describes it, and
`NEIGHBORFACENODE2LOCAL`, whose entries neither the sources nor the spec give, exchanges the
positions 1 and 2.  The general theorems hold for every set of tables. -/
def referenceTables : MeshTools.Tables where
  FACE2NODES := fun s k =>
    match s, k with
    | 0, 0 => 0 | 0, 1 => 2 | 0, 2 => 1
    | 1, 0 => 0 | 1, 1 => 1 | 1, 2 => 3
    | 2, 0 => 0 | 2, 1 => 3 | 2, 2 => 2
    | 3, 0 => 1 | 3, 1 => 2 | 3, 2 => 3
  FACE2MISSINGNODE := fun s =>
    match s with
    | 0 => 3 | 1 => 2 | 2 => 1 | 3 => 0
  NEIGHBORFACENODE2LOCAL := fun k =>
    match k with
    | 0 => 0 | 1 => 2 | 2 => 1

/-! ## displaceMesh -/

/-- The inner loop of `displaceMesh`: `coords[i] += displacement[i]` for `i = 0, 1, 2`. -/
def displaceVertex {R : Type} [Add R] (displacement : VrtxCoords R) (v : Vertex R) : Vertex R :=
  ⟨⟨v.coords.c0 + displacement.c0, v.coords.c1 + displacement.c1, v.coords.c2 + displacement.c2⟩⟩

/-- The method `MeshReader::displaceMesh`: every vertex of `m_vertices` is displaced in place. -/
def MeshReader.displaceMesh {R : Type} [Add R] (displacement : VrtxCoords R) (m : MeshReader R) :
    MeshReader R :=
  { m with m_vertices := m.m_vertices.map (displaceVertex displacement) }

/-- The negated offset `-d`, component by component. -/
def VrtxCoords.neg {R : Type} [Neg R] (d : VrtxCoords R) : VrtxCoords R :=
  ⟨-d.c0, -d.c1, -d.c2⟩

/-! ## IEEE-754 double precision -/

/-- A value of IEEE-754 binary64.  Every finite double is an integer multiple of the smallest
subnormal `2^(-1074)`: `finite k` is the number `k * 2^(-1074)`.  The two zeros are not
distinguished (they compare equal). -/
inductive Binary64 where
  | finite (units : Int)
  | posInf
  | negInf
  | nan
deriving DecidableEq, Repr

namespace Binary64

/-- The number of binary digits of `n`, counted by halving; `fuel` bounds the number of
halvings and `n` itself is enough. -/
def bitLength : Nat → Nat → Nat
  | 0, _ => 0
  | fuel + 1, n => if n = 0 then 0 else bitLength fuel (n / 2) + 1

/-- Rounding of a magnitude, in units of `2^(-1074)`, to 53 significant bits, to nearest with
ties to even.  A magnitude below `2^53` units (the subnormals and the first binade) is exact. -/
def roundNat (n : Nat) : Nat :=
  let bits := bitLength n n
  if bits ≤ 53 then n
  else
    let shift := bits - 53
    let q := n / 2 ^ shift
    let r := n % 2 ^ shift
    let half := 2 ^ (shift - 1)
    (if half < r ∨ (r = half ∧ q % 2 = 1) then q + 1 else q) * 2 ^ shift

/-- The largest finite double `(2^53 - 1) * 2^971`, in units of `2^(-1074)`. -/
def maxUnits : Nat := (2 ^ 53 - 1) * 2 ^ 2045

/-- The double nearest to the exact value `z * 2^(-1074)`; an overflow gives an infinity. -/
def round (z : Int) : Binary64 :=
  let n := roundNat z.natAbs
  if maxUnits < n then (if z < 0 then negInf else posInf)
  else finite (if z < 0 then -(n : Int) else (n : Int))

/-- The addition of doubles: the exact sum, rounded. -/
def add : Binary64 → Binary64 → Binary64
  | finite a, finite b => round (a + b)
  | nan, _ => nan
  | _, nan => nan
  | posInf, negInf => nan
  | negInf, posInf => nan
  | posInf, _ => posInf
  | _, posInf => posInf
  | negInf, _ => negInf
  | _, negInf => negInf

/-- The negation of a double. -/
def neg : Binary64 → Binary64
  | finite a => finite (-a)
  | posInf => negInf
  | negInf => posInf
  | nan => nan

instance : Add Binary64 := ⟨add⟩

instance : Neg Binary64 := ⟨neg⟩

/-- The double with the integer value `n` (exact for `|n| ≤ 2^53`). -/
def ofInt (n : Int) : Binary64 := round (n * ((2 ^ 1074 : Nat) : Int))

/-- A finite value that the format represents: rounding leaves it as it is. -/
def IsDouble : Binary64 → Prop
  | finite k => round k = finite k
  | _ => True

/-- The number of binary digits of `n`, for `n < 2^4096`, by bisection on the exponent: the
largest `k` with `2^k ≤ n` is built from its binary digits.  The magnitudes that products,
quotients and square roots of doubles bring up are below `2^3200`. -/
def bitCount (n : Nat) : Nat :=
  if n = 0 then 0
  else
    [2048, 1024, 512, 256, 128, 64, 32, 16, 8, 4, 2, 1].foldl
      (fun (k : Nat) (s : Nat) => if 2 ^ (k + s) ≤ n then k + s else k) 0 + 1

/-- Rounding of the magnitude `p / q`, in units of `2^(-1074)` and with `q > 0`, to 53
significant bits, to nearest with ties to even.  A magnitude below `2^53` units (the
subnormals and the first binade) is rounded to a whole number of units.  For `q = 1` this is
`roundNat`. -/
def roundRatio (p q : Nat) : Nat :=
  let bits := bitCount (p / q)
  let shift := bits - 53
  let den := q * 2 ^ shift
  let quo := p / den
  let rem := p % den
  (if den < 2 * rem ∨ (2 * rem = den ∧ quo % 2 = 1) then quo + 1 else quo) * 2 ^ shift

/-- The double nearest to the exact value `± (p / q) * 2^(-1074)`; an overflow gives an
infinity. -/
def roundSigned (negative : Bool) (p q : Nat) : Binary64 :=
  let n := roundRatio p q
  if maxUnits < n then (if negative then negInf else posInf)
  else finite (if negative then -(n : Int) else (n : Int))

/-- The multiplication of doubles: the exact product, rounded.  The exact product of
`a * 2^(-1074)` and `b * 2^(-1074)` is `(a * b / 2^1074) * 2^(-1074)`; a product below half
of the smallest subnormal underflows to zero. -/
def mul : Binary64 → Binary64 → Binary64
  | finite a, finite b => roundSigned (decide (a * b < 0)) (a * b).natAbs (2 ^ 1074)
  | nan, _ => nan
  | _, nan => nan
  | finite a, posInf => if a = 0 then nan else if a < 0 then negInf else posInf
  | finite a, negInf => if a = 0 then nan else if a < 0 then posInf else negInf
  | posInf, finite b => if b = 0 then nan else if b < 0 then negInf else posInf
  | negInf, finite b => if b = 0 then nan else if b < 0 then posInf else negInf
  | posInf, posInf => posInf
  | posInf, negInf => negInf
  | negInf, posInf => negInf
  | negInf, negInf => posInf

/-- The division of doubles: the exact quotient, rounded.  The quotient of `a * 2^(-1074)` by
`b * 2^(-1074)` is `(a * 2^1074 / b) * 2^(-1074)`.  A zero divisor is taken as `+0`, the only
zero that a square root of a sum of squares gives. -/
def div : Binary64 → Binary64 → Binary64
  | finite a, finite b =>
    if b = 0 then (if a = 0 then nan else if a < 0 then negInf else posInf)
    else roundSigned (decide (a * b < 0)) (a.natAbs * 2 ^ 1074) b.natAbs
  | nan, _ => nan
  | _, nan => nan
  | finite _, posInf => finite 0
  | finite _, negInf => finite 0
  | posInf, finite b => if b < 0 then negInf else posInf
  | negInf, finite b => if b < 0 then posInf else negInf
  | posInf, posInf => nan
  | posInf, negInf => nan
  | negInf, posInf => nan
  | negInf, negInf => nan

/-- The iteration `x ↦ (x + n / x) / 2` of Heron, on integers: from a start above the square
root it descends to the integer square root, where it stops descending.  Every step at least
halves the distance, so `fuel` steps are enough when the start is below `2^fuel`. -/
def sqrtHeron : Nat → Nat → Nat → Nat
  | 0, _, x => x
  | fuel + 1, n, x => if (x + n / x) / 2 < x then sqrtHeron fuel n ((x + n / x) / 2) else x

/-- The integer square root: the largest `r` with `r * r ≤ n`. -/
def natSqrt (n : Nat) : Nat :=
  if n = 0 then 0 else sqrtHeron (bitCount n) n (2 ^ ((bitCount n + 1) / 2))

/-- Rounding of the square root of `n`, in units of `2^(-1074)`, to 53 significant bits, to
nearest: the square root is compared with the midpoint of its two neighbours by their
squares. -/
def roundSqrt (n : Nat) : Nat :=
  let r := natSqrt n
  let bits := bitCount r
  let shift := bits - 53
  let quo := r / 2 ^ shift
  let low := quo * 2 ^ shift
  let mid2 := 2 * low + 2 ^ shift
  if mid2 * mid2 < 4 * n ∨ (mid2 * mid2 = 4 * n ∧ quo % 2 = 1) then low + 2 ^ shift else low

/-- The function `sqrt` on doubles: the exact square root, rounded.  The square root of
`a * 2^(-1074)` is `sqrt (a * 2^1074) * 2^(-1074)`. -/
def sqrt : Binary64 → Binary64
  | finite a => if a < 0 then nan else finite ((roundSqrt (a.natAbs * 2 ^ 1074) : Nat) : Int)
  | posInf => posInf
  | negInf => nan
  | nan => nan

/-- The comparison `x < y` of doubles; a comparison with a NaN is false. -/
def lt : Binary64 → Binary64 → Bool
  | finite a, finite b => decide (a < b)
  | nan, _ => false
  | _, nan => false
  | _, negInf => false
  | posInf, _ => false
  | negInf, _ => true
  | finite _, posInf => true

instance : Sub Binary64 := ⟨fun x y => x + (-y)⟩

instance : Mul Binary64 := ⟨mul⟩

instance : Div Binary64 := ⟨div⟩

instance : Zero Binary64 := ⟨finite 0⟩

instance : One Binary64 := ⟨finite ((2 ^ 1074 : Nat) : Int)⟩

instance : LT Binary64 := ⟨fun x y => lt x y = true⟩

instance (x y : Binary64) : Decidable (x < y) :=
  inferInstanceAs (Decidable (lt x y = true))

/-- The double `2^(-600)`. -/
def tiny : Binary64 := finite ((2 ^ 474 : Nat) : Int)

end Binary64

/-- The vertices of `twoTets` in double precision, with the apex of element 0 lowered to
`(0, 0, 2^(-600))`. -/
def flatVertices : List (Vertex Binary64) :=
  [⟨⟨0, 0, 0⟩⟩, ⟨⟨1, 0, 0⟩⟩, ⟨⟨0, 1, 0⟩⟩, ⟨⟨0, 0, Binary64.tiny⟩⟩, ⟨⟨0, 0, -1⟩⟩]

/-- The reference point `(0, 0, 2^(-600))` in double precision, above the plane `z = 0`. -/
def tinyPoint : VrtxCoords Binary64 := ⟨0, 0, Binary64.tiny⟩

/-! ## extractFaultInformation -/

/-- The read `m_vertices[idx].coords`. -/
def vertexCoords {R : Type} [Zero R] (vs : List (Vertex R)) (idx : Int) : VrtxCoords R :=
  if 0 ≤ idx then
    match vs[idx.toNat]? with
    | some v => v.coords
    | none => ⟨0, 0, 0⟩
  else ⟨0, 0, 0⟩

/-- The insertion `m[key].push_back(x)` into a `std::map<int, std::vector>`: `operator[]`
creates the entry of a new key, at its place in the key order. -/
def mapPushBack {α : Type} (key : Int) (x : α) : List (Int × List α) → List (Int × List α)
  | [] => [(key, [x])]
  | (k, xs) :: rest =>
    if key = k then (k, xs ++ [x]) :: rest
    else if key < k then (key, [x]) :: (k, xs) :: rest
    else (k, xs) :: mapPushBack key x rest

/-- The read `m.at(key)` of a `std::map<int, std::vector>`, empty for a missing key. -/
def mapLookup {α : Type} (key : Int) : List (Int × List α) → List α
  | [] => []
  | (k, xs) :: rest => if key = k then xs else mapLookup key rest

/-- The first comparator of `extractFaultInformation`: by `localElement`, then `localSide`. -/
def byLocal (elem1 elem2 : MPINeighborElement) : Bool :=
  decide (elem1.localElement < elem2.localElement) ||
    (decide (elem1.localElement = elem2.localElement) &&
      decide (elem1.localSide < elem2.localSide))

/-- The second comparator: by `neighborElement`, then `neighborSide`. -/
def byNeighbor (elem1 elem2 : MPINeighborElement) : Bool :=
  decide (elem1.neighborElement < elem2.neighborElement) ||
    (decide (elem1.neighborElement = elem2.neighborElement) &&
      decide (elem1.neighborSide < elem2.neighborSide))

/-- The order that a strict comparator `lt` induces: `a` may stand before `b` when `b` is not
less than `a`. -/
def NotAfter {α : Type} (lt : α → α → Bool) (a b : α) : Prop := lt b a = false

instance {α : Type} (lt : α → α → Bool) : DecidableRel (NotAfter lt) :=
  fun a b => inferInstanceAs (Decidable (lt b a = false))

/-- The call `std::sort(begin, end, lt)`, as an insertion sort.  The standard fixes the result
up to the order of equivalent elements only, and the insertion sort is one sort with the
contract `IsStdSort`: the properties of `extractFaultInformation` below use of it that its
result is a permutation of the input in which no element is less than an earlier one, and the
properties of the sort itself are stated for every sort with the contract. -/
def stdSort {α : Type} (lt : α → α → Bool) (l : List α) : List α :=
  l.insertionSort (NotAfter lt)

/-- The contract of `std::sort(begin, end, lt)`: the result is a permutation of the input in
which no element is less than an earlier one.  The standard leaves the order of equivalent
elements open, so a property of the sort in the source is a property of every `sort` with this
contract. -/
def IsStdSort {α : Type} (lt : α → α → Bool) (sort : List α → List α) : Prop :=
  ∀ l : List α, (sort l).Perm l ∧ (sort l).Pairwise (NotAfter lt)

/-- A sort that meets the contract of `std::sort` and does not keep the order of equivalent
elements: the insertion sort of the reversed sequence. -/
def reverseSort {α : Type} (lt : α → α → Bool) (l : List α) : List α :=
  stdSort lt l.reverse

section Extract

variable {R : Type} [Zero R] [One R] [Add R] [Sub R] [Mul R] [Div R] [LT R]
  [∀ a b : R, Decidable (a < b)]

/-- The coordinates of the face vertex at position `k` of `FACE2NODES[j]`:
`m_vertices[i.vertices[FACE2NODES[j][k]]].coords`. -/
def faceNode (T : MeshTools.Tables) (vs : List (Vertex R)) (i : Element) (j : Fin 4)
    (k : Fin 3) : VrtxCoords R :=
  vertexCoords vs (i.vertices (T.FACE2NODES j k))

/-- The position `NEIGHBORFACENODE2LOCAL[(3 + k - sideOrientation) % 3]`, with the truncating
remainder of C++. -/
def neighborFaceNode (T : MeshTools.Tables) (k : Int) (sideOrientation : Int) : Fin 3 :=
  T.NEIGHBORFACENODE2LOCAL (Fin.ofNat (Int.tmod (3 + k - sideOrientation) 3).toNat)

/-- The two steps `cross(chiVec, tauVec, normal); mul(normal, 1.0 / norm(normal), normal)`. -/
def unitNormal (sqrt : R → R) (chiVec tauVec : VrtxCoords R) : VrtxCoords R :=
  MeshTools.mul (MeshTools.cross chiVec tauVec)
    (1 / MeshTools.norm sqrt (MeshTools.cross chiVec tauVec))

/-- The normal that is computed first, from `chi = v1 - v0` and `tau = v2 - v0` in the
`FACE2NODES` order of the processed side. -/
def localNormal (sqrt : R → R) (T : MeshTools.Tables) (vs : List (Vertex R)) (i : Element)
    (j : Fin 4) : VrtxCoords R :=
  unitNormal sqrt (MeshTools.sub (faceNode T vs i j 1) (faceNode T vs i j 0))
    (MeshTools.sub (faceNode T vs i j 2) (faceNode T vs i j 0))

/-- The decision `isPlus`. -/
def isPlus (sqrt : R → R) (T : MeshTools.Tables) (refPoint : VrtxCoords R)
    (refPointMethod : RefPointMethod) (vs : List (Vertex R)) (i : Element) (j : Fin 4) : Bool :=
  let normal := localNormal sqrt T vs i j
  let tmp1 := MeshTools.sub refPoint (faceNode T vs i j 0)
  let tmp2 := MeshTools.sub (vertexCoords vs (i.vertices (T.FACE2MISSINGNODE j)))
    (faceNode T vs i j 0)
  if refPointMethod = RefPointMethod.Point then
    decide (MeshTools.dot tmp1 normal * MeshTools.dot tmp2 normal > 0)
  else
    decide (MeshTools.dot refPoint normal > 0)

/-- The vector `chiVec` when the tangents are computed: recomputed on a minus side. -/
def chiVec (sqrt : R → R) (T : MeshTools.Tables) (refPoint : VrtxCoords R)
    (refPointMethod : RefPointMethod) (vs : List (Vertex R)) (i : Element) (j : Fin 4) :
    VrtxCoords R :=
  if isPlus sqrt T refPoint refPointMethod vs i j then
    MeshTools.sub (faceNode T vs i j 1) (faceNode T vs i j 0)
  else
    MeshTools.sub (faceNode T vs i j (neighborFaceNode T 1 (i.sideOrientations j)))
      (faceNode T vs i j (neighborFaceNode T 0 (i.sideOrientations j)))

/-- The vector `tauVec` after the plus/minus decision: recomputed on a minus side. -/
def tauVec (sqrt : R → R) (T : MeshTools.Tables) (refPoint : VrtxCoords R)
    (refPointMethod : RefPointMethod) (vs : List (Vertex R)) (i : Element) (j : Fin 4) :
    VrtxCoords R :=
  if isPlus sqrt T refPoint refPointMethod vs i j then
    MeshTools.sub (faceNode T vs i j 2) (faceNode T vs i j 0)
  else
    MeshTools.sub (faceNode T vs i j (neighborFaceNode T 2 (i.sideOrientations j)))
      (faceNode T vs i j (neighborFaceNode T 0 (i.sideOrientations j)))

/-- The value `neighborIndex`: `neighbors[j]`, or `-1` when it equals `m_elements.size()`. -/
def neighborIndex (numElements : Nat) (i : Element) (j : Fin 4) : Int :=
  if i.neighbors j = (numElements : Int) then -1 else i.neighbors j

/-- The `Fault f` that is appended for side `j` of element `i`. -/
def faultEntry (sqrt : R → R) (T : MeshTools.Tables) (refPoint : VrtxCoords R)
    (refPointMethod : RefPointMethod) (numElements : Nat) (vs : List (Vertex R)) (i : Element)
    (j : Fin 4) : Fault R :=
  let plus := isPlus sqrt T refPoint refPointMethod vs i j
  let chi := chiVec sqrt T refPoint refPointMethod vs i j
  let tau := tauVec sqrt T refPoint refPointMethod vs i j
  let normal := if plus then localNormal sqrt T vs i j else unitNormal sqrt chi tau
  let tangent1 := MeshTools.mul chi (1 / MeshTools.norm sqrt chi)
  let tangent2 := MeshTools.cross normal tangent1
  if plus then
    { element := i.localId, side := (j : Nat), neighborElement := neighborIndex numElements i j,
      neighborSide := i.neighborSides j, tag := i.faultTags j,
      normal := normal, tangent1 := tangent1, tangent2 := tangent2 }
  else
    { element := neighborIndex numElements i j, side := i.neighborSides j,
      neighborElement := i.localId, neighborSide := (j : Nat), tag := i.faultTags j,
      normal := normal, tangent1 := tangent1, tangent2 := tangent2 }

/-- The body of the loop over the sides `j` of element `i`.  The reader carries
`m_MPIFaultNeighbors`, `m_fault` and `m_hasPlusFault`; the element is written back to
`m_elements` when its four sides are done. -/
def processSide (sqrt : R → R) (T : MeshTools.Tables) (refPoint : VrtxCoords R)
    (refPointMethod : RefPointMethod) (s : Element × MeshReader R) (j : Fin 4) :
    Element × MeshReader R :=
  let i : Element :=
    { s.1 with mpiFaultIndices := Function.update s.1.mpiFaultIndices j (-1) }
  let m := s.2
  if i.boundaries j ≠ 3 then (i, m)
  else if i.neighborRanks j = m.m_rank ∧ i.neighbors j < i.localId then (i, m)
  else
    let neighbors :=
      if i.neighborRanks j = m.m_rank then m.m_MPIFaultNeighbors
      else mapPushBack (i.neighborRanks j)
        { localElement := i.localId, localSide := (j : Nat), neighborElement := i.mpiIndices j,
          neighborSide := i.neighborSides j } m.m_MPIFaultNeighbors
    let f := faultEntry sqrt T refPoint refPointMethod m.m_elements.length m.m_vertices i j
    (i, { m with
          m_MPIFaultNeighbors := neighbors
          m_fault := m.m_fault ++ [f]
          m_hasPlusFault :=
            if isPlus sqrt T refPoint refPointMethod m.m_vertices i j = true ∨
                neighborIndex m.m_elements.length i j ≥ 0 then true
            else m.m_hasPlusFault })

/-- The loop `for (int j = 0; j < 4; j++)` on one element. -/
def processElement (sqrt : R → R) (T : MeshTools.Tables) (refPoint : VrtxCoords R)
    (refPointMethod : RefPointMethod) (m : MeshReader R) (i : Element) :
    Element × MeshReader R :=
  [0, 1, 2, 3].foldl (processSide sqrt T refPoint refPointMethod) (i, m)

/-- The loop `for (auto& i : m_elements)`: the elements, updated, and the reader after them. -/
def processElements (sqrt : R → R) (T : MeshTools.Tables) (refPoint : VrtxCoords R)
    (refPointMethod : RefPointMethod) : List Element → MeshReader R →
    List Element × MeshReader R
  | [], m => ([], m)
  | i :: rest, m =>
    let r := processElement sqrt T refPoint refPointMethod m i
    let rs := processElements sqrt T refPoint refPointMethod rest r.2
    (r.1 :: rs.1, rs.2)

end Extract

/-- The write `m_elements[localElement].mpiFaultIndices[localSide] = p`. -/
def setMpiFaultIndex (es : List Element) (localElement localSide : Int) (p : Int) :
    List Element :=
  if 0 ≤ localElement ∧ 0 ≤ localSide ∧ localSide < 4 then
    match es[localElement.toNat]? with
    | some e =>
      es.set localElement.toNat
        { e with mpiFaultIndices :=
            Function.update e.mpiFaultIndices (Fin.ofNat localSide.toNat) p }
    | none => es
  else es

/-- The loop `for (int j = 0; j < size; j++)` that writes the positions of a sorted sequence
back to the elements, from position `p` on. -/
def assignFrom (p : Nat) : List MPINeighborElement → List Element → List Element
  | [], es => es
  | x :: rest, es => assignFrom (p + 1) rest (setMpiFaultIndex es x.localElement x.localSide p)

/-- The sort of the sequence of remote rank `r` on the rank `rank`. -/
def sortFor (rank r : Int) (l : List MPINeighborElement) : List MPINeighborElement :=
  if r > rank then stdSort byLocal l else stdSort byNeighbor l

/-- The loop `for (auto& i : m_MPIFaultNeighbors)`: every sequence is sorted and its positions
are written to the elements. -/
def orderNeighbors (rank : Int) :
    List (Int × List MPINeighborElement) → List Element →
    List (Int × List MPINeighborElement) × List Element
  | [], es => ([], es)
  | (r, l) :: rest, es =>
    let rs := orderNeighbors rank rest (assignFrom 0 (sortFor rank r l) es)
    ((r, sortFor rank r l) :: rs.1, rs.2)

/-- The method `MeshReader::extractFaultInformation`. -/
def MeshReader.extractFaultInformation {R : Type} [Zero R] [One R] [Add R] [Sub R] [Mul R]
    [Div R] [LT R] [∀ a b : R, Decidable (a < b)] (sqrt : R → R)
    (T : MeshTools.Tables) (refPoint : VrtxCoords R) (refPointMethod : RefPointMethod)
    (m : MeshReader R) : MeshReader R :=
  let r := processElements sqrt T refPoint refPointMethod m.m_elements m
  let o := orderNeighbors m.m_rank r.2.m_MPIFaultNeighbors r.1
  { r.2 with m_elements := o.2, m_MPIFaultNeighbors := o.1 }

/-! ## The loops of extractFaultInformation, side by side -/


/-- The side `j` of element `i` passes the two `continue` guards of the loop body: it is a
dynamic-rupture side (tag 3) that is not a local side already handled from the lower id. -/
def isProcessed (rank : Int) (i : Element) (j : Fin 4) : Bool :=
  decide (i.boundaries j = 3) &&
    !(decide (i.neighborRanks j = rank) && decide (i.neighbors j < i.localId))

/-- The side `j` of element `i` is a dynamic-rupture side towards another rank, the case in
which a record is pushed to `m_MPIFaultNeighbors`. -/
def isRegistered (rank : Int) (i : Element) (j : Fin 4) : Bool :=
  decide (i.boundaries j = 3) && !decide (i.neighborRanks j = rank)

/-- The record `{i.localId, j, i.mpiIndices[j], i.neighborSides[j]}`. -/
def neighborRecord (i : Element) (j : Fin 4) : MPINeighborElement :=
  { localElement := i.localId, localSide := (j : Nat), neighborElement := i.mpiIndices j,
    neighborSide := i.neighborSides j }

/-- The sides that reach the fault computation, in the order of the two loops. -/
def processedSides (rank : Int) (es : List Element) : List (Element × Fin 4) :=
  es.flatMap (fun i => ([0, 1, 2, 3].filter (isProcessed rank i)).map (fun j => (i, j)))

/-- The sides for which a record is pushed, in the order of the two loops. -/
def registeredSides (rank : Int) (es : List Element) : List (Element × Fin 4) :=
  es.flatMap (fun i => ([0, 1, 2, 3].filter (isRegistered rank i)).map (fun j => (i, j)))

/-- The pushes of a list of sides into the table of fault neighbours. -/
def pushSides (sides : List (Element × Fin 4)) (t : List (Int × List MPINeighborElement)) :
    List (Int × List MPINeighborElement) :=
  sides.foldl (fun t p => mapPushBack (p.1.neighborRanks p.2) (neighborRecord p.1 p.2) t) t

/-- The element after its four sides: every `mpiFaultIndices[j]` is `-1`. -/
def clearIndices (i : Element) : Element :=
  { i with mpiFaultIndices := fun _ => -1 }

section Effects

variable {R : Type} [LinearOrderedField R]
variable (sqrt : R → R) (T : MeshTools.Tables) (rp : VrtxCoords R) (rm : RefPointMethod)

/-- The effect of one pass of the loop body on the reader, in terms of the two guards. -/
def sideEffect (i : Element) (m : MeshReader R) (j : Fin 4) : MeshReader R :=
  if isProcessed m.m_rank i j then
    { m with
      m_MPIFaultNeighbors :=
        if isRegistered m.m_rank i j then
          mapPushBack (i.neighborRanks j) (neighborRecord i j) m.m_MPIFaultNeighbors
        else m.m_MPIFaultNeighbors
      m_fault := m.m_fault ++ [faultEntry sqrt T rp rm m.m_elements.length m.m_vertices i j]
      m_hasPlusFault :=
        m.m_hasPlusFault || isPlus sqrt T rp rm m.m_vertices i j ||
          decide (0 ≤ neighborIndex m.m_elements.length i j) }
  else m

/-- The effect of the loop over the four sides of element `i` on the reader. -/
def elementEffect (m : MeshReader R) (i : Element) : MeshReader R :=
  [0, 1, 2, 3].foldl (sideEffect sqrt T rp rm i) m

end Effects

/-! ## Predicates and example meshes of the properties -/

/-- The frame of a fault entry is orthonormal and right-handed. -/
def Fault.IsOrthonormalFrame (sqrt : ℝ → ℝ) (f : Fault ℝ) : Prop :=
  MeshTools.norm sqrt f.normal = 1 ∧ MeshTools.norm sqrt f.tangent1 = 1 ∧
  MeshTools.norm sqrt f.tangent2 = 1 ∧
  MeshTools.dot f.normal f.tangent1 = 0 ∧ MeshTools.dot f.normal f.tangent2 = 0 ∧
  MeshTools.dot f.tangent1 f.tangent2 = 0 ∧
  f.tangent2 = MeshTools.cross f.normal f.tangent1

/-- The reference tetrahedron with the local vertices 0, 1, 2, 3, element 0 of `twoTets`: its
side 0 is a dynamic-rupture side towards element 1, with the fault tag 5. -/
def tetA : Element where
  localId := 0
  vertices := ![0, 1, 2, 3]
  neighbors := ![1, 2, 2, 2]
  neighborSides := ![0, 0, 0, 0]
  sideOrientations := ![0, 0, 0, 0]
  boundaries := ![3, 0, 0, 0]
  neighborRanks := ![0, 0, 0, 0]
  mpiIndices := ![0, 0, 0, 0]
  mpiFaultIndices := ![7, 7, 7, 7]
  faultTags := ![5, 0, 0, 0]
  group := 0

/-- The mirror image of `tetA` below the plane `z = 0`, element 1 of `twoTets`: its side 0 is
the same face, seen from the other side, with the fault tag 9. -/
def tetB : Element where
  localId := 1
  vertices := ![0, 2, 1, 4]
  neighbors := ![0, 2, 2, 2]
  neighborSides := ![0, 0, 0, 0]
  sideOrientations := ![0, 0, 0, 0]
  boundaries := ![3, 0, 0, 0]
  neighborRanks := ![0, 0, 0, 0]
  mpiIndices := ![0, 0, 0, 0]
  mpiFaultIndices := ![7, 7, 7, 7]
  faultTags := ![9, 0, 0, 0]
  group := 0

/-- The five vertices of `twoTets`: the origin, the three unit points, and `(0, 0, -1)`. -/
def twoTetsVertices (R : Type) [LinearOrderedField R] : List (Vertex R) :=
  [⟨⟨0, 0, 0⟩⟩, ⟨⟨1, 0, 0⟩⟩, ⟨⟨0, 1, 0⟩⟩, ⟨⟨0, 0, 1⟩⟩, ⟨⟨0, 0, -1⟩⟩]

/-- A mesh of one rank: two positively oriented tetrahedra on the two sides of the triangle
`(0,0,0), (1,0,0), (0,1,0)`, which is a dynamic-rupture face. -/
def twoTets (R : Type) [LinearOrderedField R] : MeshReader R where
  m_rank := 0
  m_elements := [tetA, tetB]
  m_vertices := twoTetsVertices R
  m_MPIFaultNeighbors := []
  m_fault := []
  m_hasPlusFault := false

/-- The six vertices of the two-rank example: the vertices of `twoTets` and `(0, -1, 0)`. -/
def twoRankVertices (R : Type) [LinearOrderedField R] : List (Vertex R) :=
  [⟨⟨0, 0, 0⟩⟩, ⟨⟨1, 0, 0⟩⟩, ⟨⟨0, 1, 0⟩⟩, ⟨⟨0, 0, 1⟩⟩, ⟨⟨0, 0, -1⟩⟩, ⟨⟨0, -1, 0⟩⟩]

/-- The only element of rank 0 in the two-rank example: the reference tetrahedron, whose sides
0 and 1 are dynamic-rupture sides towards rank 1. -/
def tetL : Element where
  localId := 0
  vertices := ![0, 1, 2, 3]
  neighbors := ![1, 1, 1, 1]
  neighborSides := ![0, 0, 0, 0]
  sideOrientations := ![0, 0, 0, 0]
  boundaries := ![3, 3, 0, 0]
  neighborRanks := ![1, 1, 0, 0]
  mpiIndices := ![1, 0, 0, 0]
  mpiFaultIndices := ![7, 7, 7, 7]
  faultTags := ![5, 6, 0, 0]
  group := 0

/-- Element 0 of rank 1: the tetrahedron behind side 1 of `tetL`, below the plane `y = 0`. -/
def tetR0 : Element where
  localId := 0
  vertices := ![0, 1, 3, 5]
  neighbors := ![2, 2, 2, 2]
  neighborSides := ![1, 0, 0, 0]
  sideOrientations := ![0, 0, 0, 0]
  boundaries := ![3, 0, 0, 0]
  neighborRanks := ![0, 1, 1, 1]
  mpiIndices := ![0, 0, 0, 0]
  mpiFaultIndices := ![7, 7, 7, 7]
  faultTags := ![6, 0, 0, 0]
  group := 0

/-- Element 1 of rank 1: the tetrahedron behind side 0 of `tetL`, below the plane `z = 0`. -/
def tetR1 : Element where
  localId := 1
  vertices := ![0, 2, 1, 4]
  neighbors := ![2, 2, 2, 2]
  neighborSides := ![0, 0, 0, 0]
  sideOrientations := ![0, 0, 0, 0]
  boundaries := ![3, 0, 0, 0]
  neighborRanks := ![0, 1, 1, 1]
  mpiIndices := ![0, 0, 0, 0]
  mpiFaultIndices := ![7, 7, 7, 7]
  faultTags := ![5, 0, 0, 0]
  group := 0

/-- The mesh of rank 0 in the two-rank example. -/
def rankZero (R : Type) [LinearOrderedField R] : MeshReader R where
  m_rank := 0
  m_elements := [tetL]
  m_vertices := twoRankVertices R
  m_MPIFaultNeighbors := []
  m_fault := []
  m_hasPlusFault := false

/-- The mesh of rank 1 in the two-rank example. -/
def rankOne (R : Type) [LinearOrderedField R] : MeshReader R where
  m_rank := 1
  m_elements := [tetR0, tetR1]
  m_vertices := twoRankVertices R
  m_MPIFaultNeighbors := []
  m_fault := []
  m_hasPlusFault := false

/-- Element 1 of rank 1 with its local vertices renumbered: the tetrahedron of `tetR1`, behind
side 0 of `tetL`, whose face vertices stand in the order `(0,1,0), (0,0,0), (1,0,0)`; its side
orientation towards `tetL` is 1. -/
def tetR1Rotated : Element where
  localId := 1
  vertices := ![2, 1, 0, 4]
  neighbors := ![2, 2, 2, 2]
  neighborSides := ![0, 0, 0, 0]
  sideOrientations := ![1, 0, 0, 0]
  boundaries := ![3, 0, 0, 0]
  neighborRanks := ![0, 1, 1, 1]
  mpiIndices := ![0, 0, 0, 0]
  mpiFaultIndices := ![7, 7, 7, 7]
  faultTags := ![5, 0, 0, 0]
  group := 0

/-- The mesh of rank 1 in the two-rank example, with `tetR1Rotated` in the place of `tetR1`. -/
def rankOneRotated (R : Type) [LinearOrderedField R] : MeshReader R where
  m_rank := 1
  m_elements := [tetR0, tetR1Rotated]
  m_vertices := twoRankVertices R
  m_MPIFaultNeighbors := []
  m_fault := []
  m_hasPlusFault := false

/-- Every element's `localId` is its position in `m_elements`. -/
def LocalIdIsPosition (es : List Element) : Prop :=
  es.map (fun e => e.localId) = (List.range es.length).map Int.ofNat

/-- Side `ja` of `a` and side `jb` of `b` are the two sides of one dynamic-rupture face inside
the rank `rank`: the tag is 3 on both sides, both neighbour ranks are the own rank, and the
neighbour links are symmetric. -/
def SharesLocalFace (rank : Int) (a : Element) (ja : Fin 4) (b : Element) (jb : Fin 4) : Prop :=
  a.boundaries ja = 3 ∧ b.boundaries jb = 3 ∧
  a.neighborRanks ja = rank ∧ b.neighborRanks jb = rank ∧
  a.neighbors ja = b.localId ∧ b.neighbors jb = a.localId ∧
  a.neighborSides ja = ((jb : Nat) : Int) ∧ b.neighborSides jb = ((ja : Nat) : Int)

/-- The fault entry `f` names the face between side `ja` of `a` and side `jb` of `b`, with
either of the two as its plus side. -/
def Fault.isBetween {R : Type} (a : Element) (ja : Fin 4) (b : Element) (jb : Fin 4)
    (f : Fault R) : Bool :=
  (decide (f.element = a.localId) && decide (f.side = ((ja : Nat) : Int)) &&
    decide (f.neighborElement = b.localId) && decide (f.neighborSide = ((jb : Nat) : Int))) ||
  (decide (f.element = b.localId) && decide (f.side = ((jb : Nat) : Int)) &&
    decide (f.neighborElement = a.localId) && decide (f.neighborSide = ((ja : Nat) : Int)))

/-- A tetrahedron without any dynamic-rupture side. -/
def tetPlain : Element where
  localId := 0
  vertices := ![0, 1, 2, 3]
  neighbors := ![1, 1, 1, 1]
  neighborSides := ![0, 0, 0, 0]
  sideOrientations := ![0, 0, 0, 0]
  boundaries := ![0, 1, 5, 0]
  neighborRanks := ![0, 0, 0, 0]
  mpiIndices := ![0, 0, 0, 0]
  mpiFaultIndices := ![7, 7, 7, 7]
  faultTags := ![0, 0, 0, 0]
  group := 0

/-- A mesh of one element whose boundary tags are all different from 3. -/
def plainMesh (R : Type) [LinearOrderedField R] : MeshReader R where
  m_rank := 0
  m_elements := [tetPlain]
  m_vertices := twoTetsVertices R
  m_MPIFaultNeighbors := []
  m_fault := []
  m_hasPlusFault := false

/-! ## Predicates on the table of fault neighbours -/

/-- The keys of the association list ascend strictly: the invariant of a `std::map`. -/
def MapOrdered {α : Type} (t : List (Int × List α)) : Prop :=
  (t.map Prod.fst).Pairwise (fun a b => a < b)

/-- The records that the first loop pushes for the remote rank `r`, in the order of the
pushes. -/
def registeredFor (rank r : Int) (es : List Element) : List MPINeighborElement :=
  ((registeredSides rank es).filter (fun p => decide (p.1.neighborRanks p.2 = r))).map
    (fun p => neighborRecord p.1 p.2)

/-- The lexicographic order of pairs of integers. -/
def lexLe (a b : Int × Int) : Prop := a.1 < b.1 ∨ (a.1 = b.1 ∧ a.2 ≤ b.2)

/-- The sort key `(localElement, localSide)`. -/
def localKey (x : MPINeighborElement) : Int × Int := (x.localElement, x.localSide)

/-- The sort key `(neighborElement, neighborSide)`. -/
def neighborKey (x : MPINeighborElement) : Int × Int := (x.neighborElement, x.neighborSide)

/-- The read `m_elements[localElement].mpiFaultIndices[localSide]`, `none` outside the
arrays. -/
def mpiFaultIndexAt (es : List Element) (localElement localSide : Int) : Option Int :=
  if 0 ≤ localElement ∧ 0 ≤ localSide ∧ localSide < 4 then
    match es[localElement.toNat]? with
    | some e => some (e.mpiFaultIndices (Fin.ofNat localSide.toNat))
    | none => none
  else none

/-- The addition `x + d` of two finite doubles does not round: `x` is a double and the exact
sum is a double. -/
def Binary64.ExactSum : Binary64 → Binary64 → Prop
  | Binary64.finite a, Binary64.finite b =>
    Binary64.round a = Binary64.finite a ∧ Binary64.round (a + b) = Binary64.finite (a + b)
  | _, _ => False

/-! ## Example for displaceMesh in double precision -/

/-- A mesh in double precision with the single vertex `(1.0, 0.0, 0.0)`. -/
def oneVertexMesh : MeshReader Binary64 where
  m_rank := 0
  m_elements := []
  m_vertices := [⟨⟨Binary64.ofInt 1, Binary64.ofInt 0, Binary64.ofInt 0⟩⟩]
  m_MPIFaultNeighbors := []
  m_fault := []
  m_hasPlusFault := false

/-- The offset `(2^53, 0.0, 0.0)` in double precision; `2^53 = 9007199254740992`. -/
def largeOffset : VrtxCoords Binary64 :=
  ⟨Binary64.ofInt 9007199254740992, Binary64.ofInt 0, Binary64.ofInt 0⟩

/-- The offset `(1.0, 0.0, 0.0)` in double precision. -/
def unitOffset : VrtxCoords Binary64 :=
  ⟨Binary64.ofInt 1, Binary64.ofInt 0, Binary64.ofInt 0⟩

/-! ## scaleMesh -/

/-- The product `scalingMatrix * point` of a 3x3 matrix of Eigen with a column vector;
`M i j` is the coefficient `scalingMatrix(i, j)`. -/
def matVec {R : Type} [Add R] [Mul R] (M : Fin 3 → Fin 3 → R) (point : VrtxCoords R) :
    VrtxCoords R :=
  ⟨M 0 0 * point.c0 + M 0 1 * point.c1 + M 0 2 * point.c2,
   M 1 0 * point.c0 + M 1 1 * point.c1 + M 1 2 * point.c2,
   M 2 0 * point.c0 + M 2 1 * point.c1 + M 2 2 * point.c2⟩

/-- The body of the loop of `scaleMesh`: `point` is filled from the three coordinates,
`result = scalingMatrix * point`, and `coords[i] = result[i]` for `i = 0, 1, 2`. -/
def scaleVertex {R : Type} [Add R] [Mul R] (scalingMatrix : Fin 3 → Fin 3 → R) (v : Vertex R) :
    Vertex R :=
  ⟨matVec scalingMatrix v.coords⟩

/-- The method `MeshReader::scaleMesh`. -/
def MeshReader.scaleMesh {R : Type} [Add R] [Mul R] (scalingMatrix : Fin 3 → Fin 3 → R)
    (m : MeshReader R) : MeshReader R :=
  { m with m_vertices := m.m_vertices.map (scaleVertex scalingMatrix) }

/-- The coordinate `coords[i]` of a triple. -/
def VrtxCoords.get {R : Type} (v : VrtxCoords R) (i : Fin 3) : R :=
  match i with
  | 0 => v.c0
  | 1 => v.c1
  | 2 => v.c2

/-! ## The packing loop of exchangeGhostlayerMetadata -/

/-- The body of the loop over `j` in `exchangeGhostlayerMetadata`: the record `ghost` of the
listed element `x`.  The access `m_elements.at(elementIdx)` throws outside the array, which is
`none` here. -/
def ghostRecord {R : Type} [Zero R] (m : MeshReader R) (x : MPINeighborElement) :
    Option (GhostElementMetadata R) :=
  if 0 ≤ x.localElement then
    match m.m_elements[x.localElement.toNat]? with
    | some element =>
      some { vertices := fun v => vertexCoords m.m_vertices (element.vertices v),
             group := element.group }
    | none => none
  else none

/-- The loop `for (size_t j = 0; j < count; ++j)`: the buffer `sendData[targetRank]` for the
element list of one neighbour rank. -/
def sendBuffer {R : Type} [Zero R] (m : MeshReader R) :
    List MPINeighborElement → Option (List (GhostElementMetadata R))
  | [] => some []
  | x :: rest =>
    match ghostRecord m x with
    | none => none
    | some g =>
      match sendBuffer m rest with
      | none => none
      | some gs => some (g :: gs)

/-- The loop over `m_MPINeighbors` in `exchangeGhostlayerMetadata`, with the sends and
receives left out: the send buffers, by target rank, in the order of the neighbour table. -/
def prepareSendData {R : Type} [Zero R] (m : MeshReader R) :
    List (Int × MPINeighbor) → Option (List (Int × List (GhostElementMetadata R)))
  | [] => some []
  | (targetRank, neighbor) :: rest =>
    match sendBuffer m neighbor.elements with
    | none => none
    | some buffer =>
      match prepareSendData m rest with
      | none => none
      | some buffers => some ((targetRank, buffer) :: buffers)

/-- The send buffers that `exchangeGhostlayerMetadata` prepares for the neighbour table of the
mesh. -/
def MeshReader.sendData {R : Type} [Zero R] (m : MeshReader R) :
    Option (List (Int × List (GhostElementMetadata R))) :=
  prepareSendData m m.m_MPINeighbors

/-- A mesh of rank 0 with the two elements of `twoTets` and a neighbour table that mirrors
element 1 and then element 0 to rank 1. -/
def ghostMesh (R : Type) [LinearOrderedField R] : MeshReader R where
  m_rank := 0
  m_elements := [tetA, tetB]
  m_vertices := twoTetsVertices R
  m_MPIFaultNeighbors := []
  m_fault := []
  m_hasPlusFault := false
  m_MPINeighbors :=
    [(1, { localID := 0,
           elements := [⟨1, 0, 0, 0⟩, ⟨0, 2, 1, 1⟩] })]

/-! ## faultParameterizedByTraction -/

/-- The set `stress` of `ParameterDB::faultParameterizedByTraction`. -/
def stress : List String := ["s_xx", "s_yy", "s_zz", "s_xy", "s_yz", "s_xz"]

/-- The set `traction` of `ParameterDB::faultParameterizedByTraction`. -/
def traction : List String := ["T_n", "T_s", "T_d"]

/-- The call `std::includes(supplied.begin(), supplied.end(), set.begin(), set.end())` on two
`std::set`: every element of `set` is an element of `supplied`. -/
def includes (supplied set : List String) : Bool :=
  set.all (fun x => supplied.contains x)

/-- The function `ParameterDB::faultParameterizedByTraction`, on the parameters that the model
supplies.  `logError()` is the hard failure of the logger: the result is an error with the
diagnostic text, and otherwise the returned value `containsTraction`. -/
def faultParameterizedByTraction (supplied : List String) : Except String Bool :=
  let containsStress := includes supplied stress
  let containsTraction := includes supplied traction
  if containsStress = containsTraction then
    Except.error
      ("Both stress (s_xx, s_yy, s_zz, s_xy, s_yz, s_xz) and traction (T_n, T_s, T_d) are " ++
        "defined (or are missing), but only either of them must be defined.")
  else
    Except.ok containsTraction

/-! ## Examples for the neighbour index -/

/-- A tetrahedron with the vertices of `tetA` whose side 0 is a dynamic-rupture side with the
neighbour index 5. -/
def tetOff : Element where
  localId := 0
  vertices := ![0, 1, 2, 3]
  neighbors := ![5, 1, 1, 1]
  neighborSides := ![0, 0, 0, 0]
  sideOrientations := ![0, 0, 0, 0]
  boundaries := ![3, 0, 0, 0]
  neighborRanks := ![0, 0, 0, 0]
  mpiIndices := ![0, 0, 0, 0]
  mpiFaultIndices := ![7, 7, 7, 7]
  faultTags := ![5, 0, 0, 0]
  group := 0

/-- A mesh of the single element `tetOff`: its neighbour index 5 exceeds the element count 1. -/
def offMesh (R : Type) [LinearOrderedField R] : MeshReader R where
  m_rank := 0
  m_elements := [tetOff]
  m_vertices := twoTetsVertices R
  m_MPIFaultNeighbors := []
  m_fault := []
  m_hasPlusFault := false

/-! ## computeSampleTimeIntegral -/

/-- The conversion of a `double` with the integral value `z` to `long` (64 bits, as on the
LP64 platforms that SeisSol runs on): the value itself when it is a signed 64-bit integer.
Otherwise the conversion is undefined in C++, and `outOfRange z` stands for what the platform
returns. -/
def toLong (outOfRange : Int → Int) (z : Int) : Int :=
  if -2 ^ 63 ≤ z ∧ z < 2 ^ 63 then z else outOfRange z

/-- The conversion `static_cast<long>(sampleSize)` of a `std::size_t`: the value modulo
`2^64`, read as a signed 64-bit integer. -/
def sizeToLong (n : Nat) : Int :=
  ((n : Int) + 2 ^ 63) % 2 ^ 64 - 2 ^ 63

/-- The result of an out-of-range conversion on x86-64: the instruction `cvttsd2si` returns
the "integer indefinite" value `-2^63`. -/
def integerIndefinite : Int → Int := fun _ => -2 ^ 63

section Sample

variable {R : Type} [LinearOrderedField R] [FloorRing R]

/-- The lambda `integrate` of `computeSampleTimeIntegral`; `sample i` is the read `sample[i]`
and `1 / 2` is the constant `0.5`. -/
def integrate (samplingInterval : R) (sample : Int → R) (index : Int) (tFrom tTo : R) : R :=
  let t0 := (index : R) * samplingInterval
  let t1 := t0 + samplingInterval
  let S0 := sample index
  let S1 := sample (index + 1)
  let tdiff := tTo - tFrom
  let tdiff2 := 1 / 2 * (tTo * tTo - tFrom * tFrom)
  (S0 * (t1 * tdiff - tdiff2) + S1 * (tdiff2 - t0 * tdiff)) / samplingInterval

/-- The loop `for (auto j = fromIndex + 1; j < toIndex - 1; ++j)` of
`computeSampleTimeIntegral`, which adds the trapezoid of every full interval to `integral`. -/
def addFullIntervals (samplingInterval : R) (sample : Int → R) (fromIndex toIndex : Int)
    (integral : R) : R :=
  (List.range (toIndex - 1 - (fromIndex + 1)).toNat).foldl
    (fun (acc : R) (k : Nat) =>
      acc + 1 / 2 * samplingInterval *
        (sample (fromIndex + 1 + (k : Int)) + sample (fromIndex + 1 + (k : Int) + 1)))
    integral

/-- The function `computeSampleTimeIntegral`, with the arithmetic of `double` exact.  The
parameters `from` and `to` of the source are `fromTime` and `toTime`.  The values of `floor`
and `ceil` are converted to `long` by `toLong`, where `outOfRange` gives the result of a
conversion that is out of range, and `sampleSize` by `sizeToLong`. -/
def computeSampleTimeIntegral (outOfRange : Int → Int)
    (fromTime toTime onsetTime samplingInterval : R) (sample : Int → R) (sampleSize : Nat) : R :=
  if sampleSize = 0 then 0
  else
    let from1 := max (fromTime - onsetTime) 0
    let to1 := min (toTime - onsetTime) (((sampleSize - 1 : Nat) : R) * samplingInterval)
    let fromIndex : Int := max 0 (toLong outOfRange ⌊from1 / samplingInterval⌋)
    let toIndex : Int :=
      min (sizeToLong sampleSize - 1) (toLong outOfRange ⌈to1 / samplingInterval⌉)
    if fromIndex ≥ toIndex then 0
    else if toIndex - fromIndex = 1 then integrate samplingInterval sample fromIndex from1 to1
    else
      let first := 0 + integrate samplingInterval sample fromIndex from1
        (((fromIndex + 1 : Int) : R) * samplingInterval)
      let middle := addFullIntervals samplingInterval sample fromIndex toIndex first
      middle + integrate samplingInterval sample (toIndex - 1)
        (((toIndex - 1 : Int) : R) * samplingInterval) to1

/-- The function that the doc comment of `computeSampleTimeIntegral` integrates, written from
its words: the piecewise-linear interpolant of the samples placed at the times
`onsetTime + k * samplingInterval` for `k = 0, ..., sampleSize - 1`, and zero outside the
interval from `onsetTime` to `onsetTime + (sampleSize - 1) * samplingInterval`. -/
def sampleInterpolant (onsetTime samplingInterval : R) (sample : Int → R) (sampleSize : Nat)
    (t : R) : R :=
  if onsetTime ≤ t ∧ t ≤ onsetTime + ((sampleSize : R) - 1) * samplingInterval then
    sample ⌊(t - onsetTime) / samplingInterval⌋ +
      (sample (⌊(t - onsetTime) / samplingInterval⌋ + 1) -
          sample ⌊(t - onsetTime) / samplingInterval⌋) *
        ((t - onsetTime) / samplingInterval - (⌊(t - onsetTime) / samplingInterval⌋ : R))
  else 0

end Sample

/-! ## The reads of computeSampleTimeIntegral -/

section SampleReads

variable {R : Type} [LinearOrderedField R] [FloorRing R]

/-- The lambda `integrate` of `computeSampleTimeIntegral` with a record of its reads: the value
of `integrate`, and the indices `index` and `index + 1` of the reads `sample[index]` and
`sample[index + 1]`, in this order. -/
def integrateTraced (samplingInterval : R) (sample : Int → R) (index : Int) (tFrom tTo : R) :
    R × List Int :=
  (integrate samplingInterval sample index tFrom tTo, [index, index + 1])

/-- The loop `for (auto j = fromIndex + 1; j < toIndex - 1; ++j)` with a record of its reads:
every pass adds the trapezoid to `integral` and reads `sample[j]` and `sample[j + 1]`. -/
def addFullIntervalsTraced (samplingInterval : R) (sample : Int → R) (fromIndex toIndex : Int)
    (integral : R × List Int) : R × List Int :=
  (List.range (toIndex - 1 - (fromIndex + 1)).toNat).foldl
    (fun (acc : R × List Int) (k : Nat) =>
      (acc.1 + 1 / 2 * samplingInterval *
          (sample (fromIndex + 1 + (k : Int)) + sample (fromIndex + 1 + (k : Int) + 1)),
        acc.2 ++ [fromIndex + 1 + (k : Int), fromIndex + 1 + (k : Int) + 1]))
    integral

/-- The function `computeSampleTimeIntegral` with a record of its reads: the returned value,
and the indices `k` of all reads `sample[k]` in the order in which they happen.  Nothing else
of the source reads `sample`. -/
def computeSampleTimeIntegralTraced (outOfRange : Int → Int)
    (fromTime toTime onsetTime samplingInterval : R) (sample : Int → R) (sampleSize : Nat) :
    R × List Int :=
  if sampleSize = 0 then (0, [])
  else
    let from1 := max (fromTime - onsetTime) 0
    let to1 := min (toTime - onsetTime) (((sampleSize - 1 : Nat) : R) * samplingInterval)
    let fromIndex : Int := max 0 (toLong outOfRange ⌊from1 / samplingInterval⌋)
    let toIndex : Int :=
      min (sizeToLong sampleSize - 1) (toLong outOfRange ⌈to1 / samplingInterval⌉)
    if fromIndex ≥ toIndex then (0, [])
    else if toIndex - fromIndex = 1 then
      integrateTraced samplingInterval sample fromIndex from1 to1
    else
      let first := integrateTraced samplingInterval sample fromIndex from1
        (((fromIndex + 1 : Int) : R) * samplingInterval)
      let middle := addFullIntervalsTraced samplingInterval sample fromIndex toIndex
        (0 + first.1, first.2)
      let last := integrateTraced samplingInterval sample (toIndex - 1)
        (((toIndex - 1 : Int) : R) * samplingInterval) to1
      (middle.1 + last.1, middle.2 ++ last.2)

end SampleReads

/-! ## initReveiverLocations and FaultBarycentreGenerator::generate -/

/-- Modelled from the spec: the struct `TriangleT` of `DrDataTypes.hpp` (not among the
sources), as `initReveiverLocations` uses it: three points of three coordinates each
(`Points[k].x`, `.y`, `.z`; the points are also named `p1`, `p2`, `p3`, and their coordinates
`xi`, `eta`, `zeta`). -/
structure TriangleT (R : Type) where
  Points : Fin 3 → VrtxCoords R

/-- The arguments of one call
`FaultRefiner->refineAndAccumulate(Refinement, FaceIndex, ReferenceFace, GlobalFace)`.  The
refiner (`FaultRefiner.hpp`) is not among the sources; what `initReveiverLocations` passes to
it is recorded as the list of these calls, in the order of the calls. -/
structure RefinerCall (R : Type) where
  Refinement : Int
  FaceIndex : Nat
  ReferenceFace : TriangleT R
  GlobalFace : TriangleT R

/-- The table `LocalVertexMap` of `getElementVertexId`. -/
def LocalVertexMap : Fin 4 → Fin 3 → Fin 4 :=
  ![![0, 2, 1], ![0, 1, 3], ![0, 3, 2], ![1, 2, 3]]

/-- The function `ElementWiseOutput::getElementVertexId`. -/
def getElementVertexId (LocalSideId : Fin 4) (LocalFaceVertexId : Fin 3) : Fin 4 :=
  LocalVertexMap LocalSideId LocalFaceVertexId

/-- The function `ElementWiseOutput::getReferenceFace`; the `throw` of the `default` case is
the error. -/
def getReferenceFace {R : Type} [Zero R] [One R] (LocalSideId : Int) :
    Except String (TriangleT R) :=
  if LocalSideId = 0 then
    Except.ok { Points := ![⟨0, 0, 0⟩, ⟨0, 1, 0⟩, ⟨1, 0, 0⟩] }
  else if LocalSideId = 1 then
    Except.ok { Points := ![⟨0, 0, 0⟩, ⟨1, 0, 0⟩, ⟨0, 0, 1⟩] }
  else if LocalSideId = 2 then
    Except.ok { Points := ![⟨0, 0, 0⟩, ⟨0, 0, 1⟩, ⟨0, 1, 0⟩] }
  else if LocalSideId = 3 then
    Except.ok { Points := ![⟨1, 0, 0⟩, ⟨0, 1, 0⟩, ⟨0, 0, 1⟩] }
  else
    Except.error "Unknown Local Side Id. Must be 0, 1, 2 or 3"

/-- The read `VerticesInfo[ElementsInfo[ElementIndex].vertices[ElementVertexId]].coords`. -/
def elementVertexCoords {R : Type} [Zero R] (m : MeshReader R) (ElementIndex : Int)
    (ElementVertexId : Fin 4) : VrtxCoords R :=
  if 0 ≤ ElementIndex then
    match m.m_elements[ElementIndex.toNat]? with
    | some element => vertexCoords m.m_vertices (element.vertices ElementVertexId)
    | none => ⟨0, 0, 0⟩
  else ⟨0, 0, 0⟩

/-- The body of the loop over the fault faces in `initReveiverLocations`, for the face
`FaceIndex` with the entry `f` of the fault list: under the test `ElementIndex > 0` one call
of the refiner is added to `calls`.  The array `ElementVerticesCoords` of the source is
filled and not used, and is left out. -/
def refineFace {R : Type} [Zero R] [One R] (Refinement : Int) (m : MeshReader R)
    (FaceIndex : Nat) (f : Fault R) (calls : List (RefinerCall R)) :
    Except String (List (RefinerCall R)) :=
  let ElementIndex := f.element
  if ElementIndex > 0 then
    let LocalFaceSideId := f.side
    match getReferenceFace LocalFaceSideId with
    | Except.error e => Except.error e
    | Except.ok ReferenceFace =>
      let GlobalFace : TriangleT R :=
        { Points := fun FaceVertexId =>
            elementVertexCoords m ElementIndex
              (getElementVertexId (Fin.ofNat LocalFaceSideId.toNat) FaceVertexId) }
      Except.ok (calls ++ [{ Refinement := Refinement, FaceIndex := FaceIndex,
                             ReferenceFace := ReferenceFace, GlobalFace := GlobalFace }])
  else Except.ok calls

/-- The loop `for (size_t FaceIndex = 0; FaceIndex < m_GeomParam.NumSides; ++FaceIndex)` of
`initReveiverLocations`, from the face `FaceIndex` on. -/
def refineFaces {R : Type} [Zero R] [One R] (Refinement : Int) (m : MeshReader R) :
    Nat → List (Fault R) → List (RefinerCall R) → Except String (List (RefinerCall R))
  | _, [], calls => Except.ok calls
  | FaceIndex, f :: rest, calls =>
    match refineFace Refinement m FaceIndex f calls with
    | Except.error e => Except.error e
    | Except.ok calls2 => refineFaces Refinement m (FaceIndex + 1) rest calls2

/-- The function `ElementWiseOutput::initReveiverLocations`, up to the end of its loop: the
calls of the refiner for the fault list of the mesh reader, where `Refinement` is
`m_ElementwiseParams.Refinement`.  What the refiner makes of the calls (the receiver points)
is not modelled. -/
def initReveiverLocations {R : Type} [Zero R] [One R] (Refinement : Int) (m : MeshReader R) :
    Except String (List (RefinerCall R)) :=
  refineFaces Refinement m 0 m.m_fault []

/-- The choice at the head of the loop body of `FaultBarycentreGenerator::generate`: the
element and the side whose barycentre and fault tag are queried for the fault face `f`.
`MeshTools::center` and the query are not modelled. -/
def generateElementSide {R : Type} (f : Fault R) : Int × Int :=
  if f.element ≥ 0 then (f.element, f.side) else (f.neighborElement, f.neighborSide)

/-- The face indices of a fault list, counted from `k`, whose entry satisfies `p`. -/
def faceIndicesFrom {R : Type} (p : Fault R → Bool) : Nat → List (Fault R) → List Nat
  | _, [] => []
  | k, f :: rest => if p f then k :: faceIndicesFrom p (k + 1) rest
    else faceIndicesFrom p (k + 1) rest

/-! ## The loops, characterised -/

section Loops

variable {R : Type} [LinearOrderedField R]
variable (sqrt : R → R) (T : MeshTools.Tables) (rp : VrtxCoords R) (rm : RefPointMethod)

theorem faultEntry_idx (n : Nat) (vs : List (Vertex R)) (i : Element) (g : Fin 4 → Int)
    (j : Fin 4) :
    faultEntry sqrt T rp rm n vs { i with mpiFaultIndices := g } j
      = faultEntry sqrt T rp rm n vs i j := rfl

theorem isPlus_idx (vs : List (Vertex R)) (i : Element) (g : Fin 4 → Int)
    (j : Fin 4) :
    isPlus sqrt T rp rm vs { i with mpiFaultIndices := g } j
      = isPlus sqrt T rp rm vs i j := rfl

theorem neighborIndex_idx (n : Nat) (i : Element) (g : Fin 4 → Int) (j : Fin 4) :
    neighborIndex n { i with mpiFaultIndices := g } j = neighborIndex n i j := rfl

theorem processSide_eq (i : Element) (g : Fin 4 → Int) (m : MeshReader R) (j : Fin 4) :
    processSide sqrt T rp rm ({ i with mpiFaultIndices := g }, m) j
      = ({ i with mpiFaultIndices := Function.update g j (-1) },
          sideEffect sqrt T rp rm i m j) := by
  by_cases h3 : i.boundaries j = 3
  · by_cases hr : i.neighborRanks j = m.m_rank
    · by_cases hl : i.neighbors j < i.localId
      · simp [processSide, sideEffect, isProcessed, h3, hr, hl]
      · by_cases hp : isPlus sqrt T rp rm m.m_vertices i j = true
        · simp [processSide, sideEffect, isProcessed, isRegistered, h3, hr, hl, hp,
            faultEntry_idx, isPlus_idx, neighborIndex_idx]
        · by_cases hn : 0 ≤ neighborIndex m.m_elements.length i j
          · simp [processSide, sideEffect, isProcessed, isRegistered, h3, hr, hl, hp, hn,
              faultEntry_idx, isPlus_idx, neighborIndex_idx]
          · simp [processSide, sideEffect, isProcessed, isRegistered, h3, hr, hl, hp, hn,
              faultEntry_idx, isPlus_idx, neighborIndex_idx]
    · by_cases hp : isPlus sqrt T rp rm m.m_vertices i j = true
      · simp [processSide, sideEffect, isProcessed, isRegistered, h3, hr, hp,
            faultEntry_idx, isPlus_idx, neighborIndex_idx, neighborRecord]
      · by_cases hn : 0 ≤ neighborIndex m.m_elements.length i j
        · simp [processSide, sideEffect, isProcessed, isRegistered, h3, hr, hp, hn,
              faultEntry_idx, isPlus_idx, neighborIndex_idx, neighborRecord]
        · simp [processSide, sideEffect, isProcessed, isRegistered, h3, hr, hp, hn,
              faultEntry_idx, isPlus_idx, neighborIndex_idx, neighborRecord]
  · simp [processSide, sideEffect, isProcessed, h3]

theorem sideEffect_rank (i : Element) (m : MeshReader R) (j : Fin 4) :
    (sideEffect sqrt T rp rm i m j).m_rank = m.m_rank := by
  unfold sideEffect; split <;> rfl

theorem sideEffect_elements (i : Element) (m : MeshReader R) (j : Fin 4) :
    (sideEffect sqrt T rp rm i m j).m_elements = m.m_elements := by
  unfold sideEffect; split <;> rfl

theorem sideEffect_vertices (i : Element) (m : MeshReader R) (j : Fin 4) :
    (sideEffect sqrt T rp rm i m j).m_vertices = m.m_vertices := by
  unfold sideEffect; split <;> rfl

theorem foldl_processSide (i : Element) (js : List (Fin 4)) :
    ∀ (g : Fin 4 → Int) (m : MeshReader R),
    js.foldl (processSide sqrt T rp rm) ({ i with mpiFaultIndices := g }, m)
      = ({ i with mpiFaultIndices := js.foldl (fun g j => Function.update g j (-1)) g },
          js.foldl (sideEffect sqrt T rp rm i) m) := by
  induction js with
  | nil => intro g m; rfl
  | cons j js ih =>
    intro g m
    rw [List.foldl_cons, processSide_eq, ih]
    rfl

theorem processElement_eq (m : MeshReader R) (i : Element) :
    processElement sqrt T rp rm m i = (clearIndices i, elementEffect sqrt T rp rm m i) := by
  have h := foldl_processSide sqrt T rp rm i [0, 1, 2, 3] i.mpiFaultIndices m
  unfold processElement elementEffect clearIndices
  refine h.trans ?_
  congr 2
  funext k
  fin_cases k <;> simp [Function.update]

theorem processElements_eq (es : List Element) :
    ∀ m : MeshReader R, processElements sqrt T rp rm es m
      = (es.map clearIndices, es.foldl (elementEffect sqrt T rp rm) m) := by
  induction es with
  | nil => intro m; rfl
  | cons i es ih =>
    intro m
    simp only [processElements, processElement_eq, ih, List.map_cons, List.foldl_cons]

/-- The fields that a fold of `sideEffect` leaves alone. -/
theorem foldl_sideEffect_frame (i : Element) (js : List (Fin 4)) :
    ∀ m : MeshReader R,
      (js.foldl (sideEffect sqrt T rp rm i) m).m_rank = m.m_rank ∧
      (js.foldl (sideEffect sqrt T rp rm i) m).m_elements = m.m_elements ∧
      (js.foldl (sideEffect sqrt T rp rm i) m).m_vertices = m.m_vertices := by
  induction js with
  | nil => intro m; exact ⟨rfl, rfl, rfl⟩
  | cons j js ih =>
    intro m
    obtain ⟨h1, h2, h3⟩ := ih (sideEffect sqrt T rp rm i m j)
    rw [List.foldl_cons]
    exact ⟨h1.trans (sideEffect_rank ..), h2.trans (sideEffect_elements ..),
      h3.trans (sideEffect_vertices ..)⟩

theorem foldl_sideEffect_fault (i : Element) (js : List (Fin 4)) :
    ∀ m : MeshReader R,
      (js.foldl (sideEffect sqrt T rp rm i) m).m_fault
        = m.m_fault ++ (js.filter (isProcessed m.m_rank i)).map
            (faultEntry sqrt T rp rm m.m_elements.length m.m_vertices i) := by
  induction js with
  | nil => intro m; simp
  | cons j js ih =>
    intro m
    rw [List.foldl_cons, ih, sideEffect_rank, sideEffect_elements, sideEffect_vertices]
    by_cases h : isProcessed m.m_rank i j = true
    · simp [sideEffect, h, List.filter_cons]
    · simp [sideEffect, h, List.filter_cons]

theorem isRegistered_isProcessed {rank : Int} {i : Element} {j : Fin 4}
    (h : isRegistered rank i j = true) : isProcessed rank i j = true := by
  simp only [isRegistered, isProcessed, Bool.and_eq_true, decide_eq_true_eq, Bool.not_eq_true',
    decide_eq_false_iff_not, Bool.and_eq_false_imp] at h ⊢
  exact ⟨h.1, fun h2 => absurd h2 h.2⟩

theorem foldl_sideEffect_neighbors (i : Element) (js : List (Fin 4)) :
    ∀ m : MeshReader R,
      (js.foldl (sideEffect sqrt T rp rm i) m).m_MPIFaultNeighbors
        = pushSides ((js.filter (isRegistered m.m_rank i)).map (fun j => (i, j)))
            m.m_MPIFaultNeighbors := by
  induction js with
  | nil => intro m; simp [pushSides]
  | cons j js ih =>
    intro m
    rw [List.foldl_cons, ih, sideEffect_rank]
    by_cases hr : isRegistered m.m_rank i j = true
    · have hp := isRegistered_isProcessed hr
      simp [sideEffect, hr, hp, List.filter_cons, pushSides]
    · by_cases hp : isProcessed m.m_rank i j = true
      · simp [sideEffect, hr, hp, List.filter_cons, pushSides]
      · simp [sideEffect, hr, hp, List.filter_cons, pushSides]

theorem elementEffect_frame (m : MeshReader R) (i : Element) :
    (elementEffect sqrt T rp rm m i).m_rank = m.m_rank ∧
    (elementEffect sqrt T rp rm m i).m_elements = m.m_elements ∧
    (elementEffect sqrt T rp rm m i).m_vertices = m.m_vertices :=
  foldl_sideEffect_frame sqrt T rp rm i [0, 1, 2, 3] m

theorem foldl_elementEffect_frame (es : List Element) :
    ∀ m : MeshReader R,
      (es.foldl (elementEffect sqrt T rp rm) m).m_rank = m.m_rank ∧
      (es.foldl (elementEffect sqrt T rp rm) m).m_elements = m.m_elements ∧
      (es.foldl (elementEffect sqrt T rp rm) m).m_vertices = m.m_vertices := by
  induction es with
  | nil => intro m; exact ⟨rfl, rfl, rfl⟩
  | cons i es ih =>
    intro m
    obtain ⟨h1, h2, h3⟩ := ih (elementEffect sqrt T rp rm m i)
    obtain ⟨k1, k2, k3⟩ := elementEffect_frame sqrt T rp rm m i
    rw [List.foldl_cons]
    exact ⟨h1.trans k1, h2.trans k2, h3.trans k3⟩

theorem foldl_elementEffect_fault (es : List Element) :
    ∀ m : MeshReader R,
      (es.foldl (elementEffect sqrt T rp rm) m).m_fault
        = m.m_fault ++ (processedSides m.m_rank es).map
            (fun p => faultEntry sqrt T rp rm m.m_elements.length m.m_vertices p.1 p.2) := by
  induction es with
  | nil => intro m; simp [processedSides]
  | cons i es ih =>
    intro m
    obtain ⟨k1, k2, k3⟩ := elementEffect_frame sqrt T rp rm m i
    have k4 : (elementEffect sqrt T rp rm m i).m_fault
        = m.m_fault ++ ([0, 1, 2, 3].filter (isProcessed m.m_rank i)).map
            (faultEntry sqrt T rp rm m.m_elements.length m.m_vertices i) :=
      foldl_sideEffect_fault sqrt T rp rm i [0, 1, 2, 3] m
    rw [List.foldl_cons, ih, k1, k2, k3, k4]
    simp only [processedSides, List.flatMap_cons, List.map_append, List.map_map,
      List.append_assoc, Function.comp_def]

theorem pushSides_append (s1 s2 : List (Element × Fin 4))
    (t : List (Int × List MPINeighborElement)) :
    pushSides (s1 ++ s2) t = pushSides s2 (pushSides s1 t) := by
  simp [pushSides, List.foldl_append]

theorem foldl_elementEffect_neighbors (es : List Element) :
    ∀ m : MeshReader R,
      (es.foldl (elementEffect sqrt T rp rm) m).m_MPIFaultNeighbors
        = pushSides (registeredSides m.m_rank es) m.m_MPIFaultNeighbors := by
  induction es with
  | nil => intro m; simp [registeredSides, pushSides]
  | cons i es ih =>
    intro m
    obtain ⟨k1, k2, k3⟩ := elementEffect_frame sqrt T rp rm m i
    have k4 : (elementEffect sqrt T rp rm m i).m_MPIFaultNeighbors
        = pushSides (([0, 1, 2, 3].filter (isRegistered m.m_rank i)).map (fun j => (i, j)))
            m.m_MPIFaultNeighbors :=
      foldl_sideEffect_neighbors sqrt T rp rm i [0, 1, 2, 3] m
    rw [List.foldl_cons, ih, k1, k4]
    simp only [registeredSides, List.flatMap_cons, pushSides_append]

theorem orderNeighbors_fst (rank : Int) (t : List (Int × List MPINeighborElement)) :
    ∀ es : List Element,
      (orderNeighbors rank t es).1 = t.map (fun e => (e.1, sortFor rank e.1 e.2)) := by
  induction t with
  | nil => intro es; rfl
  | cons e t ih =>
    intro es
    obtain ⟨r, l⟩ := e
    simp only [orderNeighbors, List.map_cons, ih]

theorem extract_fault (m : MeshReader R) :
    (m.extractFaultInformation sqrt T rp rm).m_fault
      = m.m_fault ++ (processedSides m.m_rank m.m_elements).map
          (fun p => faultEntry sqrt T rp rm m.m_elements.length m.m_vertices p.1 p.2) := by
  simp only [MeshReader.extractFaultInformation, processElements_eq, foldl_elementEffect_fault]

theorem extract_neighbors (m : MeshReader R) :
    (m.extractFaultInformation sqrt T rp rm).m_MPIFaultNeighbors
      = (pushSides (registeredSides m.m_rank m.m_elements) m.m_MPIFaultNeighbors).map
          (fun e => (e.1, sortFor m.m_rank e.1 e.2)) := by
  simp only [MeshReader.extractFaultInformation, processElements_eq, orderNeighbors_fst,
    foldl_elementEffect_neighbors]

theorem extract_elements (m : MeshReader R) :
    (m.extractFaultInformation sqrt T rp rm).m_elements
      = (orderNeighbors m.m_rank
          (pushSides (registeredSides m.m_rank m.m_elements) m.m_MPIFaultNeighbors)
          (m.m_elements.map clearIndices)).2 := by
  simp only [MeshReader.extractFaultInformation, processElements_eq,
    foldl_elementEffect_neighbors]

end Loops

/-! ## The frame of a fault entry -/

theorem dot_self_pos {v : VrtxCoords ℝ} (h : v ≠ ⟨0, 0, 0⟩) : 0 < MeshTools.dot v v := by
  obtain ⟨x, y, z⟩ := v
  simp only [MeshTools.dot]
  by_contra hn
  have h0 : x * x + y * y + z * z = 0 := le_antisymm (not_lt.mp hn)
    (by nlinarith [mul_self_nonneg x, mul_self_nonneg y, mul_self_nonneg z])
  have hx : x = 0 := by nlinarith [mul_self_nonneg x, mul_self_nonneg y, mul_self_nonneg z]
  have hy : y = 0 := by nlinarith [mul_self_nonneg x, mul_self_nonneg y, mul_self_nonneg z]
  have hz : z = 0 := by nlinarith [mul_self_nonneg x, mul_self_nonneg y, mul_self_nonneg z]
  exact h (by rw [hx, hy, hz])

theorem inv_norm_sq {C : ℝ} (h : 0 < C) :
    (1 / Real.sqrt C) * (1 / Real.sqrt C) * C = 1 := by
  have hs : Real.sqrt C * Real.sqrt C = C := Real.mul_self_sqrt h.le
  have hne : Real.sqrt C ≠ 0 := (Real.sqrt_pos.mpr h).ne'
  calc (1 / Real.sqrt C) * (1 / Real.sqrt C) * C
      = (1 / Real.sqrt C) * (1 / Real.sqrt C) * (Real.sqrt C * Real.sqrt C) := by rw [hs]
    _ = 1 := by field_simp

theorem chi_ne_zero {chi tau : VrtxCoords ℝ} (h : MeshTools.cross chi tau ≠ ⟨0, 0, 0⟩) :
    chi ≠ ⟨0, 0, 0⟩ := by
  intro hc
  apply h
  rw [hc]
  simp [MeshTools.cross]

/-- The frame built from `chi` and `tau` is orthonormal when their cross product is not zero. -/
theorem frame_of_cross_ne_zero (chi tau : VrtxCoords ℝ)
    (h : MeshTools.cross chi tau ≠ ⟨0, 0, 0⟩) :
    let n := unitNormal Real.sqrt chi tau
    let t1 := MeshTools.mul chi (1 / MeshTools.norm Real.sqrt chi)
    let t2 := MeshTools.cross n t1
    MeshTools.norm Real.sqrt n = 1 ∧ MeshTools.norm Real.sqrt t1 = 1 ∧
    MeshTools.norm Real.sqrt t2 = 1 ∧ MeshTools.dot n t1 = 0 ∧ MeshTools.dot n t2 = 0 ∧
    MeshTools.dot t1 t2 = 0 := by
  intro n t1 t2
  have hC := dot_self_pos h
  have hX := dot_self_pos (chi_ne_zero h)
  have ha := inv_norm_sq hC
  have hb := inv_norm_sq hX
  have hnn : MeshTools.dot n n = 1 := by
    simp only [n, unitNormal, MeshTools.norm]
    generalize (1 / Real.sqrt (MeshTools.dot (MeshTools.cross chi tau) (MeshTools.cross chi tau))) = a at ha ⊢
    obtain ⟨x0, x1, x2⟩ := chi
    obtain ⟨y0, y1, y2⟩ := tau
    simp only [MeshTools.dot, MeshTools.cross, MeshTools.mul] at ha ⊢
    linear_combination ha
  have htt : MeshTools.dot t1 t1 = 1 := by
    simp only [t1, MeshTools.norm]
    generalize (1 / Real.sqrt (MeshTools.dot chi chi)) = b at hb ⊢
    obtain ⟨x0, x1, x2⟩ := chi
    simp only [MeshTools.dot, MeshTools.mul] at hb ⊢
    linear_combination hb
  have h22 : MeshTools.dot t2 t2 = 1 := by
    simp only [t2, n, t1, unitNormal, MeshTools.norm]
    generalize (1 / Real.sqrt (MeshTools.dot (MeshTools.cross chi tau) (MeshTools.cross chi tau))) = a at ha ⊢
    generalize (1 / Real.sqrt (MeshTools.dot chi chi)) = b at hb ⊢
    obtain ⟨x0, x1, x2⟩ := chi
    obtain ⟨y0, y1, y2⟩ := tau
    simp only [MeshTools.dot, MeshTools.cross, MeshTools.mul] at ha hb ⊢
    linear_combination (b * b * (x0 * x0 + x1 * x1 + x2 * x2)) * ha + hb
  refine ⟨?_, ?_, ?_, ?_, ?_, ?_⟩
  · simp only [MeshTools.norm, hnn, Real.sqrt_one]
  · simp only [MeshTools.norm, htt, Real.sqrt_one]
  · simp only [MeshTools.norm, h22, Real.sqrt_one]
  · simp only [n, t1, unitNormal, MeshTools.norm]
    obtain ⟨x0, x1, x2⟩ := chi
    obtain ⟨y0, y1, y2⟩ := tau
    simp only [MeshTools.dot, MeshTools.cross, MeshTools.mul]
    ring
  · simp only [t2]
    generalize n = n
    generalize t1 = t1
    obtain ⟨x0, x1, x2⟩ := n
    obtain ⟨y0, y1, y2⟩ := t1
    simp only [MeshTools.dot, MeshTools.cross]
    ring
  · simp only [t2]
    generalize n = n
    generalize t1 = t1
    obtain ⟨x0, x1, x2⟩ := n
    obtain ⟨y0, y1, y2⟩ := t1
    simp only [MeshTools.dot, MeshTools.cross]
    ring


theorem cross_perm_sq (p : Fin 3 → VrtxCoords ℝ) (q0 q1 q2 : Fin 3) (h01 : q0 ≠ q1)
    (h02 : q0 ≠ q2) (h12 : q1 ≠ q2) :
    MeshTools.dot
        (MeshTools.cross (MeshTools.sub (p q1) (p q0)) (MeshTools.sub (p q2) (p q0)))
        (MeshTools.cross (MeshTools.sub (p q1) (p q0)) (MeshTools.sub (p q2) (p q0)))
      = MeshTools.dot
        (MeshTools.cross (MeshTools.sub (p 1) (p 0)) (MeshTools.sub (p 2) (p 0)))
        (MeshTools.cross (MeshTools.sub (p 1) (p 0)) (MeshTools.sub (p 2) (p 0))) := by
  generalize h0 : p 0 = P0
  generalize h1 : p 1 = P1
  generalize h2 : p 2 = P2
  fin_cases q0 <;> fin_cases q1 <;> fin_cases q2 <;>
    first
    | exact absurd rfl h01
    | exact absurd rfl h02
    | exact absurd rfl h12
    | (simp only [Fin.zero_eta, Fin.mk_one, Fin.reduceFinMk, h0, h1, h2, MeshTools.dot,
        MeshTools.cross, MeshTools.sub] <;> ring)

theorem neighborFaceNode_distinct (T : MeshTools.Tables)
    (hT : Function.Injective T.NEIGHBORFACENODE2LOCAL) (so : Int)
    (hso : so = 0 ∨ so = 1 ∨ so = 2) :
    neighborFaceNode T 0 so ≠ neighborFaceNode T 1 so ∧
    neighborFaceNode T 0 so ≠ neighborFaceNode T 2 so ∧
    neighborFaceNode T 1 so ≠ neighborFaceNode T 2 so := by
  rcases hso with h | h | h <;> subst h <;>
    exact ⟨hT.ne (by decide), hT.ne (by decide), hT.ne (by decide)⟩

theorem cross_ne_of_dot_pos {v : VrtxCoords ℝ} (h : 0 < MeshTools.dot v v) :
    v ≠ ⟨0, 0, 0⟩ := by
  intro hv
  rw [hv] at h
  simp [MeshTools.dot] at h

/-- C1: over the reals, the frame of the fault entry that `extractFaultInformation` appends
for a processed side is orthonormal and right-handed, when the three face vertices are not
collinear and the side orientation is 0, 1 or 2; on a plus side and on a minus side alike.
The table `NEIGHBORFACENODE2LOCAL` is assumed to be a permutation of the three positions. -/
theorem fault_frame_orthonormal (T : MeshTools.Tables)
    (hT : Function.Injective T.NEIGHBORFACENODE2LOCAL) (rp : VrtxCoords ℝ)
    (rm : RefPointMethod) (m : MeshReader ℝ) (i : Element) (j : Fin 4)
    (hi : i ∈ m.m_elements) (hp : isProcessed m.m_rank i j = true)
    (hso : i.sideOrientations j = 0 ∨ i.sideOrientations j = 1 ∨ i.sideOrientations j = 2)
    (hnc : MeshTools.cross
        (MeshTools.sub (faceNode T m.m_vertices i j 1) (faceNode T m.m_vertices i j 0))
        (MeshTools.sub (faceNode T m.m_vertices i j 2) (faceNode T m.m_vertices i j 0))
          ≠ ⟨0, 0, 0⟩) :
    faultEntry Real.sqrt T rp rm m.m_elements.length m.m_vertices i j
        ∈ (m.extractFaultInformation Real.sqrt T rp rm).m_fault ∧
      (faultEntry Real.sqrt T rp rm m.m_elements.length m.m_vertices i j).IsOrthonormalFrame
        Real.sqrt := by
  constructor
  · rw [extract_fault]
    refine List.mem_append_right _ (List.mem_map.mpr ⟨(i, j), ?_, rfl⟩)
    simp only [processedSides, List.mem_flatMap, List.mem_map, List.mem_filter]
    refine ⟨i, hi, j, ⟨?_, hp⟩, rfl⟩
    fin_cases j <;> simp
  · by_cases hplus : isPlus Real.sqrt T rp rm m.m_vertices i j = true
    · have hf := frame_of_cross_ne_zero _ _ hnc
      simp only [Fault.IsOrthonormalFrame, faultEntry, chiVec, tauVec, hplus, if_true,
        localNormal, and_true]
      exact ⟨hf.1, hf.2.1, hf.2.2.1, hf.2.2.2.1, hf.2.2.2.2.1, hf.2.2.2.2.2⟩
    · obtain ⟨d01, d02, d12⟩ := neighborFaceNode_distinct T hT _ hso
      have hsq := cross_perm_sq (fun k => faceNode T m.m_vertices i j k) _ _ _ d01 d02 d12
      have hnc2 := cross_ne_of_dot_pos (hsq ▸ dot_self_pos hnc)
      have hf := frame_of_cross_ne_zero _ _ hnc2
      have hminus : isPlus Real.sqrt T rp rm m.m_vertices i j = false := by simpa using hplus
      simp only [Fault.IsOrthonormalFrame, faultEntry, chiVec, tauVec, hminus,
        Bool.false_eq_true, if_false, and_true]
      exact ⟨hf.1, hf.2.1, hf.2.2.1, hf.2.2.2.1, hf.2.2.2.2.1, hf.2.2.2.2.2⟩

/-! ## Agreement of the two sides of a face -/

section
variable {R : Type} [LinearOrderedField R]

theorem mem_processedSides {rank : Int} {es : List Element} {i : Element} {j : Fin 4} :
    (i, j) ∈ processedSides rank es ↔ i ∈ es ∧ isProcessed rank i j = true := by
  simp only [processedSides, List.mem_flatMap, List.mem_map, List.mem_filter, Prod.mk.injEq]
  constructor
  · rintro ⟨i2, hi, j2, ⟨_, hp⟩, rfl, rfl⟩
    exact ⟨hi, hp⟩
  · rintro ⟨hi, hp⟩
    refine ⟨i, hi, j, ⟨?_, hp⟩, rfl, rfl⟩
    fin_cases j <;> simp

theorem faultEntry_mem_extract (sqrt : R → R) (T : MeshTools.Tables) (rp : VrtxCoords R)
    (rm : RefPointMethod) (m : MeshReader R) {i : Element} {j : Fin 4} (hi : i ∈ m.m_elements)
    (hp : isProcessed m.m_rank i j = true) :
    faultEntry sqrt T rp rm m.m_elements.length m.m_vertices i j
      ∈ (m.extractFaultInformation sqrt T rp rm).m_fault := by
  rw [extract_fault]
  exact List.mem_append_right _
    (List.mem_map.mpr ⟨(i, j), mem_processedSides.mpr ⟨hi, hp⟩, rfl⟩)

/-- The position `NEIGHBORFACENODE2LOCAL[(3 + k - sideOrientation) % 3]` when the remainder
`p` is an index of the table. -/
theorem neighborFaceNode_eq (T : MeshTools.Tables) (k : Int) (sideOrientation : Int)
    (p : Fin 3) (hp : ((p : Nat) : Int) = Int.tmod (3 + k - sideOrientation) 3) :
    neighborFaceNode T k sideOrientation = T.NEIGHBORFACENODE2LOCAL p := by
  unfold neighborFaceNode
  rw [← hp, Int.toNat_ofNat]
  congr 1
  apply Fin.ext
  simp [Fin.ofNat, Nat.mod_eq_of_lt p.isLt]

/-- C2: elements `A` (side `a`) and `B` (side `b`) see the same face: for `k = 0, 1, 2` the
remainder `(3 + k - sideOrientations_B[b]) % 3` is an index `p` of `NEIGHBORFACENODE2LOCAL`,
and the face vertex of `B` at position `NEIGHBORFACENODE2LOCAL[p]` of `FACE2NODES[b]` is the
face vertex of `A` at position `k` of `FACE2NODES[a]`.  When side `a` is decided plus and side
`b` is decided minus, the two fault entries, each appended by `extractFaultInformation` on its
own mesh, have the same normal and tangents. -/
theorem frames_agree (sqrt : R → R) (T : MeshTools.Tables) (rp : VrtxCoords R)
    (rm : RefPointMethod) (mA mB : MeshReader R) (A B : Element) (a b : Fin 4)
    (hA : A ∈ mA.m_elements) (hB : B ∈ mB.m_elements)
    (hpA : isProcessed mA.m_rank A a = true) (hpB : isProcessed mB.m_rank B b = true)
    (hface : ∀ k : Fin 3, ∃ p : Fin 3,
      ((p : Nat) : Int) = Int.tmod (3 + ((k : Nat) : Int) - B.sideOrientations b) 3 ∧
      vertexCoords mB.m_vertices
          (B.vertices (T.FACE2NODES b (T.NEIGHBORFACENODE2LOCAL p)))
        = vertexCoords mA.m_vertices (A.vertices (T.FACE2NODES a k)))
    (hplus : isPlus sqrt T rp rm mA.m_vertices A a = true)
    (hminus : isPlus sqrt T rp rm mB.m_vertices B b = false) :
    faultEntry sqrt T rp rm mA.m_elements.length mA.m_vertices A a
        ∈ (mA.extractFaultInformation sqrt T rp rm).m_fault ∧
    faultEntry sqrt T rp rm mB.m_elements.length mB.m_vertices B b
        ∈ (mB.extractFaultInformation sqrt T rp rm).m_fault ∧
    (faultEntry sqrt T rp rm mA.m_elements.length mA.m_vertices A a).normal
      = (faultEntry sqrt T rp rm mB.m_elements.length mB.m_vertices B b).normal ∧
    (faultEntry sqrt T rp rm mA.m_elements.length mA.m_vertices A a).tangent1
      = (faultEntry sqrt T rp rm mB.m_elements.length mB.m_vertices B b).tangent1 ∧
    (faultEntry sqrt T rp rm mA.m_elements.length mA.m_vertices A a).tangent2
      = (faultEntry sqrt T rp rm mB.m_elements.length mB.m_vertices B b).tangent2 := by
  have hk : ∀ k : Fin 3,
      faceNode T mB.m_vertices B b (neighborFaceNode T ((k : Nat) : Int) (B.sideOrientations b))
        = faceNode T mA.m_vertices A a k := by
    intro k
    obtain ⟨p, hp, hv⟩ := hface k
    rw [neighborFaceNode_eq T _ _ p hp]
    exact hv
  have h0 := hk 0
  have h1 := hk 1
  have h2 := hk 2
  simp only [Fin.val_zero, Fin.val_one, Fin.val_two, Nat.cast_zero, Nat.cast_one,
    Nat.cast_ofNat] at h0 h1 h2
  refine ⟨faultEntry_mem_extract sqrt T rp rm mA hA hpA,
    faultEntry_mem_extract sqrt T rp rm mB hB hpB, ?_, ?_, ?_⟩ <;>
  simp only [faultEntry, chiVec, tauVec, hplus, hminus, localNormal, h0, h1, h2, if_true,
    Bool.false_eq_true, if_false]

end

theorem neighborFaceNode_reference :
    neighborFaceNode referenceTables 0 0 = 0 ∧ neighborFaceNode referenceTables 1 0 = 2 ∧
    neighborFaceNode referenceTables 2 0 = 1 := by
  decide

theorem frames_agree_witness :
    (faultEntry Real.sqrt referenceTables ⟨0, 0, 5⟩ RefPointMethod.Point
        (rankZero ℝ).m_elements.length (rankZero ℝ).m_vertices tetL 0).normal
      = (faultEntry Real.sqrt referenceTables ⟨0, 0, 5⟩ RefPointMethod.Point
        (rankOneRotated ℝ).m_elements.length (rankOneRotated ℝ).m_vertices
          tetR1Rotated 0).normal ∧
    (faultEntry Real.sqrt referenceTables ⟨0, 0, 5⟩ RefPointMethod.Point
        (rankZero ℝ).m_elements.length (rankZero ℝ).m_vertices tetL 0).tangent1
      = (faultEntry Real.sqrt referenceTables ⟨0, 0, 5⟩ RefPointMethod.Point
        (rankOneRotated ℝ).m_elements.length (rankOneRotated ℝ).m_vertices
          tetR1Rotated 0).tangent1 ∧
    (faultEntry Real.sqrt referenceTables ⟨0, 0, 5⟩ RefPointMethod.Point
        (rankZero ℝ).m_elements.length (rankZero ℝ).m_vertices tetL 0).tangent2
      = (faultEntry Real.sqrt referenceTables ⟨0, 0, 5⟩ RefPointMethod.Point
        (rankOneRotated ℝ).m_elements.length (rankOneRotated ℝ).m_vertices
          tetR1Rotated 0).tangent2 :=
  (frames_agree Real.sqrt referenceTables ⟨0, 0, 5⟩ RefPointMethod.Point (rankZero ℝ)
    (rankOneRotated ℝ) tetL tetR1Rotated 0 0 (by simp [rankZero]) (by simp [rankOneRotated])
    (by decide) (by decide)
    (by
      intro k
      fin_cases k
      · exact ⟨2, by decide, rfl⟩
      · exact ⟨0, by decide, rfl⟩
      · exact ⟨1, by decide, rfl⟩)
    (by simp [isPlus, localNormal, unitNormal, faceNode, vertexCoords, rankZero,
      twoRankVertices, referenceTables, tetL, MeshTools.cross, MeshTools.sub, MeshTools.mul,
      MeshTools.norm, MeshTools.dot])
    (by simp [isPlus, localNormal, unitNormal, faceNode, vertexCoords, rankOneRotated,
      twoRankVertices, referenceTables, tetR1Rotated, MeshTools.cross, MeshTools.sub,
      MeshTools.mul, MeshTools.norm, MeshTools.dot])).2.2

theorem fault_frame_orthonormal_witness :
    (faultEntry Real.sqrt referenceTables ⟨0, 0, 5⟩ RefPointMethod.Point
      (twoTets ℝ).m_elements.length (twoTets ℝ).m_vertices tetA 0).IsOrthonormalFrame
        Real.sqrt :=
  (fault_frame_orthonormal referenceTables (by decide) ⟨0, 0, 5⟩ RefPointMethod.Point
    (twoTets ℝ) tetA 0 (by simp [twoTets]) (by decide) (by decide)
    (by simp [faceNode, vertexCoords, twoTets, twoTetsVertices, referenceTables, tetA,
          MeshTools.cross, MeshTools.sub])).2

/-! ## Lists of elements whose local id is their position -/

theorem localId_of_getElem? {es : List Element} (h : LocalIdIsPosition es) {k : Nat}
    {e : Element} (hk : es[k]? = some e) : e.localId = (k : Int) := by
  have h1 := congrArg (fun l => l[k]?) h
  simp only [List.getElem?_map, hk, Option.map_some'] at h1
  have hlt : k < es.length := by
    by_contra hn
    rw [List.getElem?_eq_none (not_lt.mp hn)] at hk
    cases hk
  rw [List.getElem?_range hlt] at h1
  simpa using h1

theorem eq_of_localId_eq {es : List Element} (h : LocalIdIsPosition es) {e1 e2 : Element}
    (h1 : e1 ∈ es) (h2 : e2 ∈ es) (hid : e1.localId = e2.localId) : e1 = e2 := by
  obtain ⟨k1, hk1⟩ := List.mem_iff_getElem?.mp h1
  obtain ⟨k2, hk2⟩ := List.mem_iff_getElem?.mp h2
  have e := (localId_of_getElem? h hk1).symm.trans (hid.trans (localId_of_getElem? h hk2))
  have : k1 = k2 := by exact_mod_cast e
  subst this
  rw [hk1] at hk2
  exact Option.some.inj hk2

theorem localId_lt_length {es : List Element} (h : LocalIdIsPosition es) {e : Element}
    (he : e ∈ es) : 0 ≤ e.localId ∧ e.localId < (es.length : Int) := by
  obtain ⟨k, hk⟩ := List.mem_iff_getElem?.mp he
  have hlt : k < es.length := by
    by_contra hn
    rw [List.getElem?_eq_none (not_lt.mp hn)] at hk
    cases hk
  rw [localId_of_getElem? h hk]
  exact ⟨by positivity, by exact_mod_cast hlt⟩

theorem nodup_of_localIdIsPosition {es : List Element} (h : LocalIdIsPosition es) :
    es.Nodup := by
  have : (es.map (fun e => e.localId)).Nodup := by
    rw [h]
    exact (List.nodup_range _).map (fun a b hab => Int.ofNat.inj hab)
  exact List.Nodup.of_map _ this

theorem nodup_processedSides {rank : Int} {es : List Element} (h : es.Nodup) :
    (processedSides rank es).Nodup := by
  unfold processedSides
  rw [List.nodup_flatMap]
  constructor
  · intro i _
    refine ((List.Nodup.filter _ (by decide)).map ?_)
    intro j1 j2 hj
    exact (Prod.mk.inj hj).2
  · refine h.imp ?_
    intro i1 i2 hne
    simp only [Function.onFun]
    intro p hp1 hp2
    simp only [List.mem_map, List.mem_filter] at hp1 hp2
    obtain ⟨_, _, rfl⟩ := hp1
    obtain ⟨_, _, hh⟩ := hp2
    exact hne (Prod.mk.inj hh).1.symm

theorem filter_eq_singleton {α : Type} {p : α → Bool} {x : α} :
    ∀ {l : List α}, l.Nodup → x ∈ l → p x = true → (∀ y ∈ l, p y = true → y = x) →
      l.filter p = [x] := by
  intro l
  induction l with
  | nil => intro _ hx; cases hx
  | cons a l ih =>
    intro hnd hx hp hu
    rw [List.nodup_cons] at hnd
    by_cases hax : a = x
    · subst hax
      rw [List.filter_cons_of_pos hp]
      congr 1
      rw [List.filter_eq_nil_iff]
      intro y hy hpy
      have := hu y (List.mem_cons_of_mem _ hy) (by simpa using hpy)
      exact hnd.1 (this ▸ hy)
    · have hxl : x ∈ l := by
        rcases List.mem_cons.mp hx with h | h
        · exact absurd h.symm hax
        · exact h
      have hpa : ¬ p a = true := fun hpa => hax (hu a (List.mem_cons_self _ _) hpa)
      rw [List.filter_cons_of_neg hpa]
      exact ih hnd.2 hxl hp (fun y hy => hu y (List.mem_cons_of_mem _ hy))

/-! ## One entry for a local face -/

section
variable {R : Type} [LinearOrderedField R]
variable (sqrt : R → R) (T : MeshTools.Tables) (rp : VrtxCoords R) (rm : RefPointMethod)

theorem isProcessed_lower {rank : Int} {a b : Element} {ja jb : Fin 4}
    (h : SharesLocalFace rank a ja b jb) (hlt : a.localId < b.localId) :
    isProcessed rank a ja = true := by
  obtain ⟨h1, _, _, _, h5, _, _, _⟩ := h
  simp only [isProcessed, h1, h5, decide_True, Bool.true_and, Bool.not_eq_true',
    Bool.and_eq_false_imp, decide_eq_true_eq, decide_eq_false_iff_not, not_lt]
  intro _
  exact hlt.le

theorem isProcessed_higher {rank : Int} {a b : Element} {ja jb : Fin 4}
    (h : SharesLocalFace rank a ja b jb) (hlt : a.localId < b.localId) :
    isProcessed rank b jb = false := by
  obtain ⟨_, h2, _, h4, _, h6, _, _⟩ := h
  simp [isProcessed, h2, h4, h6, hlt]

/-- The four identifiers of a fault entry, by the plus/minus decision. -/
theorem faultEntry_ids (n : Nat) (vs : List (Vertex R)) (i : Element) (j : Fin 4) :
    ((faultEntry sqrt T rp rm n vs i j).element, (faultEntry sqrt T rp rm n vs i j).side,
      (faultEntry sqrt T rp rm n vs i j).neighborElement,
      (faultEntry sqrt T rp rm n vs i j).neighborSide,
      (faultEntry sqrt T rp rm n vs i j).tag)
      = if isPlus sqrt T rp rm vs i j = true then
          (i.localId, ((j : Nat) : Int), neighborIndex n i j, i.neighborSides j, i.faultTags j)
        else
          (neighborIndex n i j, i.neighborSides j, i.localId, ((j : Nat) : Int), i.faultTags j) := by
  unfold faultEntry
  by_cases h : isPlus sqrt T rp rm vs i j = true
  · simp only [h, if_true]
  · simp only [h, if_false, Bool.false_eq_true]

theorem filter_isBetween (m : MeshReader R) {a b : Element} {ja jb : Fin 4}
    (hid : LocalIdIsPosition m.m_elements) (ha : a ∈ m.m_elements) (hb : b ∈ m.m_elements)
    (hlt : a.localId < b.localId) (h : SharesLocalFace m.m_rank a ja b jb) :
    ((processedSides m.m_rank m.m_elements).map
        (fun p => faultEntry sqrt T rp rm m.m_elements.length m.m_vertices p.1 p.2)).filter
      (Fault.isBetween a ja b jb)
      = [faultEntry sqrt T rp rm m.m_elements.length m.m_vertices a ja] := by
  have hpa := isProcessed_lower h hlt
  have hpb := isProcessed_higher h hlt
  obtain ⟨h1, h2, h3, h4, h5, h6, h7, h8⟩ := h
  have hnI : neighborIndex m.m_elements.length a ja = b.localId := by
    have := (localId_lt_length hid hb).2
    simp only [neighborIndex, h5]
    rw [if_neg (ne_of_lt this)]
  rw [List.filter_map,
    filter_eq_singleton (x := (a, ja)) (nodup_processedSides (nodup_of_localIdIsPosition hid))
      (mem_processedSides.mpr ⟨ha, hpa⟩)]
  · rfl
  · have hids := faultEntry_ids sqrt T rp rm m.m_elements.length m.m_vertices a ja
    simp only [Prod.ext_iff] at hids
    obtain ⟨e1, e2, e3, e4, _⟩ := hids
    simp only [Function.comp, Fault.isBetween, e1, e2, e3, e4]
    by_cases hp : isPlus sqrt T rp rm m.m_vertices a ja = true
    · simp [hp, hnI, h7]
    · simp [hp, hnI, h7]
  · rintro ⟨e, j⟩ hmem hbetween
    obtain ⟨he, hpe⟩ := mem_processedSides.mp hmem
    have hids := faultEntry_ids sqrt T rp rm m.m_elements.length m.m_vertices e j
    simp only [Prod.ext_iff] at hids
    obtain ⟨e1, e2, e3, e4, _⟩ := hids
    simp only [Function.comp, Fault.isBetween, e1, e2, e3, e4] at hbetween
    have key : (e.localId = a.localId ∧ ((j : Nat) : Int) = ((ja : Nat) : Int)) ∨
        (e.localId = b.localId ∧ ((j : Nat) : Int) = ((jb : Nat) : Int)) := by
      by_cases hp : isPlus sqrt T rp rm m.m_vertices e j = true
      · simp only [hp, if_true, Bool.or_eq_true, Bool.and_eq_true, decide_eq_true_eq]
          at hbetween
        rcases hbetween with ⟨⟨⟨x1, x2⟩, _⟩, _⟩ | ⟨⟨⟨x1, x2⟩, _⟩, _⟩
        · exact Or.inl ⟨x1, x2⟩
        · exact Or.inr ⟨x1, x2⟩
      · simp only [hp, if_false, Bool.false_eq_true, Bool.or_eq_true, Bool.and_eq_true,
          decide_eq_true_eq] at hbetween
        rcases hbetween with ⟨⟨_, x1⟩, x2⟩ | ⟨⟨_, x1⟩, x2⟩
        · exact Or.inr ⟨x1, x2⟩
        · exact Or.inl ⟨x1, x2⟩
    rcases key with ⟨x1, x2⟩ | ⟨x1, x2⟩
    · have hea := eq_of_localId_eq hid he ha x1
      have hj : j = ja := Fin.ext (by exact_mod_cast x2)
      rw [hea, hj]
    · have heb := eq_of_localId_eq hid he hb x1
      have hj : j = jb := Fin.ext (by exact_mod_cast x2)
      rw [heb, hj, hpb] at hpe
      cases hpe

/-- C4: on one rank where every `localId` is the position of its element, a dynamic-rupture
face between two local elements with symmetric neighbour links yields exactly one of the
fault entries that `extractFaultInformation` appends: the side of the element with the lower
`localId` is processed and gives the entry, the side of the other element is skipped. -/
theorem single_fault_entry (m : MeshReader R) (a b : Element) (ja jb : Fin 4)
    (hid : LocalIdIsPosition m.m_elements) (ha : a ∈ m.m_elements) (hb : b ∈ m.m_elements)
    (hlt : a.localId < b.localId) (h : SharesLocalFace m.m_rank a ja b jb) :
    isProcessed m.m_rank a ja = true ∧ isProcessed m.m_rank b jb = false ∧
    (((m.extractFaultInformation sqrt T rp rm).m_fault.drop m.m_fault.length).filter
      (Fault.isBetween a ja b jb))
      = [faultEntry sqrt T rp rm m.m_elements.length m.m_vertices a ja] := by
  refine ⟨isProcessed_lower h hlt, isProcessed_higher h hlt, ?_⟩
  rw [extract_fault, List.drop_left]
  exact filter_isBetween sqrt T rp rm m hid ha hb hlt h

end

theorem localIdIsPosition_twoTets (R : Type) [LinearOrderedField R] :
    LocalIdIsPosition (twoTets R).m_elements := by
  unfold LocalIdIsPosition
  rfl

theorem sharesLocalFace_twoTets : SharesLocalFace 0 tetA 0 tetB 0 := by
  unfold SharesLocalFace
  decide

theorem single_fault_entry_witness :
    ((((twoTets ℝ).extractFaultInformation Real.sqrt referenceTables ⟨0, 0, 5⟩
        RefPointMethod.Point).m_fault.drop (twoTets ℝ).m_fault.length).filter
      (Fault.isBetween tetA 0 tetB 0))
      = [faultEntry Real.sqrt referenceTables ⟨0, 0, 5⟩ RefPointMethod.Point
          (twoTets ℝ).m_elements.length (twoTets ℝ).m_vertices tetA 0] :=
  (single_fault_entry Real.sqrt referenceTables ⟨0, 0, 5⟩ RefPointMethod.Point (twoTets ℝ)
    tetA tetB 0 0 (localIdIsPosition_twoTets ℝ) (by simp [twoTets]) (by simp [twoTets]) (by decide)
    sharesLocalFace_twoTets).2.2

/-! ## Entries come from sides with tag 3 -/

section
variable {R : Type} [LinearOrderedField R]
variable (sqrt : R → R) (T : MeshTools.Tables) (rp : VrtxCoords R) (rm : RefPointMethod)

theorem boundary_of_isProcessed {rank : Int} {i : Element} {j : Fin 4}
    (h : isProcessed rank i j = true) : i.boundaries j = 3 := by
  simp only [isProcessed, Bool.and_eq_true, decide_eq_true_eq] at h
  exact h.1

/-- C5: the fault list after `extractFaultInformation` is the old list followed by one entry
for every processed side, each of which is a side with boundary tag 3 of an element of the
mesh; a mesh without a tag-3 side keeps its fault list. -/
theorem fault_entries_from_tag3 (m : MeshReader R) :
    (m.extractFaultInformation sqrt T rp rm).m_fault
      = m.m_fault ++ (processedSides m.m_rank m.m_elements).map
          (fun p => faultEntry sqrt T rp rm m.m_elements.length m.m_vertices p.1 p.2) ∧
    (∀ p ∈ processedSides m.m_rank m.m_elements,
      p.1 ∈ m.m_elements ∧ p.1.boundaries p.2 = 3) ∧
    ((∀ i ∈ m.m_elements, ∀ j : Fin 4, i.boundaries j ≠ 3) →
      (m.extractFaultInformation sqrt T rp rm).m_fault = m.m_fault) := by
  have hmem : ∀ p ∈ processedSides m.m_rank m.m_elements,
      p.1 ∈ m.m_elements ∧ p.1.boundaries p.2 = 3 := by
    rintro ⟨i, j⟩ hp
    obtain ⟨hi, hpr⟩ := mem_processedSides.mp hp
    exact ⟨hi, boundary_of_isProcessed hpr⟩
  refine ⟨extract_fault sqrt T rp rm m, hmem, ?_⟩
  intro hno
  have hnil : processedSides m.m_rank m.m_elements = [] := by
    rw [List.eq_nil_iff_forall_not_mem]
    intro p hp
    exact hno p.1 (hmem p hp).1 p.2 (hmem p hp).2
  rw [extract_fault, hnil, List.map_nil, List.append_nil]

end

theorem fault_entries_from_tag3_witness :
    ((plainMesh ℝ).extractFaultInformation Real.sqrt referenceTables ⟨0, 0, 5⟩
      RefPointMethod.Point).m_fault = (plainMesh ℝ).m_fault :=
  (fault_entries_from_tag3 Real.sqrt referenceTables ⟨0, 0, 5⟩ RefPointMethod.Point
    (plainMesh ℝ)).2.2 (by decide)

/-! ## The identifiers of an entry and the Point method -/

theorem processedSides_twoTets : processedSides 0 [tetA, tetB] = [(tetA, 0)] := by
  rfl

theorem faceNode_tetA :
    faceNode referenceTables (twoTetsVertices ℝ) tetA 0 0 = ⟨0, 0, 0⟩ ∧
    faceNode referenceTables (twoTetsVertices ℝ) tetA 0 1 = ⟨0, 1, 0⟩ ∧
    faceNode referenceTables (twoTetsVertices ℝ) tetA 0 2 = ⟨1, 0, 0⟩ :=
  ⟨rfl, rfl, rfl⟩

theorem faceNode_tetB :
    faceNode referenceTables (twoTetsVertices ℝ) tetB 0 0 = ⟨0, 0, 0⟩ ∧
    faceNode referenceTables (twoTetsVertices ℝ) tetB 0 1 = ⟨1, 0, 0⟩ ∧
    faceNode referenceTables (twoTetsVertices ℝ) tetB 0 2 = ⟨0, 1, 0⟩ :=
  ⟨rfl, rfl, rfl⟩

theorem localNormal_tetA :
    localNormal Real.sqrt referenceTables (twoTetsVertices ℝ) tetA 0 = ⟨0, 0, -1⟩ := by
  simp only [localNormal, faceNode_tetA]
  simp [unitNormal, MeshTools.cross, MeshTools.sub, MeshTools.mul, MeshTools.norm,
    MeshTools.dot]

theorem localNormal_tetB :
    localNormal Real.sqrt referenceTables (twoTetsVertices ℝ) tetB 0 = ⟨0, 0, 1⟩ := by
  simp only [localNormal, faceNode_tetB]
  simp [unitNormal, MeshTools.cross, MeshTools.sub, MeshTools.mul, MeshTools.norm,
    MeshTools.dot]

theorem missingNode_tetA :
    vertexCoords (twoTetsVertices ℝ) (tetA.vertices (referenceTables.FACE2MISSINGNODE 0))
      = ⟨0, 0, 1⟩ := rfl

theorem isPlus_tetA_below :
    isPlus Real.sqrt referenceTables ⟨0, 0, -5⟩ RefPointMethod.Point (twoTetsVertices ℝ) tetA 0
      = false := by
  simp only [isPlus, localNormal_tetA, faceNode_tetA, missingNode_tetA]
  simp [MeshTools.sub, MeshTools.dot]

theorem neighborFaceNode_tetA :
    neighborFaceNode referenceTables 0 (tetA.sideOrientations 0) = 0 ∧
    neighborFaceNode referenceTables 1 (tetA.sideOrientations 0) = 2 ∧
    neighborFaceNode referenceTables 2 (tetA.sideOrientations 0) = 1 := by
  decide

theorem faultEntry_tetA_below :
    faultEntry Real.sqrt referenceTables ⟨0, 0, -5⟩ RefPointMethod.Point 2 (twoTetsVertices ℝ)
      tetA 0
      = { element := 1, side := 0, neighborElement := 0, neighborSide := 0, tag := 5,
          normal := ⟨0, 0, 1⟩, tangent1 := ⟨1, 0, 0⟩, tangent2 := ⟨0, 1, 0⟩ } := by
  simp only [faultEntry, chiVec, tauVec, isPlus_tetA_below, neighborFaceNode_tetA,
    faceNode_tetA]
  simp [neighborIndex, unitNormal, tetA, MeshTools.cross, MeshTools.sub, MeshTools.mul,
    MeshTools.norm, MeshTools.dot]

/-- The fault list of `twoTets` for the reference point `(0, 0, -5)`, below the face. -/
theorem extract_twoTets_below :
    ((twoTets ℝ).extractFaultInformation Real.sqrt referenceTables ⟨0, 0, -5⟩
      RefPointMethod.Point).m_fault
      = [{ element := 1, side := 0, neighborElement := 0, neighborSide := 0, tag := 5,
           normal := ⟨0, 0, 1⟩, tangent1 := ⟨1, 0, 0⟩, tangent2 := ⟨0, 1, 0⟩ }] := by
  rw [extract_fault]
  simp only [twoTets, processedSides_twoTets, List.nil_append, List.map_cons, List.map_nil,
    List.length_cons, List.length_nil]
  rw [← faultEntry_tetA_below]

/-- C6, counterexample: in `twoTets` with the Point method and the reference point
`(0, 0, -5)`, the `FACE2NODES` normal of element 0 points toward the reference point and the
normal of element 1 points away from it, yet the single fault entry has element 1 as its plus
side and element 0 as the neighbour. -/
theorem point_method_counterexample :
    0 < MeshTools.dot
        (MeshTools.sub ⟨0, 0, -5⟩ (faceNode referenceTables (twoTets ℝ).m_vertices tetA 0 0))
        (localNormal Real.sqrt referenceTables (twoTets ℝ).m_vertices tetA 0) ∧
    MeshTools.dot
        (MeshTools.sub ⟨0, 0, -5⟩ (faceNode referenceTables (twoTets ℝ).m_vertices tetB 0 0))
        (localNormal Real.sqrt referenceTables (twoTets ℝ).m_vertices tetB 0) < 0 ∧
    (((twoTets ℝ).extractFaultInformation Real.sqrt referenceTables ⟨0, 0, -5⟩
      RefPointMethod.Point).m_fault.map (fun f => (f.element, f.side, f.neighborElement)))
      = [(tetB.localId, 0, tetA.localId)] := by
  refine ⟨?_, ?_, ?_⟩
  · simp only [twoTets, localNormal_tetA, faceNode_tetA]
    simp [MeshTools.sub, MeshTools.dot]
  · simp only [twoTets, localNormal_tetB, faceNode_tetB]
    simp [MeshTools.sub, MeshTools.dot]
  · rw [extract_twoTets_below]
    rfl

/-- C9, counterexample: in `twoTets` with the reference point `(0, 0, -5)` the processed side
(element 0, side 0) is a minus side; the entry names element 1, side 0 as the plus side and
carries the fault tag 5 of the processed side, not the fault tag 9 of the plus side. -/
theorem fault_tag_counterexample :
    isPlus Real.sqrt referenceTables ⟨0, 0, -5⟩ RefPointMethod.Point (twoTets ℝ).m_vertices
      tetA 0 = false ∧
    (((twoTets ℝ).extractFaultInformation Real.sqrt referenceTables ⟨0, 0, -5⟩
      RefPointMethod.Point).m_fault.map (fun f => (f.element, f.side, f.tag)))
      = [(1, 0, 5)] ∧
    (twoTets ℝ).m_elements[1]? = some tetB ∧ tetB.faultTags 0 = 9 ∧ tetA.faultTags 0 = 5 := by
  refine ⟨isPlus_tetA_below, ?_, rfl, rfl, rfl⟩
  rw [extract_twoTets_below]
  rfl


section
variable {R : Type} [LinearOrderedField R]
variable (sqrt : R → R) (T : MeshTools.Tables) (rp : VrtxCoords R) (rm : RefPointMethod)

/-- C9, amended: the entry appended for a processed side `j` of element `i` is
`(i.localId, j, neighborIndex, i.neighborSides[j])` when the side is plus, and has
`neighborIndex`, `i.neighborSides[j]` as element and side and `i.localId`, `j` as neighbour
when it is minus; in both cases its tag is `i.faultTags[j]`, the tag of the processed side. -/
theorem fault_entry_fields (m : MeshReader R) (i : Element) (j : Fin 4)
    (hi : i ∈ m.m_elements) (hp : isProcessed m.m_rank i j = true) :
    faultEntry sqrt T rp rm m.m_elements.length m.m_vertices i j
        ∈ (m.extractFaultInformation sqrt T rp rm).m_fault ∧
    (isPlus sqrt T rp rm m.m_vertices i j = true →
      (faultEntry sqrt T rp rm m.m_elements.length m.m_vertices i j).element = i.localId ∧
      (faultEntry sqrt T rp rm m.m_elements.length m.m_vertices i j).side = ((j : Nat) : Int) ∧
      (faultEntry sqrt T rp rm m.m_elements.length m.m_vertices i j).neighborElement
        = neighborIndex m.m_elements.length i j ∧
      (faultEntry sqrt T rp rm m.m_elements.length m.m_vertices i j).neighborSide
        = i.neighborSides j ∧
      (faultEntry sqrt T rp rm m.m_elements.length m.m_vertices i j).tag = i.faultTags j) ∧
    (isPlus sqrt T rp rm m.m_vertices i j = false →
      (faultEntry sqrt T rp rm m.m_elements.length m.m_vertices i j).element
        = neighborIndex m.m_elements.length i j ∧
      (faultEntry sqrt T rp rm m.m_elements.length m.m_vertices i j).side
        = i.neighborSides j ∧
      (faultEntry sqrt T rp rm m.m_elements.length m.m_vertices i j).neighborElement
        = i.localId ∧
      (faultEntry sqrt T rp rm m.m_elements.length m.m_vertices i j).neighborSide
        = ((j : Nat) : Int) ∧
      (faultEntry sqrt T rp rm m.m_elements.length m.m_vertices i j).tag = i.faultTags j) := by
  have hids := faultEntry_ids sqrt T rp rm m.m_elements.length m.m_vertices i j
  refine ⟨faultEntry_mem_extract sqrt T rp rm m hi hp, ?_, ?_⟩
  · intro h
    rw [if_pos h] at hids
    simp only [Prod.ext_iff] at hids
    exact hids
  · intro h
    rw [if_neg (by simp [h])] at hids
    simp only [Prod.ext_iff] at hids
    exact hids

/-- C6, amended: under the Point method, a dynamic-rupture face between two local elements
is processed from the element `a` with the lower `localId` and gives one entry.  When the
reference point and the missing vertex of `a` lie strictly on the same side of the face plane
(the two dot products with the `FACE2NODES` normal of `a` have a positive product), `a` is
the plus side: element and side are those of `a`, the neighbour is `b`.  Otherwise `b` is the
plus side and `a` the neighbour. -/
theorem point_method_plus_side (m : MeshReader R) (a b : Element) (ja jb : Fin 4)
    (hid : LocalIdIsPosition m.m_elements) (ha : a ∈ m.m_elements) (hb : b ∈ m.m_elements)
    (hlt : a.localId < b.localId) (h : SharesLocalFace m.m_rank a ja b jb) :
    (((m.extractFaultInformation sqrt T rp RefPointMethod.Point).m_fault.drop
        m.m_fault.length).filter (Fault.isBetween a ja b jb))
      = [faultEntry sqrt T rp RefPointMethod.Point m.m_elements.length m.m_vertices a ja] ∧
    (0 < MeshTools.dot (MeshTools.sub rp (faceNode T m.m_vertices a ja 0))
          (localNormal sqrt T m.m_vertices a ja) *
        MeshTools.dot
          (MeshTools.sub (vertexCoords m.m_vertices (a.vertices (T.FACE2MISSINGNODE ja)))
            (faceNode T m.m_vertices a ja 0))
          (localNormal sqrt T m.m_vertices a ja) →
      (faultEntry sqrt T rp RefPointMethod.Point m.m_elements.length m.m_vertices a
          ja).element = a.localId ∧
      (faultEntry sqrt T rp RefPointMethod.Point m.m_elements.length m.m_vertices a
          ja).side = ((ja : Nat) : Int) ∧
      (faultEntry sqrt T rp RefPointMethod.Point m.m_elements.length m.m_vertices a
          ja).neighborElement = b.localId ∧
      (faultEntry sqrt T rp RefPointMethod.Point m.m_elements.length m.m_vertices a
          ja).neighborSide = ((jb : Nat) : Int)) ∧
    (¬ 0 < MeshTools.dot (MeshTools.sub rp (faceNode T m.m_vertices a ja 0))
          (localNormal sqrt T m.m_vertices a ja) *
        MeshTools.dot
          (MeshTools.sub (vertexCoords m.m_vertices (a.vertices (T.FACE2MISSINGNODE ja)))
            (faceNode T m.m_vertices a ja 0))
          (localNormal sqrt T m.m_vertices a ja) →
      (faultEntry sqrt T rp RefPointMethod.Point m.m_elements.length m.m_vertices a
          ja).element = b.localId ∧
      (faultEntry sqrt T rp RefPointMethod.Point m.m_elements.length m.m_vertices a
          ja).side = ((jb : Nat) : Int) ∧
      (faultEntry sqrt T rp RefPointMethod.Point m.m_elements.length m.m_vertices a
          ja).neighborElement = a.localId ∧
      (faultEntry sqrt T rp RefPointMethod.Point m.m_elements.length m.m_vertices a
          ja).neighborSide = ((ja : Nat) : Int)) := by
  have hnI : neighborIndex m.m_elements.length a ja = b.localId := by
    have := (localId_lt_length hid hb).2
    simp only [neighborIndex, h.2.2.2.2.1]
    rw [if_neg (ne_of_lt this)]
  have hns : a.neighborSides ja = ((jb : Nat) : Int) := h.2.2.2.2.2.2.1
  have hids := faultEntry_ids sqrt T rp RefPointMethod.Point m.m_elements.length m.m_vertices
    a ja
  refine ⟨?_, ?_, ?_⟩
  · rw [extract_fault, List.drop_left]
    exact filter_isBetween sqrt T rp RefPointMethod.Point m hid ha hb hlt h
  · intro hs
    have hplus : isPlus sqrt T rp RefPointMethod.Point m.m_vertices a ja = true := by
      simp only [isPlus, if_true, decide_eq_true_eq, gt_iff_lt]
      exact hs
    rw [if_pos hplus, hnI, hns] at hids
    simp only [Prod.ext_iff] at hids
    exact ⟨hids.1, hids.2.1, hids.2.2.1, hids.2.2.2.1⟩
  · intro hs
    have hminus : ¬ isPlus sqrt T rp RefPointMethod.Point m.m_vertices a ja = true := by
      simp only [isPlus, if_true, decide_eq_true_eq, gt_iff_lt]
      exact hs
    rw [if_neg hminus, hnI, hns] at hids
    simp only [Prod.ext_iff] at hids
    exact ⟨hids.1, hids.2.1, hids.2.2.1, hids.2.2.2.1⟩

end

theorem fault_entry_fields_witness :
    (faultEntry Real.sqrt referenceTables ⟨0, 0, -5⟩ RefPointMethod.Point
        (twoTets ℝ).m_elements.length (twoTets ℝ).m_vertices tetA 0).element
      = neighborIndex (twoTets ℝ).m_elements.length tetA 0 ∧
    (faultEntry Real.sqrt referenceTables ⟨0, 0, -5⟩ RefPointMethod.Point
        (twoTets ℝ).m_elements.length (twoTets ℝ).m_vertices tetA 0).tag
      = tetA.faultTags 0 :=
  have h := (fault_entry_fields Real.sqrt referenceTables ⟨0, 0, -5⟩ RefPointMethod.Point
    (twoTets ℝ) tetA 0 (by simp [twoTets]) (by decide)).2.2 isPlus_tetA_below
  ⟨h.1, h.2.2.2.2⟩

theorem point_method_plus_side_witness :
    (faultEntry Real.sqrt referenceTables ⟨0, 0, 5⟩ RefPointMethod.Point
        (twoTets ℝ).m_elements.length (twoTets ℝ).m_vertices tetA 0).element = tetA.localId ∧
    (faultEntry Real.sqrt referenceTables ⟨0, 0, 5⟩ RefPointMethod.Point
        (twoTets ℝ).m_elements.length (twoTets ℝ).m_vertices tetA 0).neighborElement
      = tetB.localId :=
  have h := (point_method_plus_side Real.sqrt referenceTables ⟨0, 0, 5⟩ (twoTets ℝ)
    tetA tetB 0 0 (localIdIsPosition_twoTets ℝ) (by simp [twoTets]) (by simp [twoTets])
    (by decide) sharesLocalFace_twoTets).2.1
    (by
      simp only [twoTets, localNormal_tetA, faceNode_tetA, missingNode_tetA]
      simp [MeshTools.sub, MeshTools.dot])
  ⟨h.1, h.2.2.1⟩

/-! ## The comparators and the table of fault neighbours -/

theorem notAfter_byLocal (a b : MPINeighborElement) :
    NotAfter byLocal a b ↔ lexLe (localKey a) (localKey b) := by
  simp only [NotAfter, byLocal, lexLe, localKey, Bool.or_eq_false_iff, Bool.and_eq_false_imp,
    decide_eq_false_iff_not, decide_eq_true_eq]
  constructor
  · rintro ⟨h1, h2⟩
    by_cases h : b.localElement = a.localElement
    · exact Or.inr ⟨h.symm, not_lt.mp (h2 h)⟩
    · exact Or.inl (lt_of_le_of_ne (not_lt.mp h1) (fun e => h e.symm))
  · rintro (h | ⟨h1, h2⟩)
    · exact ⟨by omega, fun e => by omega⟩
    · exact ⟨by omega, fun _ => by omega⟩

theorem notAfter_byNeighbor (a b : MPINeighborElement) :
    NotAfter byNeighbor a b ↔ lexLe (neighborKey a) (neighborKey b) := by
  simp only [NotAfter, byNeighbor, lexLe, neighborKey, Bool.or_eq_false_iff,
    Bool.and_eq_false_imp, decide_eq_false_iff_not, decide_eq_true_eq]
  constructor
  · rintro ⟨h1, h2⟩
    by_cases h : b.neighborElement = a.neighborElement
    · exact Or.inr ⟨h.symm, not_lt.mp (h2 h)⟩
    · exact Or.inl (lt_of_le_of_ne (not_lt.mp h1) (fun e => h e.symm))
  · rintro (h | ⟨h1, h2⟩)
    · exact ⟨by omega, fun e => by omega⟩
    · exact ⟨by omega, fun _ => by omega⟩

theorem lexLe_total (a b : Int × Int) : lexLe a b ∨ lexLe b a := by
  unfold lexLe; omega

theorem lexLe_trans {a b c : Int × Int} (h1 : lexLe a b) (h2 : lexLe b c) : lexLe a c := by
  unfold lexLe at *; omega

theorem lexLe_antisymm {a b : Int × Int} (h1 : lexLe a b) (h2 : lexLe b a) : a = b := by
  unfold lexLe at *
  exact Prod.ext (by omega) (by omega)

theorem stdSort_byLocal_sorted (l : List MPINeighborElement) :
    (stdSort byLocal l).Pairwise (fun x y => lexLe (localKey x) (localKey y)) := by
  haveI : IsTotal MPINeighborElement (NotAfter byLocal) :=
    ⟨fun a b => by simp only [notAfter_byLocal]; exact lexLe_total _ _⟩
  haveI : IsTrans MPINeighborElement (NotAfter byLocal) :=
    ⟨fun a b c h1 h2 => by
      simp only [notAfter_byLocal] at *; exact lexLe_trans h1 h2⟩
  have h := List.sorted_insertionSort (NotAfter byLocal) l
  exact List.Pairwise.imp (fun {a b} hab => (notAfter_byLocal a b).mp hab) h

theorem stdSort_byNeighbor_sorted (l : List MPINeighborElement) :
    (stdSort byNeighbor l).Pairwise (fun x y => lexLe (neighborKey x) (neighborKey y)) := by
  haveI : IsTotal MPINeighborElement (NotAfter byNeighbor) :=
    ⟨fun a b => by simp only [notAfter_byNeighbor]; exact lexLe_total _ _⟩
  haveI : IsTrans MPINeighborElement (NotAfter byNeighbor) :=
    ⟨fun a b c h1 h2 => by
      simp only [notAfter_byNeighbor] at *; exact lexLe_trans h1 h2⟩
  have h := List.sorted_insertionSort (NotAfter byNeighbor) l
  exact List.Pairwise.imp (fun {a b} hab => (notAfter_byNeighbor a b).mp hab) h

theorem stdSort_perm {α : Type} (lt : α → α → Bool) (l : List α) : (stdSort lt l).Perm l :=
  List.perm_insertionSort _ l

theorem sortFor_perm (rank r : Int) (l : List MPINeighborElement) :
    (sortFor rank r l).Perm l := by
  unfold sortFor
  split <;> exact stdSort_perm _ l

/-! The association list. -/

theorem mapLookup_of_lt {α : Type} (key : Int) :
    ∀ (t : List (Int × List α)), (∀ k ∈ t.map Prod.fst, key < k) → mapLookup key t = []
  | [], _ => rfl
  | (k, xs) :: rest, h => by
    have hk : key < k := h k (by simp)
    simp only [mapLookup, if_neg (ne_of_lt hk)]
    exact mapLookup_of_lt key rest (fun k2 hk2 => h k2 (by simp at hk2 ⊢; exact Or.inr hk2))

theorem keys_mapPushBack {α : Type} (key : Int) (x : α) :
    ∀ (t : List (Int × List α)) (k : Int),
      k ∈ (mapPushBack key x t).map Prod.fst → k = key ∨ k ∈ t.map Prod.fst
  | [], k, h => by simp [mapPushBack] at h; exact Or.inl h
  | (k0, xs) :: rest, k, h => by
    unfold mapPushBack at h
    split_ifs at h with h1 h2
    · simp only [List.map_cons, List.mem_cons] at h ⊢
      exact Or.inr h
    · simp only [List.map_cons, List.mem_cons] at h ⊢
      exact h
    · simp only [List.map_cons, List.mem_cons] at h ⊢
      rcases h with h | h
      · exact Or.inr (Or.inl h)
      · rcases keys_mapPushBack key x rest k h with h3 | h3
        · exact Or.inl h3
        · exact Or.inr (Or.inr h3)

theorem mapOrdered_mapPushBack {α : Type} (key : Int) (x : α) :
    ∀ (t : List (Int × List α)), MapOrdered t → MapOrdered (mapPushBack key x t)
  | [], _ => by simp [mapPushBack, MapOrdered]
  | (k0, xs) :: rest, h => by
    unfold MapOrdered at h
    simp only [List.map_cons, List.pairwise_cons] at h
    unfold mapPushBack
    split_ifs with h1 h2
    · unfold MapOrdered
      simp only [List.map_cons, List.pairwise_cons]
      exact h
    · unfold MapOrdered
      simp only [List.map_cons, List.pairwise_cons, List.mem_cons]
      refine ⟨?_, h⟩
      rintro k (hk | hk)
      · exact hk ▸ h2
      · exact lt_trans h2 (h.1 k hk)
    · have ih := mapOrdered_mapPushBack key x rest h.2
      unfold MapOrdered at ih ⊢
      simp only [List.map_cons, List.pairwise_cons]
      refine ⟨?_, ih⟩
      intro k hk
      rcases keys_mapPushBack key x rest k hk with h3 | h3
      · rw [h3]
        exact lt_of_le_of_ne (not_lt.mp h2) (fun e => h1 e.symm)
      · exact h.1 k h3

theorem mapLookup_mapPushBack {α : Type} (key : Int) (x : α) (r : Int) :
    ∀ (t : List (Int × List α)), MapOrdered t →
      mapLookup r (mapPushBack key x t)
        = if r = key then mapLookup r t ++ [x] else mapLookup r t
  | [], _ => by
    by_cases h : r = key <;> simp [mapPushBack, mapLookup, h]
  | (k0, xs) :: rest, h => by
    unfold MapOrdered at h
    simp only [List.map_cons, List.pairwise_cons] at h
    unfold mapPushBack
    by_cases h1 : key = k0
    · subst h1
      by_cases h2 : r = key
      · simp [mapLookup, h2]
      · simp [mapLookup, h2]
    · by_cases h2 : key < k0
      · rw [if_neg h1, if_pos h2]
        by_cases h3 : r = key
        · subst h3
          have hnil : mapLookup r ((k0, xs) :: rest) = [] :=
            mapLookup_of_lt r _ (by
              intro k hk
              simp only [List.map_cons, List.mem_cons] at hk
              rcases hk with hk | hk
              · exact hk ▸ h2
              · exact lt_trans h2 (h.1 k hk))
          rw [hnil]
          simp [mapLookup]
        · rw [if_neg h3]
          simp only [mapLookup, if_neg h3]
      · rw [if_neg h1, if_neg h2]
        have ih := mapLookup_mapPushBack key x r rest h.2
        by_cases h3 : r = k0
        · have h4 : ¬ r = key := fun e => h1 (e.symm.trans h3)
          simp only [mapLookup, if_pos h3, if_neg h4]
        · simp only [mapLookup, if_neg h3, ih]

/-! ## The stored sequences are sorted permutations -/

theorem mapOrdered_pushSides (s : List (Element × Fin 4)) :
    ∀ t : List (Int × List MPINeighborElement), MapOrdered t → MapOrdered (pushSides s t) := by
  induction s with
  | nil => intro t h; exact h
  | cons p s ih =>
    intro t h
    exact ih _ (mapOrdered_mapPushBack _ _ t h)

theorem mapLookup_pushSides (r : Int) (s : List (Element × Fin 4)) :
    ∀ t : List (Int × List MPINeighborElement), MapOrdered t →
      mapLookup r (pushSides s t)
        = mapLookup r t ++ ((s.filter (fun p => decide (p.1.neighborRanks p.2 = r))).map
            (fun p => neighborRecord p.1 p.2)) := by
  induction s with
  | nil => intro t _; simp [pushSides]
  | cons p s ih =>
    intro t h
    have h2 := ih _ (mapOrdered_mapPushBack (p.1.neighborRanks p.2) (neighborRecord p.1 p.2) t h)
    simp only [pushSides, List.foldl_cons] at h2 ⊢
    rw [h2, mapLookup_mapPushBack _ _ _ t h]
    by_cases hr : r = p.1.neighborRanks p.2
    · rw [if_pos hr]
      simp [List.filter_cons, hr]
    · have hr2 : ¬ p.1.neighborRanks p.2 = r := fun e => hr e.symm
      rw [if_neg hr]
      simp [List.filter_cons, hr2]

theorem mapLookup_of_mem {α : Type} {r : Int} {l : List α} :
    ∀ {t : List (Int × List α)}, MapOrdered t → (r, l) ∈ t → mapLookup r t = l
  | [], _, h => by cases h
  | (k, xs) :: rest, ho, h => by
    unfold MapOrdered at ho
    simp only [List.map_cons, List.pairwise_cons] at ho
    rcases List.mem_cons.mp h with h1 | h1
    · obtain ⟨rfl, rfl⟩ := Prod.mk.inj h1
      simp [mapLookup]
    · have hk : k < r := ho.1 r (List.mem_map.mpr ⟨(r, l), h1, rfl⟩)
      simp only [mapLookup, if_neg (ne_of_gt hk)]
      exact mapLookup_of_mem ho.2 h1

theorem sortFor_sorted (rank r : Int) (l : List MPINeighborElement) :
    (r > rank → (sortFor rank r l).Pairwise (fun x y => lexLe (localKey x) (localKey y))) ∧
    (¬ r > rank →
      (sortFor rank r l).Pairwise (fun x y => lexLe (neighborKey x) (neighborKey y))) := by
  constructor
  · intro h
    simp only [sortFor, if_pos h]
    exact stdSort_byLocal_sorted l
  · intro h
    simp only [sortFor, if_neg h]
    exact stdSort_byNeighbor_sorted l

section
variable {R : Type} [LinearOrderedField R]
variable (sqrt : R → R) (T : MeshTools.Tables) (rp : VrtxCoords R) (rm : RefPointMethod)

/-- The sequence stored for `r` after the call is the sorted sequence of the records that
were stored for `r` before, followed by the records pushed for `r`. -/
theorem stored_of_mem_extract (m : MeshReader R) (hmap : MapOrdered m.m_MPIFaultNeighbors)
    {r : Int} {l : List MPINeighborElement}
    (hmem : (r, l) ∈ (m.extractFaultInformation sqrt T rp rm).m_MPIFaultNeighbors) :
    l = sortFor m.m_rank r
      (mapLookup r m.m_MPIFaultNeighbors ++ registeredFor m.m_rank r m.m_elements) := by
  rw [extract_neighbors, List.mem_map] at hmem
  obtain ⟨⟨r0, l0⟩, h0, he⟩ := hmem
  obtain ⟨rfl, rfl⟩ := Prod.mk.inj he
  have h1 := mapLookup_of_mem (mapOrdered_pushSides _ _ hmap) h0
  rw [mapLookup_pushSides _ _ _ hmap] at h1
  simp only [registeredFor]
  rw [h1]

/-- C8: after `extractFaultInformation`, the sequence stored for a remote rank `r` is a
permutation of the records registered for `r` (those stored before the call and those pushed
by it) and is sorted ascending by `(localElement, localSide)` when `r` is greater than the own
rank, by `(neighborElement, neighborSide)` otherwise. -/
theorem neighbors_sorted_perm (m : MeshReader R) (hmap : MapOrdered m.m_MPIFaultNeighbors)
    (r : Int) (l : List MPINeighborElement)
    (hmem : (r, l) ∈ (m.extractFaultInformation sqrt T rp rm).m_MPIFaultNeighbors) :
    l.Perm (mapLookup r m.m_MPIFaultNeighbors ++ registeredFor m.m_rank r m.m_elements) ∧
    (r > m.m_rank → l.Pairwise (fun x y => lexLe (localKey x) (localKey y))) ∧
    (¬ r > m.m_rank → l.Pairwise (fun x y => lexLe (neighborKey x) (neighborKey y))) := by
  rw [stored_of_mem_extract sqrt T rp rm m hmap hmem]
  exact ⟨sortFor_perm _ _ _, sortFor_sorted _ _ _⟩

end

theorem neighbors_rankOne (R : Type) [LinearOrderedField R] (sqrt : R → R)
    (rp : VrtxCoords R) (rm : RefPointMethod) :
    ((rankOne R).extractFaultInformation sqrt referenceTables rp rm).m_MPIFaultNeighbors
      = [(0, [neighborRecord tetR1 0, neighborRecord tetR0 0])] := by
  rw [extract_neighbors]
  rfl

theorem neighbors_sorted_perm_witness :
    [neighborRecord tetR1 0, neighborRecord tetR0 0].Perm
        (mapLookup 0 (rankOne ℝ).m_MPIFaultNeighbors
          ++ registeredFor (rankOne ℝ).m_rank 0 (rankOne ℝ).m_elements) ∧
      [neighborRecord tetR1 0, neighborRecord tetR0 0].Pairwise
        (fun x y => lexLe (neighborKey x) (neighborKey y)) :=
  have h := neighbors_sorted_perm Real.sqrt referenceTables ⟨0, 0, 5⟩ RefPointMethod.Point
    (rankOne ℝ) (by simp [MapOrdered, rankOne]) 0
    [neighborRecord tetR1 0, neighborRecord tetR0 0]
    (by rw [neighbors_rankOne]; exact List.mem_singleton.mpr rfl)
  ⟨h.1, h.2.2 (by decide)⟩

/-! ## Reading and writing the index slots -/

theorem setMpiFaultIndex_length (es : List Element) (le ls p : Int) :
    (setMpiFaultIndex es le ls p).length = es.length := by
  unfold setMpiFaultIndex
  split
  · split <;> simp
  · rfl

theorem fin_ofNat_toNat_inj {a b : Int} (ha : 0 ≤ a ∧ a < 4) (hb : 0 ≤ b ∧ b < 4)
    (h : (Fin.ofNat a.toNat : Fin 4) = Fin.ofNat b.toNat) : a = b := by
  have h1 := congrArg Fin.val h
  simp only [Fin.ofNat, Fin.val_mk] at h1
  omega

theorem read_set_same (es : List Element) (le ls p : Int)
    (hv : 0 ≤ le ∧ le < (es.length : Int) ∧ 0 ≤ ls ∧ ls < 4) :
    mpiFaultIndexAt (setMpiFaultIndex es le ls p) le ls = some p := by
  obtain ⟨h1, h2, h3, h4⟩ := hv
  have hlt : le.toNat < es.length := by omega
  unfold mpiFaultIndexAt setMpiFaultIndex
  rw [if_pos ⟨h1, h3, h4⟩, if_pos ⟨h1, h3, h4⟩, List.getElem?_eq_getElem hlt]
  simp only [List.length_set, hlt, List.getElem?_eq_getElem,
    List.getElem_set_self, Function.update_same]

theorem read_set_other (es : List Element) (le ls le2 ls2 p : Int)
    (hne : ¬ (le = le2 ∧ ls = ls2)) :
    mpiFaultIndexAt (setMpiFaultIndex es le2 ls2 p) le ls = mpiFaultIndexAt es le ls := by
  unfold mpiFaultIndexAt
  by_cases hv : 0 ≤ le ∧ 0 ≤ ls ∧ ls < 4
  · rw [if_pos hv, if_pos hv]
    unfold setMpiFaultIndex
    by_cases hv2 : 0 ≤ le2 ∧ 0 ≤ ls2 ∧ ls2 < 4
    · rw [if_pos hv2]
      cases h2 : es[le2.toNat]? with
      | none => rfl
      | some e2 =>
        simp only
        by_cases hle : le = le2
        · subst hle
          have hls : ls ≠ ls2 := fun e => hne ⟨rfl, e⟩
          have hfin : (Fin.ofNat ls.toNat : Fin 4) ≠ Fin.ofNat ls2.toNat :=
            fun e => hls (fin_ofNat_toNat_inj ⟨hv.2.1, hv.2.2⟩ ⟨hv2.2.1, hv2.2.2⟩ e)
          have hlt : le.toNat < es.length := by
            by_contra hn
            rw [List.getElem?_eq_none (not_lt.mp hn)] at h2
            cases h2
          rw [List.getElem?_eq_getElem hlt] at h2
          simp only [List.getElem?_eq_getElem, List.length_set, hlt, List.getElem_set_self,
            Function.update_noteq hfin]
          rw [← Option.some.inj h2]
        · have hnat : le2.toNat ≠ le.toNat := by omega
          rw [List.getElem?_set_ne hnat]
    · rw [if_neg hv2]
  · rw [if_neg hv, if_neg hv]

theorem assignFrom_length (l : List MPINeighborElement) :
    ∀ (p : Nat) (es : List Element), (assignFrom p l es).length = es.length := by
  induction l with
  | nil => intro p es; rfl
  | cons x l ih =>
    intro p es
    simp only [assignFrom, ih, setMpiFaultIndex_length]

theorem assignFrom_read_other (le ls : Int) (l : List MPINeighborElement) :
    ∀ (p : Nat) (es : List Element), (∀ x ∈ l, localKey x ≠ (le, ls)) →
      mpiFaultIndexAt (assignFrom p l es) le ls = mpiFaultIndexAt es le ls := by
  induction l with
  | nil => intro p es _; rfl
  | cons x l ih =>
    intro p es h
    simp only [assignFrom]
    rw [ih _ _ (fun y hy => h y (List.mem_cons_of_mem _ hy))]
    apply read_set_other
    rintro ⟨h1, h2⟩
    exact h x (List.mem_cons_self _ _) (by simp [localKey, h1, h2])

/-- After the loop over a sequence of records with distinct slots inside the arrays, the slot
of the record at position `q` holds `p + q`. -/
theorem assignFrom_read (l : List MPINeighborElement) :
    ∀ (p : Nat) (es : List Element), (l.map localKey).Nodup →
      (∀ x ∈ l, 0 ≤ x.localElement ∧ x.localElement < (es.length : Int) ∧
        0 ≤ x.localSide ∧ x.localSide < 4) →
      ∀ (q : Nat) (x : MPINeighborElement), l[q]? = some x →
        mpiFaultIndexAt (assignFrom p l es) x.localElement x.localSide
          = some (((p + q : Nat) : Int)) := by
  induction l with
  | nil => intro p es _ _ q x h; simp at h
  | cons y l ih =>
    intro p es hnd hv q x hq
    simp only [List.map_cons, List.nodup_cons] at hnd
    simp only [assignFrom]
    cases q with
    | zero =>
      simp only [List.getElem?_cons_zero, Option.some.injEq] at hq
      subst hq
      rw [assignFrom_read_other]
      · rw [read_set_same _ _ _ _ (hv y (List.mem_cons_self _ _))]
        simp
      · intro z hz hk
        exact hnd.1 (List.mem_map.mpr ⟨z, hz, hk⟩)
    | succ q =>
      simp only [List.getElem?_cons_succ] at hq
      have := ih (p + 1) (setMpiFaultIndex es y.localElement y.localSide p) hnd.2
        (fun z hz => by
          rw [setMpiFaultIndex_length]
          exact hv z (List.mem_cons_of_mem _ hz)) q x hq
      rw [this]
      congr 2
      omega


theorem orderNeighbors_length (rank : Int) (t : List (Int × List MPINeighborElement)) :
    ∀ es : List Element, (orderNeighbors rank t es).2.length = es.length := by
  induction t with
  | nil => intro es; rfl
  | cons e t ih =>
    intro es
    obtain ⟨r, l⟩ := e
    simp only [orderNeighbors, ih, assignFrom_length]

theorem orderNeighbors_read_other (rank le ls : Int)
    (t : List (Int × List MPINeighborElement)) :
    ∀ es : List Element, (∀ e ∈ t, ∀ x ∈ e.2, localKey x ≠ (le, ls)) →
      mpiFaultIndexAt (orderNeighbors rank t es).2 le ls = mpiFaultIndexAt es le ls := by
  induction t with
  | nil => intro es _; rfl
  | cons e t ih =>
    intro es h
    obtain ⟨r, l⟩ := e
    simp only [orderNeighbors]
    rw [ih _ (fun e he => h e (List.mem_cons_of_mem _ he))]
    apply assignFrom_read_other
    intro x hx
    exact h (r, l) (List.mem_cons_self _ _) x ((sortFor_perm rank r l).mem_iff.mp hx)

theorem orderNeighbors_read (rank : Int) (t : List (Int × List MPINeighborElement)) :
    ∀ es : List Element, ((t.flatMap (fun e => e.2)).map localKey).Nodup →
      (∀ e ∈ t, ∀ x ∈ e.2, 0 ≤ x.localElement ∧ x.localElement < (es.length : Int) ∧
        0 ≤ x.localSide ∧ x.localSide < 4) →
      ∀ (r : Int) (l : List MPINeighborElement), (r, l) ∈ t →
      ∀ (q : Nat) (x : MPINeighborElement), (sortFor rank r l)[q]? = some x →
        mpiFaultIndexAt (orderNeighbors rank t es).2 x.localElement x.localSide
          = some ((q : Nat) : Int) := by
  induction t with
  | nil => intro es _ _ r l h; cases h
  | cons e t ih =>
    intro es hnd hv r l hmem q x hq
    obtain ⟨r0, l0⟩ := e
    simp only [List.flatMap_cons, List.map_append, List.nodup_append] at hnd
    obtain ⟨hnd0, hndt, hdisj⟩ := hnd
    simp only [orderNeighbors]
    have hxs : x ∈ sortFor rank r l := List.mem_iff_getElem?.mpr ⟨q, hq⟩
    have hxl : x ∈ l := (sortFor_perm rank r l).mem_iff.mp hxs
    by_cases hin : (r, l) ∈ t
    · refine ih _ hndt ?_ r l hin q x hq
      intro e he y hy
      rw [assignFrom_length]
      exact hv e (List.mem_cons_of_mem _ he) y hy
    · have hhead : (r, l) = (r0, l0) := by
        rcases List.mem_cons.mp hmem with h | h
        · exact h
        · exact absurd h hin
      obtain ⟨rfl, rfl⟩ := Prod.mk.inj hhead
      rw [orderNeighbors_read_other]
      · have := assignFrom_read (sortFor rank r l) 0 es
          (((sortFor_perm rank r l).map localKey).nodup_iff.mpr hnd0)
          (fun y hy => hv (r, l) (List.mem_cons_self _ _) y
            ((sortFor_perm rank r l).mem_iff.mp hy)) q x hq
        rw [this]
        simp
      · intro e he y hy hk
        have h1 : localKey x ∈ l.map localKey := List.mem_map.mpr ⟨x, hxl, rfl⟩
        have h2 : localKey x ∈ (t.flatMap (fun e => e.2)).map localKey :=
          List.mem_map.mpr ⟨y, List.mem_flatMap.mpr ⟨e, he, hy⟩, hk⟩
        exact hdisj h1 h2

/-! ## The index written to an element is the position in the sorted sequence -/

theorem records_mapPushBack_perm {α : Type} (key : Int) (x : α) :
    ∀ t : List (Int × List α),
      ((mapPushBack key x t).flatMap (fun e => e.2)).Perm (t.flatMap (fun e => e.2) ++ [x])
  | [] => by simp [mapPushBack]
  | (k, xs) :: rest => by
    unfold mapPushBack
    split_ifs with h1 h2
    · simp only [List.flatMap_cons, List.append_assoc]
      exact List.Perm.append_left xs List.perm_append_comm
    · simp only [List.flatMap_cons, List.flatMap_nil, List.append_nil]
      exact @List.perm_append_comm _ [x] _
    · simp only [List.flatMap_cons, List.append_assoc]
      exact List.Perm.append_left xs (records_mapPushBack_perm key x rest)

theorem records_pushSides_perm (s : List (Element × Fin 4)) :
    ∀ t : List (Int × List MPINeighborElement),
      ((pushSides s t).flatMap (fun e => e.2)).Perm
        (t.flatMap (fun e => e.2) ++ s.map (fun p => neighborRecord p.1 p.2)) := by
  induction s with
  | nil => intro t; simp [pushSides]
  | cons p s ih =>
    intro t
    have h1 := ih (mapPushBack (p.1.neighborRanks p.2) (neighborRecord p.1 p.2) t)
    have h2 := records_mapPushBack_perm (p.1.neighborRanks p.2) (neighborRecord p.1 p.2) t
    simp only [pushSides, List.foldl_cons, List.map_cons] at h1 ⊢
    refine h1.trans ?_
    refine (List.Perm.append_right _ h2).trans ?_
    simp

theorem mem_registeredSides {rank : Int} {es : List Element} {i : Element} {j : Fin 4} :
    (i, j) ∈ registeredSides rank es ↔ i ∈ es ∧ isRegistered rank i j = true := by
  simp only [registeredSides, List.mem_flatMap, List.mem_map, List.mem_filter, Prod.mk.injEq]
  constructor
  · rintro ⟨i2, hi, j2, ⟨_, hp⟩, rfl, rfl⟩
    exact ⟨hi, hp⟩
  · rintro ⟨hi, hp⟩
    refine ⟨i, hi, j, ⟨?_, hp⟩, rfl, rfl⟩
    fin_cases j <;> simp

theorem nodup_registeredSides {rank : Int} {es : List Element} (h : es.Nodup) :
    (registeredSides rank es).Nodup := by
  unfold registeredSides
  rw [List.nodup_flatMap]
  constructor
  · intro i _
    refine ((List.Nodup.filter _ (by decide)).map ?_)
    intro j1 j2 hj
    exact (Prod.mk.inj hj).2
  · refine h.imp ?_
    intro i1 i2 hne
    simp only [Function.onFun]
    intro p hp1 hp2
    simp only [List.mem_map, List.mem_filter] at hp1 hp2
    obtain ⟨_, _, rfl⟩ := hp1
    obtain ⟨_, _, hh⟩ := hp2
    exact hne (Prod.mk.inj hh).1.symm

theorem nodup_registered_keys {rank : Int} {es : List Element} (hid : LocalIdIsPosition es) :
    (((registeredSides rank es).map (fun p => neighborRecord p.1 p.2)).map localKey).Nodup := by
  rw [List.map_map]
  refine List.Nodup.map_on ?_ (nodup_registeredSides (nodup_of_localIdIsPosition hid))
  rintro ⟨i1, j1⟩ h1 ⟨i2, j2⟩ h2 hk
  simp only [Function.comp, localKey, neighborRecord, Prod.mk.injEq] at hk
  have hi := eq_of_localId_eq hid (mem_registeredSides.mp h1).1 (mem_registeredSides.mp h2).1
    hk.1
  have hj : j1 = j2 := Fin.ext (by exact_mod_cast hk.2)
  rw [hi, hj]

section
variable {R : Type} [LinearOrderedField R]
variable (sqrt : R → R) (T : MeshTools.Tables) (rp : VrtxCoords R) (rm : RefPointMethod)

/-- The slot named by the record at position `p` of a stored sequence holds `p`. -/
theorem slot_of_position (m : MeshReader R)
    (hid : LocalIdIsPosition m.m_elements) (hempty : m.m_MPIFaultNeighbors = [])
    (r : Int) (l : List MPINeighborElement)
    (hmem : (r, l) ∈ (m.extractFaultInformation sqrt T rp rm).m_MPIFaultNeighbors)
    (p : Nat) (x : MPINeighborElement) (hx : l[p]? = some x) :
    mpiFaultIndexAt (m.extractFaultInformation sqrt T rp rm).m_elements
      x.localElement x.localSide = some ((p : Nat) : Int) := by
  rw [extract_neighbors, List.mem_map] at hmem
  obtain ⟨⟨r0, l0⟩, h0, he⟩ := hmem
  obtain ⟨rfl, rfl⟩ := Prod.mk.inj he
  rw [extract_elements]
  have hperm := records_pushSides_perm (registeredSides m.m_rank m.m_elements)
    m.m_MPIFaultNeighbors
  rw [hempty] at hperm h0 ⊢
  simp only [List.flatMap_nil, List.nil_append] at hperm
  refine orderNeighbors_read m.m_rank _ _ ?_ ?_ r0 l0 h0 p x hx
  · exact ((hperm.map localKey).nodup_iff).mpr (nodup_registered_keys hid)
  · intro e he y hy
    have hy2 : y ∈ (registeredSides m.m_rank m.m_elements).map
        (fun p => neighborRecord p.1 p.2) :=
      hperm.mem_iff.mp (List.mem_flatMap.mpr ⟨e, he, hy⟩)
    obtain ⟨⟨i, j⟩, hij, rfl⟩ := List.mem_map.mp hy2
    have hi := (mem_registeredSides.mp hij).1
    have hrange := localId_lt_length hid hi
    rw [List.length_map]
    simp only [neighborRecord]
    have hj := j.isLt
    exact ⟨hrange.1, hrange.2, by positivity, by exact_mod_cast hj⟩

/-- C7: when every `localId` is the position of its element and the table of fault neighbours
is empty before the call, then after `extractFaultInformation` the record at position `p` of
the sorted sequence of a remote rank names a slot `mpiFaultIndices[localSide]` of the element
at index `localElement` that holds `p`. -/
theorem mpi_fault_index_is_position (m : MeshReader R)
    (hid : LocalIdIsPosition m.m_elements) (hempty : m.m_MPIFaultNeighbors = [])
    (r : Int) (l : List MPINeighborElement)
    (hmem : (r, l) ∈ (m.extractFaultInformation sqrt T rp rm).m_MPIFaultNeighbors)
    (p : Nat) (x : MPINeighborElement) (hx : l[p]? = some x) :
    mpiFaultIndexAt (m.extractFaultInformation sqrt T rp rm).m_elements
      x.localElement x.localSide = some ((p : Nat) : Int) :=
  slot_of_position sqrt T rp rm m hid hempty r l hmem p x hx

end

theorem mpi_fault_index_is_position_witness :
    mpiFaultIndexAt
      ((rankOne ℝ).extractFaultInformation Real.sqrt referenceTables ⟨0, 0, 5⟩
        RefPointMethod.Point).m_elements
      (neighborRecord tetR0 0).localElement (neighborRecord tetR0 0).localSide
      = some ((1 : Nat) : Int) :=
  mpi_fault_index_is_position Real.sqrt referenceTables ⟨0, 0, 5⟩ RefPointMethod.Point
    (rankOne ℝ) (by unfold LocalIdIsPosition; rfl) rfl 0
    [neighborRecord tetR1 0, neighborRecord tetR0 0]
    (by rw [neighbors_rankOne]; exact List.mem_singleton.mpr rfl) 1 (neighborRecord tetR0 0) rfl

/-! ## Two ranks number their shared faces alike -/

theorem mem_of_mem_mapLookup {α : Type} {r : Int} {x : α} :
    ∀ {t : List (Int × List α)}, x ∈ mapLookup r t → (r, mapLookup r t) ∈ t
  | [], h => by simp [mapLookup] at h
  | (k, xs) :: rest, h => by
    by_cases hk : r = k
    · subst hk
      simp [mapLookup]
    · simp only [mapLookup, if_neg hk] at h ⊢
      exact List.mem_cons_of_mem _ (mem_of_mem_mapLookup h)

theorem sortFor_nil (rank r : Int) : sortFor rank r [] = [] := by
  unfold sortFor
  split <;> rfl

theorem mapLookup_map_sortFor (rank r : Int) :
    ∀ t : List (Int × List MPINeighborElement),
      mapLookup r (t.map (fun e => (e.1, sortFor rank e.1 e.2)))
        = sortFor rank r (mapLookup r t)
  | [] => by simp [mapLookup, sortFor_nil]
  | (k, xs) :: rest => by
    by_cases h : r = k
    · subst h
      simp [mapLookup]
    · simp only [List.map_cons, mapLookup, if_neg h]
      exact mapLookup_map_sortFor rank r rest

/-- Two sorted sequences over the same faces, one sorted by the local key and one by the
neighbour key, list the faces in the same order. -/
theorem sorted_positions_agree (SA SB : List MPINeighborElement)
    (shared : List (MPINeighborElement × MPINeighborElement))
    (hA : SA.Perm (shared.map Prod.fst)) (hB : SB.Perm (shared.map Prod.snd))
    (hsA : SA.Pairwise (fun x y => lexLe (localKey x) (localKey y)))
    (hsB : SB.Pairwise (fun x y => lexLe (neighborKey x) (neighborKey y)))
    (hkey : ∀ ab ∈ shared, neighborKey ab.2 = localKey ab.1)
    (hdist : (shared.map (fun ab => localKey ab.1)).Nodup)
    (ab : MPINeighborElement × MPINeighborElement) (hab : ab ∈ shared) (p : Nat) :
    SA[p]? = some ab.1 ↔ SB[p]? = some ab.2 := by
  have hKA : (SA.map localKey).Perm (shared.map (fun ab => localKey ab.1)) := by
    have := hA.map localKey
    rwa [List.map_map] at this
  have hKB : (SB.map neighborKey).Perm (shared.map (fun ab => localKey ab.1)) := by
    have := hB.map neighborKey
    rw [List.map_map] at this
    refine this.trans (List.Perm.of_eq ?_)
    exact List.map_congr_left (fun x hx => hkey x hx)
  haveI : IsAntisymm (Int × Int) lexLe := ⟨fun _ _ h1 h2 => lexLe_antisymm h1 h2⟩
  have hK : SA.map localKey = SB.map neighborKey :=
    List.eq_of_perm_of_sorted (hKA.trans hKB.symm)
      (List.pairwise_map.mpr hsA) (List.pairwise_map.mpr hsB)
  have hinj := List.inj_on_of_nodup_map hdist
  constructor
  · intro h
    have h1 : (SA.map localKey)[p]? = some (localKey ab.1) := by
      rw [List.getElem?_map, h]; rfl
    rw [hK, List.getElem?_map] at h1
    obtain ⟨y, hy, hky⟩ := Option.map_eq_some'.mp h1
    obtain ⟨ab2, hab2, rfl⟩ := List.mem_map.mp (hB.mem_iff.mp (List.getElem?_mem hy))
    have : ab2 = ab := hinj hab2 hab ((hkey ab2 hab2).symm.trans hky)
    rw [hy, this]
  · intro h
    have h1 : (SB.map neighborKey)[p]? = some (neighborKey ab.2) := by
      rw [List.getElem?_map, h]; rfl
    rw [← hK, List.getElem?_map] at h1
    obtain ⟨y, hy, hky⟩ := Option.map_eq_some'.mp h1
    obtain ⟨ab2, hab2, rfl⟩ := List.mem_map.mp (hA.mem_iff.mp (List.getElem?_mem hy))
    have : ab2 = ab := hinj hab2 hab (hky.trans (hkey ab hab))
    rw [hy, this]

section
variable {R : Type} [LinearOrderedField R]
variable (sqrt : R → R) (T : MeshTools.Tables) (rp : VrtxCoords R) (rm : RefPointMethod)

/-- The sequence that `extractFaultInformation` stores for the remote rank `r`. -/
theorem mapLookup_extract (m : MeshReader R) (hmap : MapOrdered m.m_MPIFaultNeighbors)
    (r : Int) :
    mapLookup r (m.extractFaultInformation sqrt T rp rm).m_MPIFaultNeighbors
      = sortFor m.m_rank r
          (mapLookup r m.m_MPIFaultNeighbors ++ registeredFor m.m_rank r m.m_elements) := by
  rw [extract_neighbors, mapLookup_map_sortFor, mapLookup_pushSides _ _ _ hmap]
  rfl

/-- C3: ranks `A < B` share the faces of `shared`, a list of pairs of the record of `A` and
the record of `B` of one face, with pairwise distinct keys `(localElement, localSide)` on `A`,
and the record of `B` carries these as `(neighborElement, neighborSide)`.  Then a face has
the same position in the sequence that `extractFaultInformation` stores on `A` for `B`
(sorted by the local key) and in the one it stores on `B` for `A` (sorted by the neighbour
key); with one shared face the position is 0 on both.  When every `localId` is the position of
its element on both ranks, the two slots `mpiFaultIndices` of the face hold this same index. -/
theorem mpi_fault_index_agrees (mA mB : MeshReader R) (hAB : mA.m_rank < mB.m_rank)
    (hA0 : mA.m_MPIFaultNeighbors = []) (hB0 : mB.m_MPIFaultNeighbors = [])
    (shared : List (MPINeighborElement × MPINeighborElement))
    (hA : (registeredFor mA.m_rank mB.m_rank mA.m_elements).Perm (shared.map Prod.fst))
    (hB : (registeredFor mB.m_rank mA.m_rank mB.m_elements).Perm (shared.map Prod.snd))
    (hkey : ∀ ab ∈ shared, neighborKey ab.2 = localKey ab.1)
    (hdist : (shared.map (fun ab => localKey ab.1)).Nodup)
    (ab : MPINeighborElement × MPINeighborElement) (hab : ab ∈ shared) :
    (∀ p : Nat,
      (mapLookup mB.m_rank
          (mA.extractFaultInformation sqrt T rp rm).m_MPIFaultNeighbors)[p]? = some ab.1 ↔
      (mapLookup mA.m_rank
          (mB.extractFaultInformation sqrt T rp rm).m_MPIFaultNeighbors)[p]? = some ab.2) ∧
    (shared.length = 1 →
      (mapLookup mB.m_rank
          (mA.extractFaultInformation sqrt T rp rm).m_MPIFaultNeighbors)[0]? = some ab.1 ∧
      (mapLookup mA.m_rank
          (mB.extractFaultInformation sqrt T rp rm).m_MPIFaultNeighbors)[0]? = some ab.2) ∧
    (LocalIdIsPosition mA.m_elements → LocalIdIsPosition mB.m_elements →
      ∃ p : Nat,
        mpiFaultIndexAt (mA.extractFaultInformation sqrt T rp rm).m_elements
          ab.1.localElement ab.1.localSide = some ((p : Nat) : Int) ∧
        mpiFaultIndexAt (mB.extractFaultInformation sqrt T rp rm).m_elements
          ab.2.localElement ab.2.localSide = some ((p : Nat) : Int)) := by
  have hmA : MapOrdered mA.m_MPIFaultNeighbors := by rw [hA0]; simp [MapOrdered]
  have hmB : MapOrdered mB.m_MPIFaultNeighbors := by rw [hB0]; simp [MapOrdered]
  have hSA := mapLookup_extract sqrt T rp rm mA hmA mB.m_rank
  have hSB := mapLookup_extract sqrt T rp rm mB hmB mA.m_rank
  rw [hA0] at hSA
  rw [hB0] at hSB
  simp only [mapLookup, List.nil_append] at hSA hSB
  have hpA := (sortFor_perm mA.m_rank mB.m_rank
    (registeredFor mA.m_rank mB.m_rank mA.m_elements)).trans hA
  have hpB := (sortFor_perm mB.m_rank mA.m_rank
    (registeredFor mB.m_rank mA.m_rank mB.m_elements)).trans hB
  have hsA := (sortFor_sorted mA.m_rank mB.m_rank
    (registeredFor mA.m_rank mB.m_rank mA.m_elements)).1 hAB
  have hsB := (sortFor_sorted mB.m_rank mA.m_rank
    (registeredFor mB.m_rank mA.m_rank mB.m_elements)).2 (not_lt.mpr hAB.le)
  rw [← hSA] at hpA hsA
  rw [← hSB] at hpB hsB
  have hpos := sorted_positions_agree _ _ shared hpA hpB hsA hsB hkey hdist ab hab
  refine ⟨hpos, ?_, ?_⟩
  · intro hone
    obtain ⟨c, hc⟩ := List.length_eq_one.mp hone
    rw [hc] at hpA hab
    have hac : ab = c := List.mem_singleton.mp hab
    have h0 : (mapLookup mB.m_rank
        (mA.extractFaultInformation sqrt T rp rm).m_MPIFaultNeighbors)[0]? = some ab.1 := by
      rw [List.perm_singleton.mp hpA, hac]
      rfl
    exact ⟨h0, (hpos 0).mp h0⟩
  · intro hidA hidB
    have hmemA : ab.1 ∈ mapLookup mB.m_rank
        (mA.extractFaultInformation sqrt T rp rm).m_MPIFaultNeighbors :=
      hpA.mem_iff.mpr (List.mem_map.mpr ⟨ab, hab, rfl⟩)
    obtain ⟨p, hp⟩ := List.mem_iff_getElem?.mp hmemA
    have hq := (hpos p).mp hp
    exact ⟨p,
      slot_of_position sqrt T rp rm mA hidA hA0 _ _ (mem_of_mem_mapLookup hmemA) p ab.1 hp,
      slot_of_position sqrt T rp rm mB hidB hB0 _ _
        (mem_of_mem_mapLookup (List.getElem?_mem hq)) p ab.2 hq⟩

end

theorem neighbors_rankZero (R : Type) [LinearOrderedField R] (sqrt : R → R)
    (rp : VrtxCoords R) (rm : RefPointMethod) :
    ((rankZero R).extractFaultInformation sqrt referenceTables rp rm).m_MPIFaultNeighbors
      = [(1, [neighborRecord tetL 0, neighborRecord tetL 1])] := by
  rw [extract_neighbors]
  rfl

theorem mpi_fault_index_agrees_witness :
    (mapLookup (rankOne ℝ).m_rank
        ((rankZero ℝ).extractFaultInformation Real.sqrt referenceTables ⟨0, 0, 5⟩
          RefPointMethod.Point).m_MPIFaultNeighbors)[1]? = some (neighborRecord tetL 1) ↔
    (mapLookup (rankZero ℝ).m_rank
        ((rankOne ℝ).extractFaultInformation Real.sqrt referenceTables ⟨0, 0, 5⟩
          RefPointMethod.Point).m_MPIFaultNeighbors)[1]? = some (neighborRecord tetR0 0) :=
  (mpi_fault_index_agrees Real.sqrt referenceTables ⟨0, 0, 5⟩ RefPointMethod.Point
    (rankZero ℝ) (rankOne ℝ) (by decide) rfl rfl
    [(neighborRecord tetL 0, neighborRecord tetR1 0),
      (neighborRecord tetL 1, neighborRecord tetR0 0)]
    (List.Perm.refl _) (List.Perm.swap _ _ _) (by decide) (by decide)
    (neighborRecord tetL 1, neighborRecord tetR0 0) (by decide)).1 1

/-! ## displaceMesh and its inverse -/

set_option maxRecDepth 100000 in
set_option exponentiation.threshold 4096 in
/-- C10, counterexample: in double precision the vertex `(1, 0, 0)` displaced by
`(2^53, 0, 0)` and then by `(-2^53, 0, 0)` ends at `(0, 0, 0)`: the sum `1 + 2^53` is not a
double and rounds to `2^53`.  All values involved are doubles. -/
theorem displace_roundtrip_counterexample :
    ((oneVertexMesh.displaceMesh largeOffset).displaceMesh largeOffset.neg).m_vertices
      = [⟨⟨Binary64.ofInt 0, Binary64.ofInt 0, Binary64.ofInt 0⟩⟩] ∧
    oneVertexMesh.m_vertices = [⟨⟨Binary64.ofInt 1, Binary64.ofInt 0, Binary64.ofInt 0⟩⟩] ∧
    Binary64.ofInt 0 ≠ Binary64.ofInt 1 ∧
    Binary64.ofInt 1 = Binary64.finite ((2 ^ 1074 : Nat) : Int) ∧
    Binary64.ofInt 9007199254740992 = Binary64.finite ((2 ^ 1127 : Nat) : Int) := by
  decide

/-- A finite double `x` comes back from `(x + d) + (-d)` when the addition `x + d` does not
round. -/
theorem Binary64.roundtrip_of_exact (x d : Binary64) (h : Binary64.ExactSum x d) :
    (x + d) + (-d) = x := by
  cases x <;> cases d <;> simp only [Binary64.ExactSum] at h
  rename_i a b
  obtain ⟨ha, hab⟩ := h
  show Binary64.add (Binary64.add (Binary64.finite a) (Binary64.finite b))
    (Binary64.neg (Binary64.finite b)) = Binary64.finite a
  simp only [Binary64.add, Binary64.neg, hab]
  rw [show a + b + -b = a by ring, ha]

/-- C10, amended: `displaceMesh` keeps the number of vertices in every arithmetic; in exact
arithmetic (an additive group, such as the reals) `displaceMesh(d)` followed by
`displaceMesh(-d)` gives back every coordinate of every vertex; and in double precision it
gives back the coordinates of a mesh for which no addition `x + d` of a coordinate and its
offset rounds. -/
theorem displace_roundtrip_exact :
    (∀ (R : Type) [Add R] (d : VrtxCoords R) (m : MeshReader R),
      (m.displaceMesh d).m_vertices.length = m.m_vertices.length) ∧
    (∀ (R : Type) [AddGroup R] (d : VrtxCoords R) (m : MeshReader R),
      ((m.displaceMesh d).displaceMesh d.neg).m_vertices = m.m_vertices) ∧
    (∀ (d : VrtxCoords Binary64) (m : MeshReader Binary64),
      (∀ v ∈ m.m_vertices, Binary64.ExactSum v.coords.c0 d.c0 ∧
        Binary64.ExactSum v.coords.c1 d.c1 ∧ Binary64.ExactSum v.coords.c2 d.c2) →
      ((m.displaceMesh d).displaceMesh d.neg).m_vertices = m.m_vertices) := by
  refine ⟨?_, ?_, ?_⟩
  · intro R _ d m
    simp [MeshReader.displaceMesh]
  · intro R _ d m
    simp only [MeshReader.displaceMesh, List.map_map]
    conv_rhs => rw [← List.map_id m.m_vertices]
    apply List.map_congr_left
    intro v _
    obtain ⟨⟨x, y, z⟩⟩ := v
    simp [displaceVertex, VrtxCoords.neg]
  · intro d m h
    simp only [MeshReader.displaceMesh, List.map_map]
    conv_rhs => rw [← List.map_id m.m_vertices]
    apply List.map_congr_left
    intro v hv
    obtain ⟨h0, h1, h2⟩ := h v hv
    obtain ⟨⟨x, y, z⟩⟩ := v
    simp only [Function.comp, displaceVertex, VrtxCoords.neg, id]
    rw [Binary64.roundtrip_of_exact x d.c0 h0, Binary64.roundtrip_of_exact y d.c1 h1,
      Binary64.roundtrip_of_exact z d.c2 h2]

set_option maxRecDepth 100000 in
set_option exponentiation.threshold 4096 in
theorem displace_roundtrip_exact_witness :
    ((oneVertexMesh.displaceMesh unitOffset).displaceMesh unitOffset.neg).m_vertices
      = oneVertexMesh.m_vertices :=
  displace_roundtrip_exact.2.2 unitOffset oneVertexMesh (by
    intro v hv
    simp only [oneVertexMesh, List.mem_singleton] at hv
    subst hv
    have h1 : Binary64.ofInt 1 = Binary64.finite ((2 ^ 1074 : Nat) : Int) := by decide
    have h0 : Binary64.ofInt 0 = Binary64.finite 0 := by decide
    simp only [unitOffset, h1, h0, Binary64.ExactSum]
    decide)

/-! ## scaleMesh -/

/-- C11: `scaleMesh(M)` keeps the number of vertices and replaces the coordinates `x` of every
vertex by the matrix-vector product: the new `coords[i]` is the sum over `j` of
`M(i, j) * x[j]`, all three taken from the old coordinates. -/
theorem scaleMesh_mulVec (R : Type) [Semiring R] (M : Fin 3 → Fin 3 → R) (m : MeshReader R) :
    (m.scaleMesh M).m_vertices.length = m.m_vertices.length ∧
    ∀ (k : Nat) (i : Fin 3),
      ((m.scaleMesh M).m_vertices[k]?).map (fun w => w.coords.get i)
        = (m.m_vertices[k]?).map (fun v => ∑ j : Fin 3, M i j * v.coords.get j) := by
  constructor
  · simp [MeshReader.scaleMesh]
  · intro k i
    simp only [MeshReader.scaleMesh, List.getElem?_map, Option.map_map]
    congr 1
    funext v
    fin_cases i <;>
      simp [scaleVertex, matVec, VrtxCoords.get, Fin.sum_univ_three, add_assoc]

/-! ## The send buffers of exchangeGhostlayerMetadata -/

section
variable {R : Type} [Zero R]

/-- The buffer of an element list whose indices `localElement` are inside `m_elements`. -/
theorem sendBuffer_some (m : MeshReader R) :
    ∀ (l : List MPINeighborElement),
      (∀ x ∈ l, 0 ≤ x.localElement ∧ x.localElement < (m.m_elements.length : Int)) →
      ∃ buf, sendBuffer m l = some buf ∧ buf.length = l.length ∧
        ∀ (j : Nat) (x : MPINeighborElement), l[j]? = some x →
          ∃ e g, m.m_elements[x.localElement.toNat]? = some e ∧ buf[j]? = some g ∧
            (∀ v : Fin 4, g.vertices v = vertexCoords m.m_vertices (e.vertices v)) ∧
            g.group = e.group
  | [], _ => ⟨[], rfl, rfl, fun j x h => by simp at h⟩
  | y :: rest, h => by
    obtain ⟨buf, hb, hlen, hrec⟩ :=
      sendBuffer_some m rest (fun x hx => h x (List.mem_cons_of_mem _ hx))
    obtain ⟨h0, h1⟩ := h y (List.mem_cons_self _ _)
    have hlt : y.localElement.toNat < m.m_elements.length := by omega
    have hget : m.m_elements[y.localElement.toNat]?
        = some (m.m_elements[y.localElement.toNat]) := List.getElem?_eq_getElem hlt
    obtain ⟨g0, hg, hgv, hgg⟩ : ∃ g0, ghostRecord m y = some g0 ∧
        (∀ v : Fin 4, g0.vertices v
          = vertexCoords m.m_vertices ((m.m_elements[y.localElement.toNat]).vertices v)) ∧
        g0.group = (m.m_elements[y.localElement.toNat]).group :=
      ⟨GhostElementMetadata.mk
          (fun v => vertexCoords m.m_vertices ((m.m_elements[y.localElement.toNat]).vertices v))
          (m.m_elements[y.localElement.toNat]).group,
        by simp only [ghostRecord, if_pos h0, hget], fun _ => rfl, rfl⟩
    refine ⟨g0 :: buf, ?_, ?_, ?_⟩
    · simp only [sendBuffer, hg, hb]
    · simp [hlen]
    · intro j x hj
      cases j with
      | zero =>
        simp only [List.getElem?_cons_zero, Option.some.injEq] at hj
        subst hj
        exact ⟨_, g0, hget, by simp, hgv, hgg⟩
      | succ j =>
        simp only [List.getElem?_cons_succ] at hj ⊢
        exact hrec j x hj

theorem prepareSendData_some (m : MeshReader R) :
    ∀ (t : List (Int × MPINeighbor)),
      (∀ e ∈ t, ∀ x ∈ e.2.elements,
        0 ≤ x.localElement ∧ x.localElement < (m.m_elements.length : Int)) →
      ∃ s, prepareSendData m t = some s ∧ s.length = t.length ∧
        ∀ (k : Nat) (r : Int) (nb : MPINeighbor), t[k]? = some (r, nb) →
          ∃ buf, s[k]? = some (r, buf) ∧ sendBuffer m nb.elements = some buf
  | [], _ => ⟨[], rfl, rfl, fun k r nb h => by simp at h⟩
  | (r0, nb0) :: rest, h => by
    obtain ⟨s, hs, hlen, hrec⟩ :=
      prepareSendData_some m rest (fun e he => h e (List.mem_cons_of_mem _ he))
    obtain ⟨buf, hb, _, _⟩ := sendBuffer_some m nb0.elements (h (r0, nb0) (List.mem_cons_self _ _))
    refine ⟨(r0, buf) :: s, ?_, ?_, ?_⟩
    · simp only [prepareSendData, hb, hs]
    · simp [hlen]
    · intro k r nb hk
      cases k with
      | zero =>
        simp only [List.getElem?_cons_zero, Option.some.injEq, Prod.mk.injEq] at hk
        obtain ⟨rfl, rfl⟩ := hk
        exact ⟨buf, by simp, hb⟩
      | succ k =>
        simp only [List.getElem?_cons_succ] at hk ⊢
        exact hrec k r nb hk

/-- C12: when every listed `localElement` is an index of `m_elements`, the packing loop of
`exchangeGhostlayerMetadata` returns one send buffer for every entry of the neighbour table,
in the order of the table; the buffer for the rank `r` with the element list `L` has `|L|`
records, and record `j` holds, for `v = 0..3`, the coordinates of the vertex with the index
`m_elements[L[j].localElement].vertices[v]` and the group of that element. -/
theorem send_buffer_contents (m : MeshReader R)
    (hvalid : ∀ e ∈ m.m_MPINeighbors, ∀ x ∈ e.2.elements,
      0 ≤ x.localElement ∧ x.localElement < (m.m_elements.length : Int)) :
    ∃ s, m.sendData = some s ∧ s.length = m.m_MPINeighbors.length ∧
      ∀ (k : Nat) (r : Int) (nb : MPINeighbor), m.m_MPINeighbors[k]? = some (r, nb) →
        ∃ buf, s[k]? = some (r, buf) ∧ buf.length = nb.elements.length ∧
          ∀ (j : Nat) (x : MPINeighborElement), nb.elements[j]? = some x →
            ∃ e g, m.m_elements[x.localElement.toNat]? = some e ∧ buf[j]? = some g ∧
              (∀ v : Fin 4, g.vertices v = vertexCoords m.m_vertices (e.vertices v)) ∧
              g.group = e.group := by
  obtain ⟨s, hs, hlen, hrec⟩ := prepareSendData_some m m.m_MPINeighbors hvalid
  refine ⟨s, hs, hlen, ?_⟩
  intro k r nb hk
  obtain ⟨buf, hbuf, hsb⟩ := hrec k r nb hk
  have hmem : (r, nb) ∈ m.m_MPINeighbors := List.getElem?_mem hk
  obtain ⟨buf2, hb2, hlen2, hrec2⟩ := sendBuffer_some m nb.elements (hvalid (r, nb) hmem)
  rw [hsb] at hb2
  obtain rfl := Option.some.inj hb2
  exact ⟨buf, hbuf, hlen2, hrec2⟩

end

theorem send_buffer_contents_witness :
    ∃ s, (ghostMesh ℝ).sendData = some s ∧ s.length = (ghostMesh ℝ).m_MPINeighbors.length ∧
      ∀ (k : Nat) (r : Int) (nb : MPINeighbor), (ghostMesh ℝ).m_MPINeighbors[k]? = some (r, nb) →
        ∃ buf, s[k]? = some (r, buf) ∧ buf.length = nb.elements.length ∧
          ∀ (j : Nat) (x : MPINeighborElement), nb.elements[j]? = some x →
            ∃ e g, (ghostMesh ℝ).m_elements[x.localElement.toNat]? = some e ∧
              buf[j]? = some g ∧
              (∀ v : Fin 4,
                g.vertices v = vertexCoords (ghostMesh ℝ).m_vertices (e.vertices v)) ∧
              g.group = e.group :=
  send_buffer_contents (ghostMesh ℝ) (by
    intro e he x hx
    simp only [ghostMesh, List.mem_singleton] at he
    subst he
    simp only [List.mem_cons, List.mem_singleton, List.not_mem_nil, or_false] at hx
    rcases hx with rfl | rfl <;> simp [ghostMesh])

/-! ## Idempotence of the sort, and the traction test -/

theorem stdSort_of_sorted {α : Type} (lt : α → α → Bool) {l : List α}
    (h : l.Pairwise (NotAfter lt)) : stdSort lt l = l :=
  List.Sorted.insertionSort_eq h

theorem stdSort_byLocal_idem (l : List MPINeighborElement) :
    stdSort byLocal (stdSort byLocal l) = stdSort byLocal l := by
  apply stdSort_of_sorted
  exact List.Pairwise.imp (fun {a b} hab => (notAfter_byLocal a b).mpr hab)
    (stdSort_byLocal_sorted l)

theorem stdSort_byNeighbor_idem (l : List MPINeighborElement) :
    stdSort byNeighbor (stdSort byNeighbor l) = stdSort byNeighbor l := by
  apply stdSort_of_sorted
  exact List.Pairwise.imp (fun {a b} hab => (notAfter_byNeighbor a b).mpr hab)
    (stdSort_byNeighbor_sorted l)

/-- Two lists with the same image under a map that is injective on the first are equal when
one is a permutation of the other. -/
theorem eq_of_map_eq_of_perm {α β : Type} (f : α → β) :
    ∀ (l1 l2 : List α), l1.Perm l2 → (l1.map f).Nodup → l1.map f = l2.map f → l1 = l2
  | [], l2, hp, _, _ => (List.perm_nil.mp hp.symm).symm
  | a :: l1, [], hp, _, _ => absurd hp.symm (List.not_perm_nil_cons _ _)
  | a :: l1, b :: l2, hp, hnd, hm => by
    simp only [List.map_cons, List.cons.injEq] at hm
    have hinj := List.inj_on_of_nodup_map hnd
    have hb : b ∈ a :: l1 := hp.mem_iff.mpr (List.mem_cons_self _ _)
    have hab : a = b := hinj (List.mem_cons_self _ _) hb hm.1
    subst hab
    have hp2 : l1.Perm l2 := (List.perm_cons a).mp hp
    rw [eq_of_map_eq_of_perm f l1 l2 hp2 (List.nodup_cons.mp hnd).2 hm.2]

/-- A sorted permutation of a sequence with pairwise distinct keys is unique. -/
theorem sorted_perm_unique (key : MPINeighborElement → Int × Int)
    (l s1 s2 : List MPINeighborElement) (hnd : (l.map key).Nodup)
    (hp1 : s1.Perm l) (hp2 : s2.Perm l)
    (hs1 : s1.Pairwise (fun x y => lexLe (key x) (key y)))
    (hs2 : s2.Pairwise (fun x y => lexLe (key x) (key y))) : s1 = s2 := by
  haveI : IsAntisymm (Int × Int) lexLe := ⟨fun _ _ h1 h2 => lexLe_antisymm h1 h2⟩
  have hk : s1.map key = s2.map key :=
    List.eq_of_perm_of_sorted ((hp1.trans hp2.symm).map key)
      (List.pairwise_map.mpr hs1) (List.pairwise_map.mpr hs2)
  exact eq_of_map_eq_of_perm key s1 s2 (hp1.trans hp2.symm)
    (((hp1.map key).nodup_iff).mpr hnd) hk

theorem isStdSort_byLocal : IsStdSort byLocal (stdSort byLocal) := fun l =>
  ⟨stdSort_perm _ l,
    List.Pairwise.imp (fun {a b} hab => (notAfter_byLocal a b).mpr hab)
      (stdSort_byLocal_sorted l)⟩

theorem isStdSort_byNeighbor : IsStdSort byNeighbor (stdSort byNeighbor) := fun l =>
  ⟨stdSort_perm _ l,
    List.Pairwise.imp (fun {a b} hab => (notAfter_byNeighbor a b).mpr hab)
      (stdSort_byNeighbor_sorted l)⟩

theorem isStdSort_reverseSort {α : Type} {lt : α → α → Bool} (h : IsStdSort lt (stdSort lt)) :
    IsStdSort lt (reverseSort lt) := fun l =>
  ⟨((h l.reverse).1).trans (List.reverse_perm l), (h l.reverse).2⟩

/-- With pairwise distinct keys, a sort with the contract of `std::sort` has one possible
result, leaves a sorted sequence as it is, and is idempotent. -/
theorem isStdSort_unique (lt : MPINeighborElement → MPINeighborElement → Bool)
    (key : MPINeighborElement → Int × Int)
    (hkey : ∀ a b, NotAfter lt a b ↔ lexLe (key a) (key b))
    (sort1 sort2 : List MPINeighborElement → List MPINeighborElement)
    (h1 : IsStdSort lt sort1) (h2 : IsStdSort lt sort2) (l : List MPINeighborElement)
    (hnd : (l.map key).Nodup) :
    sort1 l = sort2 l ∧ (l.Pairwise (NotAfter lt) → sort1 l = l) ∧
      sort1 (sort1 l) = sort1 l := by
  have hs : ∀ {s : List MPINeighborElement}, s.Pairwise (NotAfter lt) →
      s.Pairwise (fun x y => lexLe (key x) (key y)) :=
    fun h => List.Pairwise.imp (fun {a b} hab => (hkey a b).mp hab) h
  refine ⟨?_, ?_, ?_⟩
  · exact sorted_perm_unique key l _ _ hnd (h1 l).1 (h2 l).1 (hs (h1 l).2) (hs (h2 l).2)
  · intro hl
    exact sorted_perm_unique key l _ _ hnd (h1 l).1 (List.Perm.refl l) (hs (h1 l).2) (hs hl)
  · exact sorted_perm_unique key l _ _ hnd ((h1 _).1.trans (h1 l).1) (h1 l).1
      (hs (h1 _).2) (hs (h1 l).2)

/-- C13, counterexample: two records with the same key `(localElement, localSide)` that differ
in `neighborElement` form a sorted sequence, and a sort with the contract of `std::sort` (the
insertion sort of the reversed sequence) returns them in the other order: the sorted sequence
is not left unchanged, and two sorts with the contract disagree on it.  So the contract of
`std::sort` does not give that a sorted sequence stays as it is.  The same holds for the
second comparator, with two records of equal `(neighborElement, neighborSide)`. -/
theorem sort_equal_keys_counterexample :
    IsStdSort byLocal (reverseSort byLocal) ∧
    List.Pairwise (NotAfter byLocal)
      [(⟨0, 0, 1, 0⟩ : MPINeighborElement), ⟨0, 0, 2, 0⟩] ∧
    reverseSort byLocal [(⟨0, 0, 1, 0⟩ : MPINeighborElement), ⟨0, 0, 2, 0⟩]
      = [⟨0, 0, 2, 0⟩, ⟨0, 0, 1, 0⟩] ∧
    reverseSort byLocal [(⟨0, 0, 1, 0⟩ : MPINeighborElement), ⟨0, 0, 2, 0⟩]
      ≠ [⟨0, 0, 1, 0⟩, ⟨0, 0, 2, 0⟩] ∧
    stdSort byLocal [(⟨0, 0, 1, 0⟩ : MPINeighborElement), ⟨0, 0, 2, 0⟩]
      = [⟨0, 0, 1, 0⟩, ⟨0, 0, 2, 0⟩] ∧
    (¬ ∀ sort : List MPINeighborElement → List MPINeighborElement, IsStdSort byLocal sort →
      ∀ l : List MPINeighborElement, l.Pairwise (NotAfter byLocal) → sort l = l) ∧
    IsStdSort byNeighbor (reverseSort byNeighbor) ∧
    List.Pairwise (NotAfter byNeighbor)
      [(⟨1, 0, 0, 0⟩ : MPINeighborElement), ⟨2, 0, 0, 0⟩] ∧
    reverseSort byNeighbor [(⟨1, 0, 0, 0⟩ : MPINeighborElement), ⟨2, 0, 0, 0⟩]
      = [⟨2, 0, 0, 0⟩, ⟨1, 0, 0, 0⟩] ∧
    reverseSort byNeighbor [(⟨1, 0, 0, 0⟩ : MPINeighborElement), ⟨2, 0, 0, 0⟩]
      ≠ [⟨1, 0, 0, 0⟩, ⟨2, 0, 0, 0⟩] ∧
    (¬ ∀ sort : List MPINeighborElement → List MPINeighborElement,
      IsStdSort byNeighbor sort →
      ∀ l : List MPINeighborElement, l.Pairwise (NotAfter byNeighbor) → sort l = l) :=
  ⟨isStdSort_reverseSort isStdSort_byLocal, by decide, by decide, by decide, by decide,
    fun h => absurd (h (reverseSort byLocal) (isStdSort_reverseSort isStdSort_byLocal)
      [⟨0, 0, 1, 0⟩, ⟨0, 0, 2, 0⟩] (by decide)) (by decide),
    isStdSort_reverseSort isStdSort_byNeighbor, by decide, by decide, by decide,
    fun h => absurd (h (reverseSort byNeighbor) (isStdSort_reverseSort isStdSort_byNeighbor)
      [⟨1, 0, 0, 0⟩, ⟨2, 0, 0, 0⟩] (by decide)) (by decide)⟩

/-- C13, amended: on a sequence whose keys under the comparator in use are pairwise distinct,
every sort with the contract of `std::sort` gives the same sequence (so do two runs of the
sort of the orderer), leaves the sequence unchanged when it is sorted already, and gives on its
own result that result again; this holds for the comparator by `(localElement, localSide)` and
for the one by `(neighborElement, neighborSide)`, and the insertion sort of the embedding has
the contract. -/
theorem sort_idempotent_distinct_keys :
    (∀ sort1 sort2 : List MPINeighborElement → List MPINeighborElement,
      IsStdSort byLocal sort1 → IsStdSort byLocal sort2 →
      ∀ l : List MPINeighborElement, (l.map localKey).Nodup →
        sort1 l = sort2 l ∧ (l.Pairwise (NotAfter byLocal) → sort1 l = l) ∧
          sort1 (sort1 l) = sort1 l) ∧
    (∀ sort1 sort2 : List MPINeighborElement → List MPINeighborElement,
      IsStdSort byNeighbor sort1 → IsStdSort byNeighbor sort2 →
      ∀ l : List MPINeighborElement, (l.map neighborKey).Nodup →
        sort1 l = sort2 l ∧ (l.Pairwise (NotAfter byNeighbor) → sort1 l = l) ∧
          sort1 (sort1 l) = sort1 l) ∧
    IsStdSort byLocal (stdSort byLocal) ∧ IsStdSort byNeighbor (stdSort byNeighbor) :=
  ⟨fun sort1 sort2 h1 h2 l hnd =>
      isStdSort_unique byLocal localKey notAfter_byLocal sort1 sort2 h1 h2 l hnd,
    fun sort1 sort2 h1 h2 l hnd =>
      isStdSort_unique byNeighbor neighborKey notAfter_byNeighbor sort1 sort2 h1 h2 l hnd,
    isStdSort_byLocal, isStdSort_byNeighbor⟩

theorem sort_idempotent_distinct_keys_witness :
    stdSort byLocal [neighborRecord tetL 0, neighborRecord tetL 1]
      = [neighborRecord tetL 0, neighborRecord tetL 1] :=
  (sort_idempotent_distinct_keys.1 (stdSort byLocal) (reverseSort byLocal) isStdSort_byLocal
    (isStdSort_reverseSort isStdSort_byLocal) [neighborRecord tetL 0, neighborRecord tetL 1]
    (by decide)).2.1 (by decide)

/-- C14: `faultParameterizedByTraction` fails exactly when the supplied parameters contain
both the full stress set and the full traction set, or neither in full; in every other case
it returns `true` exactly when the full traction set is supplied. -/
theorem traction_or_stress (supplied : List String) :
    ((∃ msg, faultParameterizedByTraction supplied = Except.error msg) ↔
      ((∀ x ∈ stress, x ∈ supplied) ∧ (∀ x ∈ traction, x ∈ supplied)) ∨
      (¬ (∀ x ∈ stress, x ∈ supplied) ∧ ¬ (∀ x ∈ traction, x ∈ supplied))) ∧
    (∀ b, faultParameterizedByTraction supplied = Except.ok b →
      (b = true ↔ ∀ x ∈ traction, x ∈ supplied)) ∧
    ((¬ ∃ msg, faultParameterizedByTraction supplied = Except.error msg) →
      ∃ b, faultParameterizedByTraction supplied = Except.ok b) := by
  have hs : includes supplied stress = true ↔ ∀ x ∈ stress, x ∈ supplied := by
    simp [includes, List.all_eq_true]
  have ht : includes supplied traction = true ↔ ∀ x ∈ traction, x ∈ supplied := by
    simp [includes, List.all_eq_true]
  rw [← hs, ← ht]
  unfold faultParameterizedByTraction
  cases h1 : includes supplied stress <;> cases h2 : includes supplied traction <;> simp

theorem traction_or_stress_witness :
    ∀ x ∈ traction, x ∈ ["T_d", "T_n", "T_s", "mu_s"] :=
  ((traction_or_stress ["T_d", "T_n", "T_s", "mu_s"]).2.1 true (by rfl)).mp rfl

/-! ## The flag, the neighbour index and the plus/minus decision -/

section
variable {R : Type} [LinearOrderedField R]
variable (sqrt : R → R) (T : MeshTools.Tables) (rp : VrtxCoords R) (rm : RefPointMethod)

theorem foldl_sideEffect_flag (i : Element) (js : List (Fin 4)) :
    ∀ m : MeshReader R,
      (js.foldl (sideEffect sqrt T rp rm i) m).m_hasPlusFault
        = (m.m_hasPlusFault || (js.filter (isProcessed m.m_rank i)).any
            (fun j => isPlus sqrt T rp rm m.m_vertices i j ||
              decide (0 ≤ neighborIndex m.m_elements.length i j))) := by
  induction js with
  | nil => intro m; simp
  | cons j js ih =>
    intro m
    rw [List.foldl_cons, ih, sideEffect_rank, sideEffect_elements, sideEffect_vertices]
    by_cases h : isProcessed m.m_rank i j = true
    · simp [sideEffect, h, List.filter_cons, Bool.or_assoc]
    · simp [sideEffect, h, List.filter_cons]

theorem foldl_elementEffect_flag (es : List Element) :
    ∀ m : MeshReader R,
      (es.foldl (elementEffect sqrt T rp rm) m).m_hasPlusFault
        = (m.m_hasPlusFault || (processedSides m.m_rank es).any
            (fun p => isPlus sqrt T rp rm m.m_vertices p.1 p.2 ||
              decide (0 ≤ neighborIndex m.m_elements.length p.1 p.2))) := by
  induction es with
  | nil => intro m; simp [processedSides]
  | cons i es ih =>
    intro m
    obtain ⟨k1, k2, k3⟩ := elementEffect_frame sqrt T rp rm m i
    have k4 : (elementEffect sqrt T rp rm m i).m_hasPlusFault
        = (m.m_hasPlusFault || ([0, 1, 2, 3].filter (isProcessed m.m_rank i)).any
            (fun j => isPlus sqrt T rp rm m.m_vertices i j ||
              decide (0 ≤ neighborIndex m.m_elements.length i j))) :=
      foldl_sideEffect_flag sqrt T rp rm i [0, 1, 2, 3] m
    have k5 : ∀ (P : Element × Fin 4 → Bool) (l : List (Fin 4)),
        (l.map (fun j => (i, j))).any P = l.any (fun j => P (i, j)) := by
      intro P l
      induction l with
      | nil => rfl
      | cons a l ihl => simp only [List.map_cons, List.any_cons, ihl]
    rw [List.foldl_cons, ih, k1, k2, k3, k4]
    simp only [processedSides, List.flatMap_cons, List.any_append, k5, Bool.or_assoc]

theorem extract_flag (m : MeshReader R) :
    (m.extractFaultInformation sqrt T rp rm).m_hasPlusFault
      = (m.m_hasPlusFault || (processedSides m.m_rank m.m_elements).any
          (fun p => isPlus sqrt T rp rm m.m_vertices p.1 p.2 ||
            decide (0 ≤ neighborIndex m.m_elements.length p.1 p.2))) := by
  simp only [MeshReader.extractFaultInformation, processElements_eq, foldl_elementEffect_flag]

/-- C16: starting from `hasPlusFault() == false`, after `extractFaultInformation` the flag is
true exactly when some processed side was decided plus or has a neighbour index `>= 0` after
the sentinel mapping; a flag that is true before the call is true after it. -/
theorem hasPlusFault_iff (m : MeshReader R) :
    (m.hasPlusFault = false →
      ((m.extractFaultInformation sqrt T rp rm).hasPlusFault = true ↔
        ∃ p ∈ processedSides m.m_rank m.m_elements,
          isPlus sqrt T rp rm m.m_vertices p.1 p.2 = true ∨
            0 ≤ neighborIndex m.m_elements.length p.1 p.2)) ∧
    (m.hasPlusFault = true → (m.extractFaultInformation sqrt T rp rm).hasPlusFault = true) := by
  simp only [MeshReader.hasPlusFault, extract_flag]
  constructor
  · intro h
    simp [h]
  · intro h
    simp [h]

/-- The identifier of the other side in a fault entry: `neighborElement` on a plus side,
`element` on a minus side; it is the value `neighborIndex`. -/
theorem otherSide_eq (n : Nat) (vs : List (Vertex R)) (i : Element) (j : Fin 4) :
    (if isPlus sqrt T rp rm vs i j = true then
        (faultEntry sqrt T rp rm n vs i j).neighborElement
      else (faultEntry sqrt T rp rm n vs i j).element) = neighborIndex n i j := by
  have hids := faultEntry_ids sqrt T rp rm n vs i j
  by_cases h : isPlus sqrt T rp rm vs i j = true
  · rw [if_pos h] at hids ⊢
    simp only [Prod.ext_iff] at hids
    exact hids.2.2.1
  · rw [if_neg h] at hids ⊢
    simp only [Prod.ext_iff] at hids
    exact hids.1

/-- C17, amended: for a processed side whose neighbour index equals the element count, the
other-side element id of the fault entry (`neighborElement` on a plus side, `element` on a
minus side) is the sentinel `-1`; every other neighbour index, also one that exceeds the
element count, is recorded as it is. -/
theorem off_mesh_sentinel (m : MeshReader R) (i : Element) (j : Fin 4)
    (hi : i ∈ m.m_elements) (hp : isProcessed m.m_rank i j = true) :
    faultEntry sqrt T rp rm m.m_elements.length m.m_vertices i j
        ∈ (m.extractFaultInformation sqrt T rp rm).m_fault ∧
    (i.neighbors j = (m.m_elements.length : Int) →
      (if isPlus sqrt T rp rm m.m_vertices i j = true then
          (faultEntry sqrt T rp rm m.m_elements.length m.m_vertices i j).neighborElement
        else (faultEntry sqrt T rp rm m.m_elements.length m.m_vertices i j).element) = -1) ∧
    (i.neighbors j ≠ (m.m_elements.length : Int) →
      (if isPlus sqrt T rp rm m.m_vertices i j = true then
          (faultEntry sqrt T rp rm m.m_elements.length m.m_vertices i j).neighborElement
        else (faultEntry sqrt T rp rm m.m_elements.length m.m_vertices i j).element)
        = i.neighbors j) := by
  refine ⟨faultEntry_mem_extract sqrt T rp rm m hi hp, ?_, ?_⟩
  · intro h
    rw [otherSide_eq, neighborIndex, if_pos h]
  · intro h
    rw [otherSide_eq, neighborIndex, if_neg h]

end

/-- C18, amended: in every arithmetic, under the Point method a side is plus exactly when the
product of `dot(refPoint - v0, n)` and `dot(missingVertex - v0, n)`, as it is computed, is
positive, and under any other method exactly when `dot(refPoint, n)` is positive; in exact
arithmetic (an ordered field) the product is positive exactly when both dot products are
non-zero and have the same sign.  Here `n` is the unit normal of the side and `v0` its first
face vertex. -/
theorem isPlus_decision :
    (∀ (R : Type) [Zero R] [One R] [Add R] [Sub R] [Mul R] [Div R] [LT R]
        [∀ a b : R, Decidable (a < b)] (sqrt : R → R) (T : MeshTools.Tables)
        (rp : VrtxCoords R) (vs : List (Vertex R)) (i : Element) (j : Fin 4),
      (isPlus sqrt T rp RefPointMethod.Point vs i j = true ↔
        0 < MeshTools.dot (MeshTools.sub rp (faceNode T vs i j 0))
            (localNormal sqrt T vs i j) *
          MeshTools.dot
            (MeshTools.sub (vertexCoords vs (i.vertices (T.FACE2MISSINGNODE j)))
              (faceNode T vs i j 0))
            (localNormal sqrt T vs i j)) ∧
      (∀ method : RefPointMethod, method ≠ RefPointMethod.Point →
        (isPlus sqrt T rp method vs i j = true ↔
          0 < MeshTools.dot rp (localNormal sqrt T vs i j)))) ∧
    (∀ (R : Type) [LinearOrderedField R] (sqrt : R → R) (T : MeshTools.Tables)
        (rp : VrtxCoords R) (vs : List (Vertex R)) (i : Element) (j : Fin 4),
      (0 < MeshTools.dot (MeshTools.sub rp (faceNode T vs i j 0))
            (localNormal sqrt T vs i j) *
          MeshTools.dot
            (MeshTools.sub (vertexCoords vs (i.vertices (T.FACE2MISSINGNODE j)))
              (faceNode T vs i j 0))
            (localNormal sqrt T vs i j) ↔
        (0 < MeshTools.dot (MeshTools.sub rp (faceNode T vs i j 0))
              (localNormal sqrt T vs i j) ∧
          0 < MeshTools.dot
            (MeshTools.sub (vertexCoords vs (i.vertices (T.FACE2MISSINGNODE j)))
              (faceNode T vs i j 0))
            (localNormal sqrt T vs i j)) ∨
        (MeshTools.dot (MeshTools.sub rp (faceNode T vs i j 0))
              (localNormal sqrt T vs i j) < 0 ∧
          MeshTools.dot
            (MeshTools.sub (vertexCoords vs (i.vertices (T.FACE2MISSINGNODE j)))
              (faceNode T vs i j 0))
            (localNormal sqrt T vs i j) < 0))) := by
  refine ⟨?_, ?_⟩
  · intro R _ _ _ _ _ _ _ _ sqrt T rp vs i j
    refine ⟨?_, ?_⟩
    · simp only [isPlus, if_true, decide_eq_true_eq, gt_iff_lt]
    · intro method hm
      simp only [isPlus, if_neg hm, decide_eq_true_eq, gt_iff_lt]
  · intro R _ sqrt T rp vs i j
    exact mul_pos_iff

theorem hasPlusFault_iff_witness :
    ((twoTets ℝ).extractFaultInformation Real.sqrt referenceTables ⟨0, 0, -5⟩
      RefPointMethod.Point).hasPlusFault = true :=
  ((hasPlusFault_iff Real.sqrt referenceTables ⟨0, 0, -5⟩ RefPointMethod.Point
    (twoTets ℝ)).1 rfl).mpr
    ⟨(tetA, 0), by rw [mem_processedSides]; exact ⟨by simp [twoTets], by decide⟩,
      Or.inr (by decide)⟩

theorem isPlus_decision_witness :
    (isPlus Real.sqrt referenceTables ⟨0, 0, -5⟩ RefPointMethod.Normal
        (twoTetsVertices ℝ) tetA 0 = true ↔
      0 < MeshTools.dot ⟨0, 0, -5⟩
        (localNormal Real.sqrt referenceTables (twoTetsVertices ℝ) tetA 0)) :=
  (isPlus_decision.1 ℝ Real.sqrt referenceTables ⟨0, 0, -5⟩ (twoTetsVertices ℝ) tetA 0).2
    RefPointMethod.Normal (by decide)

set_option maxRecDepth 100000 in
set_option exponentiation.threshold 8192 in
/-- C18, counterexample: in double precision, for side 0 of element 0 of the mesh
`flatVertices` and the reference point `(0, 0, 2^(-600))`, the unit normal is `(0, 0, -1)` and
both dot products `dot(refPoint - v0, n)` and `dot(missingVertex - v0, n)` are `-2^(-600)`:
non-zero and of the same sign.  Their product `2^(-1200)` is below the smallest subnormal and
rounds to zero, so the side is not decided plus. -/
theorem isPlus_underflow_counterexample :
    localNormal Binary64.sqrt referenceTables flatVertices tetA 0 = ⟨0, 0, -1⟩ ∧
    MeshTools.dot (MeshTools.sub tinyPoint (faceNode referenceTables flatVertices tetA 0 0))
        (localNormal Binary64.sqrt referenceTables flatVertices tetA 0) = -Binary64.tiny ∧
    MeshTools.dot
        (MeshTools.sub
          (vertexCoords flatVertices (tetA.vertices (referenceTables.FACE2MISSINGNODE 0)))
          (faceNode referenceTables flatVertices tetA 0 0))
        (localNormal Binary64.sqrt referenceTables flatVertices tetA 0) = -Binary64.tiny ∧
    -Binary64.tiny < 0 ∧
    (-Binary64.tiny) * (-Binary64.tiny) = 0 ∧
    isPlus Binary64.sqrt referenceTables tinyPoint RefPointMethod.Point flatVertices tetA 0
      = false := by
  decide


theorem isPlus_tetOff :
    isPlus Real.sqrt referenceTables ⟨0, 0, -5⟩ RefPointMethod.Normal (twoTetsVertices ℝ)
      tetOff 0 = true := by
  have hn : localNormal Real.sqrt referenceTables (twoTetsVertices ℝ) tetOff 0
      = ⟨0, 0, -1⟩ := localNormal_tetA
  simp only [isPlus, hn]
  simp [MeshTools.dot]

/-- C17, counterexample: the single element of `offMesh` has the neighbour index 5 on its
dynamic-rupture side, which exceeds the element count 1; the side is decided plus, and the
fault entry records the neighbour element 5, not the sentinel `-1`. -/
theorem off_mesh_counterexample :
    tetOff.neighbors 0 = 5 ∧ (offMesh ℝ).m_elements.length = 1 ∧
    isPlus Real.sqrt referenceTables ⟨0, 0, -5⟩ RefPointMethod.Normal (offMesh ℝ).m_vertices
      tetOff 0 = true ∧
    (((offMesh ℝ).extractFaultInformation Real.sqrt referenceTables ⟨0, 0, -5⟩
      RefPointMethod.Normal).m_fault.map (fun f => (f.element, f.side, f.neighborElement)))
      = [(0, 0, 5)] := by
  refine ⟨rfl, rfl, isPlus_tetOff, ?_⟩
  rw [extract_fault]
  have hp : processedSides (offMesh ℝ).m_rank (offMesh ℝ).m_elements = [(tetOff, 0)] := rfl
  have hids := faultEntry_ids Real.sqrt referenceTables ⟨0, 0, -5⟩ RefPointMethod.Normal 1
    (twoTetsVertices ℝ) tetOff 0
  rw [if_pos isPlus_tetOff] at hids
  simp only [Prod.ext_iff] at hids
  obtain ⟨e1, e2, e3, _, _⟩ := hids
  rw [hp]
  simp only [offMesh, List.nil_append, List.map_cons, List.map_nil, List.length_cons,
    List.length_nil, Nat.zero_add, e1, e2, e3]
  rfl

theorem off_mesh_sentinel_witness :
    (if isPlus Real.sqrt referenceTables ⟨0, 0, 5⟩ RefPointMethod.Point (rankZero ℝ).m_vertices
          tetL 0 = true then
        (faultEntry Real.sqrt referenceTables ⟨0, 0, 5⟩ RefPointMethod.Point
          (rankZero ℝ).m_elements.length (rankZero ℝ).m_vertices tetL 0).neighborElement
      else
        (faultEntry Real.sqrt referenceTables ⟨0, 0, 5⟩ RefPointMethod.Point
          (rankZero ℝ).m_elements.length (rankZero ℝ).m_vertices tetL 0).element) = -1 :=
  (off_mesh_sentinel Real.sqrt referenceTables ⟨0, 0, 5⟩ RefPointMethod.Point (rankZero ℝ)
    tetL 0 (by simp [rankZero]) (by decide)).2.1 (by decide)

/-! ## Exactly one side of a face is plus -/

section
variable {R : Type} [LinearOrderedField R]
variable (sqrt : R → R) (T : MeshTools.Tables) (rp : VrtxCoords R)

/-- The face vertices of a side lie in the plane through the first of them that is orthogonal
to the normal of the side. -/
theorem faceNode_in_plane (vs : List (Vertex R)) (i : Element) (j : Fin 4) (k : Fin 3) :
    MeshTools.dot (MeshTools.sub (faceNode T vs i j k) (faceNode T vs i j 0))
      (localNormal sqrt T vs i j) = 0 := by
  simp only [localNormal, unitNormal]
  generalize (1 / MeshTools.norm sqrt _) = s
  fin_cases k <;>
    simp only [Fin.zero_eta, Fin.mk_one, Fin.reduceFinMk] <;>
    generalize faceNode T vs i j 0 = P0 <;>
    generalize faceNode T vs i j 1 = P1 <;>
    generalize faceNode T vs i j 2 = P2 <;>
    obtain ⟨a0, a1, a2⟩ := P0 <;>
    obtain ⟨b0, b1, b2⟩ := P1 <;>
    obtain ⟨c0, c1, c2⟩ := P2 <;>
    simp only [MeshTools.dot, MeshTools.sub, MeshTools.cross, MeshTools.mul] <;>
    ring

theorem dot_sub_neg_of_plane (p v0A v0B n : VrtxCoords R)
    (e : MeshTools.dot (MeshTools.sub v0B v0A) n = 0) :
    MeshTools.dot (MeshTools.sub p v0B) (VrtxCoords.neg n)
      = -MeshTools.dot (MeshTools.sub p v0A) n := by
  obtain ⟨p0, p1, p2⟩ := p
  obtain ⟨a0, a1, a2⟩ := v0A
  obtain ⟨b0, b1, b2⟩ := v0B
  obtain ⟨n0, n1, n2⟩ := n
  simp only [MeshTools.dot, MeshTools.sub, VrtxCoords.neg] at e ⊢
  linear_combination e

theorem opposite_products {d pA pB : R} (hopp : pA * pB < 0) :
    (d ≠ 0 → ¬ (0 < d * pA ↔ 0 < d * pB)) ∧ (d = 0 → ¬ 0 < d * pA ∧ ¬ 0 < d * pB) := by
  constructor
  · intro hd hiff
    have hsq : 0 < d * d := mul_self_pos.mpr hd
    have hneg : (d * pA) * (d * pB) < 0 := by
      have : (d * pA) * (d * pB) = (d * d) * (pA * pB) := by ring
      rw [this]
      exact mul_neg_of_pos_of_neg hsq hopp
    rcases mul_neg_iff.mp hneg with ⟨h1, h2⟩ | ⟨h1, h2⟩
    · exact absurd (hiff.mp h1) (not_lt.mpr h2.le)
    · exact absurd (hiff.mpr h2) (not_lt.mpr h1.le)
  · intro hd
    subst hd
    simp

/-- C19, amended: in exact arithmetic (an ordered field), elements `A` and `B` see one face
from its two sides: the normal of `B` is the negated normal of `A`, the first face vertex of
`B` is a face vertex of `A`, and the two missing vertices lie strictly on opposite sides of
the face plane.  Under the Point method, exactly one of the two sides is decided plus when the
reference point is off the face plane, and neither when it lies in the face plane. -/
theorem plus_side_exclusive (vsA vsB : List (Vertex R)) (A B : Element) (a b : Fin 4)
    (hn : localNormal sqrt T vsB B b = VrtxCoords.neg (localNormal sqrt T vsA A a))
    (hface : ∃ k : Fin 3, faceNode T vsB B b 0 = faceNode T vsA A a k)
    (hopp : MeshTools.dot
          (MeshTools.sub (vertexCoords vsA (A.vertices (T.FACE2MISSINGNODE a)))
            (faceNode T vsA A a 0)) (localNormal sqrt T vsA A a) *
        MeshTools.dot
          (MeshTools.sub (vertexCoords vsB (B.vertices (T.FACE2MISSINGNODE b)))
            (faceNode T vsA A a 0)) (localNormal sqrt T vsA A a) < 0) :
    (MeshTools.dot (MeshTools.sub rp (faceNode T vsA A a 0)) (localNormal sqrt T vsA A a) ≠ 0 →
      isPlus sqrt T rp RefPointMethod.Point vsA A a
        ≠ isPlus sqrt T rp RefPointMethod.Point vsB B b) ∧
    (MeshTools.dot (MeshTools.sub rp (faceNode T vsA A a 0)) (localNormal sqrt T vsA A a) = 0 →
      isPlus sqrt T rp RefPointMethod.Point vsA A a = false ∧
      isPlus sqrt T rp RefPointMethod.Point vsB B b = false) := by
  obtain ⟨k, hk⟩ := hface
  have e := faceNode_in_plane sqrt T vsA A a k
  rw [← hk] at e
  have h1 := dot_sub_neg_of_plane rp _ _ _ e
  have h2 := dot_sub_neg_of_plane (vertexCoords vsB (B.vertices (T.FACE2MISSINGNODE b))) _ _ _ e
  have hA : isPlus sqrt T rp RefPointMethod.Point vsA A a = true ↔
      0 < MeshTools.dot (MeshTools.sub rp (faceNode T vsA A a 0))
          (localNormal sqrt T vsA A a) *
        MeshTools.dot
          (MeshTools.sub (vertexCoords vsA (A.vertices (T.FACE2MISSINGNODE a)))
            (faceNode T vsA A a 0)) (localNormal sqrt T vsA A a) := by
    simp only [isPlus, if_true, decide_eq_true_eq, gt_iff_lt]
  have hB : isPlus sqrt T rp RefPointMethod.Point vsB B b = true ↔
      0 < MeshTools.dot (MeshTools.sub rp (faceNode T vsA A a 0))
          (localNormal sqrt T vsA A a) *
        MeshTools.dot
          (MeshTools.sub (vertexCoords vsB (B.vertices (T.FACE2MISSINGNODE b)))
            (faceNode T vsA A a 0)) (localNormal sqrt T vsA A a) := by
    simp only [isPlus, if_true, decide_eq_true_eq, gt_iff_lt, hn, h1, h2, neg_mul_neg]
  obtain ⟨g1, g2⟩ := opposite_products
    (d := MeshTools.dot (MeshTools.sub rp (faceNode T vsA A a 0))
      (localNormal sqrt T vsA A a)) hopp
  constructor
  · intro hd heq
    exact g1 hd (by rw [← hA, ← hB, heq])
  · intro hd
    obtain ⟨x1, x2⟩ := g2 hd
    rw [← hA] at x1
    rw [← hB] at x2
    exact ⟨by simpa using x1, by simpa using x2⟩

end

theorem plus_side_exclusive_witness :
    isPlus Real.sqrt referenceTables ⟨0, 0, -5⟩ RefPointMethod.Point (twoTetsVertices ℝ) tetA 0
      ≠ isPlus Real.sqrt referenceTables ⟨0, 0, -5⟩ RefPointMethod.Point (twoTetsVertices ℝ)
          tetB 0 :=
  (plus_side_exclusive Real.sqrt referenceTables ⟨0, 0, -5⟩ (twoTetsVertices ℝ)
    (twoTetsVertices ℝ) tetA tetB 0 0
    (by rw [localNormal_tetA, localNormal_tetB]; simp [VrtxCoords.neg])
    ⟨0, rfl⟩
    (by
      have hB : vertexCoords (twoTetsVertices ℝ) (tetB.vertices (referenceTables.FACE2MISSINGNODE 0))
          = ⟨0, 0, -1⟩ := rfl
      simp only [localNormal_tetA, faceNode_tetA, missingNode_tetA, hB]
      simp [MeshTools.sub, MeshTools.dot])).1
    (by
      simp only [localNormal_tetA, faceNode_tetA]
      simp [MeshTools.sub, MeshTools.dot])

set_option maxRecDepth 100000 in
set_option exponentiation.threshold 8192 in
/-- C19, counterexample: in double precision, elements 0 and 1 of the mesh `flatVertices` see
the face `z = 0` from its two sides: the normal of element 1 is the negated normal of
element 0, the two first face vertices are the same point, the missing vertex of element 0
lies above the plane (`dot(missing - v0, n) = -2^(-600) < 0` for the normal `n = (0, 0, -1)` of
element 0) and the one of element 1 below it (`dot = 1 > 0`), and the reference point
`(0, 0, 2^(-600))` is off the plane (`dot(refPoint - v0, n) = -2^(-600)`).  Yet neither side is
decided plus: the product of element 0 underflows to zero and the product of element 1 is
negative. -/
theorem plus_side_underflow_counterexample :
    localNormal Binary64.sqrt referenceTables flatVertices tetB 0
      = VrtxCoords.neg (localNormal Binary64.sqrt referenceTables flatVertices tetA 0) ∧
    faceNode referenceTables flatVertices tetB 0 0
      = faceNode referenceTables flatVertices tetA 0 0 ∧
    MeshTools.dot
        (MeshTools.sub
          (vertexCoords flatVertices (tetA.vertices (referenceTables.FACE2MISSINGNODE 0)))
          (faceNode referenceTables flatVertices tetA 0 0))
        (localNormal Binary64.sqrt referenceTables flatVertices tetA 0) < 0 ∧
    0 < MeshTools.dot
        (MeshTools.sub
          (vertexCoords flatVertices (tetB.vertices (referenceTables.FACE2MISSINGNODE 0)))
          (faceNode referenceTables flatVertices tetA 0 0))
        (localNormal Binary64.sqrt referenceTables flatVertices tetA 0) ∧
    MeshTools.dot
          (MeshTools.sub
            (vertexCoords flatVertices (tetA.vertices (referenceTables.FACE2MISSINGNODE 0)))
            (faceNode referenceTables flatVertices tetA 0 0))
          (localNormal Binary64.sqrt referenceTables flatVertices tetA 0) *
        MeshTools.dot
          (MeshTools.sub
            (vertexCoords flatVertices (tetB.vertices (referenceTables.FACE2MISSINGNODE 0)))
            (faceNode referenceTables flatVertices tetA 0 0))
          (localNormal Binary64.sqrt referenceTables flatVertices tetA 0) < 0 ∧
    MeshTools.dot (MeshTools.sub tinyPoint (faceNode referenceTables flatVertices tetA 0 0))
        (localNormal Binary64.sqrt referenceTables flatVertices tetA 0) < 0 ∧
    isPlus Binary64.sqrt referenceTables tinyPoint RefPointMethod.Point flatVertices tetA 0
      = false ∧
    isPlus Binary64.sqrt referenceTables tinyPoint RefPointMethod.Point flatVertices tetB 0
      = false := by
  decide

/-! ## The range of the fault indices -/

theorem mpiFaultIndexAt_clear {es : List Element} (hid : LocalIdIsPosition es) {i : Element}
    (hi : i ∈ es) (j : Fin 4) :
    mpiFaultIndexAt (es.map clearIndices) i.localId ((j : Nat) : Int) = some (-1) := by
  obtain ⟨k, hk⟩ := List.mem_iff_getElem?.mp hi
  have hl := localId_of_getElem? hid hk
  have h0 : 0 ≤ i.localId ∧ 0 ≤ ((j : Nat) : Int) ∧ ((j : Nat) : Int) < 4 := by
    have := j.isLt
    rw [hl]
    omega
  have hk2 : (es.map clearIndices)[i.localId.toNat]? = some (clearIndices i) := by
    rw [hl]
    simp [hk]
  simp only [mpiFaultIndexAt, if_pos h0, hk2, clearIndices]

section
variable {R : Type} [LinearOrderedField R]
variable (sqrt : R → R) (T : MeshTools.Tables) (rp : VrtxCoords R) (rm : RefPointMethod)

/-- A side that is not a dynamic-rupture side towards another rank keeps the index `-1`. -/
theorem slot_of_unregistered (m : MeshReader R) (hid : LocalIdIsPosition m.m_elements)
    (hempty : m.m_MPIFaultNeighbors = []) {i : Element} (hi : i ∈ m.m_elements) (j : Fin 4)
    (hj : isRegistered m.m_rank i j = false) :
    mpiFaultIndexAt (m.extractFaultInformation sqrt T rp rm).m_elements
      i.localId ((j : Nat) : Int) = some (-1) := by
  rw [extract_elements, hempty, orderNeighbors_read_other, mpiFaultIndexAt_clear hid hi j]
  intro e he x hx hk
  have hperm := records_pushSides_perm (registeredSides m.m_rank m.m_elements) []
  simp only [List.flatMap_nil, List.nil_append] at hperm
  have hx2 : x ∈ (registeredSides m.m_rank m.m_elements).map
      (fun p => neighborRecord p.1 p.2) :=
    hperm.mem_iff.mp (List.mem_flatMap.mpr ⟨e, he, hx⟩)
  obtain ⟨⟨i2, j2⟩, hij, rfl⟩ := List.mem_map.mp hx2
  obtain ⟨hi2, hr2⟩ := mem_registeredSides.mp hij
  simp only [localKey, neighborRecord, Prod.mk.injEq] at hk
  have hii : i2 = i := eq_of_localId_eq hid hi2 hi hk.1
  have hjj : j2 = j := Fin.ext (by exact_mod_cast hk.2)
  rw [hii, hjj, hj] at hr2
  cases hr2

/-- The indices of the faces towards the rank `r`, in the order of the stored sequence. -/
theorem slots_of_rank (m : MeshReader R) (hid : LocalIdIsPosition m.m_elements)
    (hempty : m.m_MPIFaultNeighbors = []) (r : Int) :
    ((registeredFor m.m_rank r m.m_elements).map
        (fun x => mpiFaultIndexAt (m.extractFaultInformation sqrt T rp rm).m_elements
          x.localElement x.localSide)).Perm
      ((List.range (registeredFor m.m_rank r m.m_elements).length).map
        (fun p => some ((p : Nat) : Int))) := by
  have hmap : MapOrdered m.m_MPIFaultNeighbors := by rw [hempty]; simp [MapOrdered]
  have hS := mapLookup_extract sqrt T rp rm m hmap r
  rw [hempty] at hS
  simp only [mapLookup, List.nil_append] at hS
  have hperm := sortFor_perm m.m_rank r (registeredFor m.m_rank r m.m_elements)
  rw [← hS] at hperm
  have hlen := hperm.length_eq
  refine (hperm.symm.map _).trans (List.Perm.of_eq ?_)
  rw [← hlen]
  apply List.ext_getElem?
  intro p
  simp only [List.getElem?_map]
  cases hp : (mapLookup r (m.extractFaultInformation sqrt T rp rm).m_MPIFaultNeighbors)[p]? with
  | none =>
    have hge := List.getElem?_eq_none_iff.mp hp
    rw [List.getElem?_eq_none (by simpa using hge)]
    rfl
  | some x =>
    have hlt : p < (mapLookup r
        (m.extractFaultInformation sqrt T rp rm).m_MPIFaultNeighbors).length := by
      by_contra hn
      rw [List.getElem?_eq_none (not_lt.mp hn)] at hp
      cases hp
    rw [List.getElem?_range hlt]
    simp only [Option.map_some']
    exact congrArg some (slot_of_position sqrt T rp rm m hid hempty r _
      (mem_of_mem_mapLookup (List.getElem?_mem hp)) p x hp)

/-- C20: on a mesh where every `localId` is the position of its element and the table of
fault neighbours starts empty, after `extractFaultInformation` the indices
`mpiFaultIndices[side]` of the `k` dynamic-rupture faces towards a remote rank `r` are
`0, ..., k-1`, each used once, and every side that is not a dynamic-rupture side towards
another rank has the index `-1`. -/
theorem mpi_fault_indices_range (m : MeshReader R) (hid : LocalIdIsPosition m.m_elements)
    (hempty : m.m_MPIFaultNeighbors = []) :
    (∀ r : Int,
      ((registeredFor m.m_rank r m.m_elements).map
          (fun x => mpiFaultIndexAt (m.extractFaultInformation sqrt T rp rm).m_elements
            x.localElement x.localSide)).Perm
        ((List.range (registeredFor m.m_rank r m.m_elements).length).map
          (fun p => some ((p : Nat) : Int)))) ∧
    (∀ i ∈ m.m_elements, ∀ j : Fin 4, isRegistered m.m_rank i j = false →
      mpiFaultIndexAt (m.extractFaultInformation sqrt T rp rm).m_elements
        i.localId ((j : Nat) : Int) = some (-1)) :=
  ⟨slots_of_rank sqrt T rp rm m hid hempty,
    fun _ hi j hj => slot_of_unregistered sqrt T rp rm m hid hempty hi j hj⟩

end

theorem mpi_fault_indices_range_witness :
    ((registeredFor (rankOne ℝ).m_rank 0 (rankOne ℝ).m_elements).map
        (fun x => mpiFaultIndexAt
          ((rankOne ℝ).extractFaultInformation Real.sqrt referenceTables ⟨0, 0, 5⟩
            RefPointMethod.Point).m_elements x.localElement x.localSide)).Perm
      ((List.range (registeredFor (rankOne ℝ).m_rank 0 (rankOne ℝ).m_elements).length).map
        (fun p => some ((p : Nat) : Int))) :=
  (mpi_fault_indices_range Real.sqrt referenceTables ⟨0, 0, 5⟩ RefPointMethod.Point
    (rankOne ℝ) (by unfold LocalIdIsPosition; rfl) rfl).1 0

/-! ## The time integral of a sample -/

open MeasureTheory

theorem sampleInterpolant_shift (onset dt : ℝ) (s : Int → ℝ) (n : Nat) (t : ℝ) :
    sampleInterpolant onset dt s n t = sampleInterpolant 0 dt s n (t - onset) := by
  unfold sampleInterpolant
  have hc : (onset ≤ t ∧ t ≤ onset + ((n : ℝ) - 1) * dt) ↔
      (0 ≤ t - onset ∧ t - onset ≤ 0 + ((n : ℝ) - 1) * dt) := by
    constructor <;> rintro ⟨h1, h2⟩ <;> constructor <;> linarith
  by_cases h : onset ≤ t ∧ t ≤ onset + ((n : ℝ) - 1) * dt
  · rw [if_pos h, if_pos (hc.mp h)]
    simp only [sub_zero]
  · rw [if_neg h, if_neg (fun h2 => h (hc.mpr h2))]

/-- On the closed cell from `k * dt` to `(k + 1) * dt` the interpolant is the line through the
two samples. -/
theorem sampleInterpolant_cell {dt : ℝ} (hdt : 0 < dt) (s : Int → ℝ) (n : Nat) (k : Int)
    (hk0 : 0 ≤ k) (hk1 : k + 1 ≤ (n : Int) - 1) (τ : ℝ) (h1 : (k : ℝ) * dt ≤ τ)
    (h2 : τ ≤ ((k : ℝ) + 1) * dt) :
    sampleInterpolant 0 dt s n τ
      = (s k * (((k : ℝ) + 1) * dt - τ) + s (k + 1) * (τ - (k : ℝ) * dt)) / dt := by
  have hk0r : (0 : ℝ) ≤ (k : ℝ) := by exact_mod_cast hk0
  have hk1r : (k : ℝ) + 1 ≤ (n : ℝ) - 1 := by exact_mod_cast hk1
  have hcond : (0 : ℝ) ≤ τ ∧ τ ≤ 0 + ((n : ℝ) - 1) * dt := by
    constructor
    · exact le_trans (mul_nonneg hk0r hdt.le) h1
    · rw [zero_add]
      exact le_trans h2 (mul_le_mul_of_nonneg_right hk1r hdt.le)
  unfold sampleInterpolant
  rw [if_pos hcond]
  simp only [sub_zero]
  have hq1 : (k : ℝ) ≤ τ / dt := (le_div_iff₀ hdt).mpr h1
  have hq2 : τ / dt ≤ (k : ℝ) + 1 := (div_le_iff₀ hdt).mpr h2
  rcases lt_or_eq_of_le hq2 with hlt | heq
  · have hfl : ⌊τ / dt⌋ = k := Int.floor_eq_iff.mpr ⟨hq1, hlt⟩
    rw [hfl]
    field_simp
    ring
  · have hfl : ⌊τ / dt⌋ = k + 1 := by
      rw [heq]
      exact_mod_cast Int.floor_intCast (k + 1)
    have hτ : τ = ((k : ℝ) + 1) * dt := by
      field_simp at heq
      linarith
    rw [hfl, heq]
    push_cast
    rw [sub_self, mul_zero, add_zero, hτ, eq_div_iff hdt.ne']
    ring

theorem integral_line (A B a b : ℝ) :
    ∫ τ in a..b, (A + B * τ) = A * (b - a) + B * ((b ^ 2 - a ^ 2) / 2) := by
  rw [intervalIntegral.integral_add intervalIntegrable_const
      (intervalIntegral.intervalIntegrable_id.const_mul B),
    intervalIntegral.integral_const, intervalIntegral.integral_const_mul, integral_id]
  simp [mul_comm]

/-- The integral of the interpolant over a part of one cell is the value of `integrate`. -/
theorem integral_cell {dt : ℝ} (hdt : 0 < dt) (s : Int → ℝ) (n : Nat) (k : Int)
    (hk0 : 0 ≤ k) (hk1 : k + 1 ≤ (n : Int) - 1) (a b : ℝ) (ha : (k : ℝ) * dt ≤ a)
    (hab : a ≤ b) (hb : b ≤ ((k : ℝ) + 1) * dt) :
    IntervalIntegrable (sampleInterpolant 0 dt s n) volume a b ∧
    ∫ τ in a..b, sampleInterpolant 0 dt s n τ = integrate dt s k a b := by
  have heq : ∀ τ ∈ Set.uIcc a b, sampleInterpolant 0 dt s n τ
      = (s k * ((k : ℝ) + 1) - s (k + 1) * (k : ℝ)) + ((s (k + 1) - s k) / dt) * τ := by
    intro τ hτ
    rw [Set.uIcc_of_le hab] at hτ
    rw [sampleInterpolant_cell hdt s n k hk0 hk1 τ (le_trans ha hτ.1) (le_trans hτ.2 hb)]
    field_simp
    ring
  constructor
  · have hcont : IntervalIntegrable
        (fun τ => (s k * ((k : ℝ) + 1) - s (k + 1) * (k : ℝ)) + ((s (k + 1) - s k) / dt) * τ)
        volume a b :=
      (intervalIntegrable_const).add (intervalIntegral.intervalIntegrable_id.const_mul _)
    refine hcont.congr ?_
    refine (ae_restrict_iff' measurableSet_uIoc).mpr (Filter.Eventually.of_forall ?_)
    intro τ hτ
    exact (heq τ (Set.uIoc_subset_uIcc hτ)).symm
  · rw [intervalIntegral.integral_congr heq, integral_line]
    unfold integrate
    field_simp
    ring


theorem sampleInterpolant_neg (dt : ℝ) (s : Int → ℝ) (n : Nat) {τ : ℝ} (h : τ < 0) :
    sampleInterpolant 0 dt s n τ = 0 := by
  unfold sampleInterpolant
  rw [if_neg]
  rintro ⟨h1, _⟩
  exact absurd h1 (not_le.mpr h)

theorem sampleInterpolant_beyond (dt : ℝ) (s : Int → ℝ) (n : Nat) {τ : ℝ}
    (h : ((n : ℝ) - 1) * dt < τ) : sampleInterpolant 0 dt s n τ = 0 := by
  unfold sampleInterpolant
  rw [if_neg]
  rintro ⟨_, h2⟩
  rw [zero_add] at h2
  exact absurd h2 (not_le.mpr h)

/-- The interpolant does not contribute before the onset. -/
theorem integral_left (dt : ℝ) (s : Int → ℝ) (n : Nat) (a b : ℝ) (hab : a ≤ b) (hb : b ≤ 0) :
    IntervalIntegrable (sampleInterpolant 0 dt s n) volume a b ∧
    ∫ τ in a..b, sampleInterpolant 0 dt s n τ = 0 := by
  have hae : ∀ᵐ τ ∂(volume : Measure ℝ), τ ∈ Set.uIoc a b →
      (fun _ : ℝ => (0 : ℝ)) τ = sampleInterpolant 0 dt s n τ := by
    have h0 : ∀ᵐ τ ∂(volume : Measure ℝ), τ ≠ 0 := by
      rw [ae_iff]
      simp
    filter_upwards [h0] with τ hτ hmem
    rw [Set.uIoc_of_le hab] at hmem
    exact (sampleInterpolant_neg dt s n (lt_of_le_of_ne (le_trans hmem.2 hb) hτ)).symm
  constructor
  · refine (intervalIntegrable_const (c := (0 : ℝ))).congr ?_
    exact (ae_restrict_iff' measurableSet_uIoc).mpr hae
  · rw [← intervalIntegral.integral_congr_ae hae, intervalIntegral.integral_zero]

/-- The interpolant does not contribute after the last sample. -/
theorem integral_right (dt : ℝ) (s : Int → ℝ) (n : Nat) (a b : ℝ) (hab : a ≤ b)
    (ha : ((n : ℝ) - 1) * dt ≤ a) :
    IntervalIntegrable (sampleInterpolant 0 dt s n) volume a b ∧
    ∫ τ in a..b, sampleInterpolant 0 dt s n τ = 0 := by
  have hae : ∀ᵐ τ ∂(volume : Measure ℝ), τ ∈ Set.uIoc a b →
      (fun _ : ℝ => (0 : ℝ)) τ = sampleInterpolant 0 dt s n τ := by
    refine Filter.Eventually.of_forall ?_
    intro τ hmem
    rw [Set.uIoc_of_le hab] at hmem
    exact (sampleInterpolant_beyond dt s n (lt_of_le_of_lt ha hmem.1)).symm
  constructor
  · refine (intervalIntegrable_const (c := (0 : ℝ))).congr ?_
    exact (ae_restrict_iff' measurableSet_uIoc).mpr hae
  · rw [← intervalIntegral.integral_congr_ae hae, intervalIntegral.integral_zero]

/-- The loop over the full cells adds the integral of the interpolant over them. -/
theorem integral_cells {dt : ℝ} (hdt : 0 < dt) (s : Int → ℝ) (n : Nat) (p : Int)
    (hp : 0 ≤ p) :
    ∀ (q : Nat), p + (q : Int) ≤ (n : Int) - 1 →
      IntervalIntegrable (sampleInterpolant 0 dt s n) volume ((p : ℝ) * dt)
        (((p : ℝ) + (q : ℝ)) * dt) ∧
      ∀ init : ℝ,
        (List.range q).foldl
          (fun (acc : ℝ) (k : Nat) =>
            acc + 1 / 2 * dt * (s (p + (k : Int)) + s (p + (k : Int) + 1))) init
          = init + ∫ τ in ((p : ℝ) * dt)..(((p : ℝ) + (q : ℝ)) * dt),
              sampleInterpolant 0 dt s n τ := by
  intro q
  induction q with
  | zero =>
    intro _
    simp
  | succ q ih =>
    intro hq
    obtain ⟨hi, hf⟩ := ih (by push_cast at hq ⊢; omega)
    have hcell := integral_cell hdt s n (p + (q : Int)) (by omega) (by push_cast at hq ⊢; omega)
      (((p : ℝ) + (q : ℝ)) * dt) (((p : ℝ) + ((q + 1 : Nat) : ℝ)) * dt)
      (by push_cast; exact le_refl _)
      (by push_cast; nlinarith)
      (by push_cast; linarith)
    obtain ⟨hci, hcv⟩ := hcell
    refine ⟨hi.trans hci, ?_⟩
    intro init
    rw [List.range_succ, List.foldl_append, hf init, List.foldl_cons, List.foldl_nil,
      ← intervalIntegral.integral_add_adjacent_intervals hi hci, hcv]
    unfold integrate
    push_cast
    field_simp
    ring

/-- The body of `computeSampleTimeIntegral` after the clamping, on an interval inside the sample
interval. -/
theorem sample_core {dt : ℝ} (hdt : 0 < dt) (s : Int → ℝ) (n : Nat) (a b : ℝ)
    (ha : 0 ≤ a) (hab : a ≤ b) (hb : b ≤ ((n : ℝ) - 1) * dt) :
    IntervalIntegrable (sampleInterpolant 0 dt s n) volume a b ∧
    (if max 0 ⌊a / dt⌋ ≥ min ((n : Int) - 1) ⌈b / dt⌉ then 0
     else if min ((n : Int) - 1) ⌈b / dt⌉ - max 0 ⌊a / dt⌋ = 1 then
       integrate dt s (max 0 ⌊a / dt⌋) a b
     else
       addFullIntervals dt s (max 0 ⌊a / dt⌋) (min ((n : Int) - 1) ⌈b / dt⌉)
         (0 + integrate dt s (max 0 ⌊a / dt⌋) a (((max 0 ⌊a / dt⌋ + 1 : Int) : ℝ) * dt))
       + integrate dt s (min ((n : Int) - 1) ⌈b / dt⌉ - 1)
           (((min ((n : Int) - 1) ⌈b / dt⌉ - 1 : Int) : ℝ) * dt) b)
      = ∫ τ in a..b, sampleInterpolant 0 dt s n τ := by
  have hf0 : 0 ≤ ⌊a / dt⌋ := Int.floor_nonneg.mpr (div_nonneg ha hdt.le)
  have htn : ⌈b / dt⌉ ≤ (n : Int) - 1 := by
    refine Int.ceil_le.mpr ?_
    push_cast
    exact (div_le_iff₀ hdt).mpr hb
  rw [max_eq_right hf0, min_eq_right htn]
  have hfa : (⌊a / dt⌋ : ℝ) * dt ≤ a := (le_div_iff₀ hdt).mp (Int.floor_le (a / dt))
  have haf : a < ((⌊a / dt⌋ : ℝ) + 1) * dt := (div_lt_iff₀ hdt).mp (Int.lt_floor_add_one (a / dt))
  have hbt : b ≤ (⌈b / dt⌉ : ℝ) * dt := (div_le_iff₀ hdt).mp (Int.le_ceil (b / dt))
  have htb : ((⌈b / dt⌉ : ℝ) - 1) * dt < b := by
    have h := Int.ceil_lt_add_one (b / dt)
    exact (lt_div_iff₀ hdt).mp (by linarith)
  generalize ⌊a / dt⌋ = f at hf0 hfa haf ⊢
  generalize ⌈b / dt⌉ = t at htn hbt htb ⊢
  by_cases h1 : f ≥ t
  · rw [if_pos h1]
    have htf : (t : ℝ) ≤ (f : ℝ) := by exact_mod_cast h1
    have hba : b ≤ a := le_trans hbt (le_trans (mul_le_mul_of_nonneg_right htf hdt.le) hfa)
    have hab2 : a = b := le_antisymm hab hba
    subst hab2
    exact ⟨IntervalIntegrable.refl, intervalIntegral.integral_same.symm⟩
  · rw [if_neg h1]
    by_cases h2 : t - f = 1
    · rw [if_pos h2]
      have htf : (t : ℝ) = (f : ℝ) + 1 := by
        have : t = f + 1 := by omega
        rw [this]
        push_cast
        rfl
      have hc := integral_cell hdt s n f hf0 (by omega) a b hfa hab (by rw [← htf]; exact hbt)
      exact ⟨hc.1, hc.2.symm⟩
    · rw [if_neg h2]
      have hft : f + 2 ≤ t := by omega
      have hc1 := integral_cell hdt s n f hf0 (by omega) a (((f : ℝ) + 1) * dt) hfa haf.le
        (le_refl _)
      have hq : ((t - 1 - (f + 1)).toNat : Int) = t - 1 - (f + 1) := Int.toNat_of_nonneg (by omega)
      have hqr : (((t - 1 - (f + 1)).toNat : Nat) : ℝ) = (t : ℝ) - 1 - ((f : ℝ) + 1) := by
        have h := congrArg (fun z : Int => (z : ℝ)) hq
        simp only [Int.cast_natCast, Int.cast_sub, Int.cast_add, Int.cast_one] at h
        exact h
      have hc2 := integral_cells hdt s n (f + 1) (by omega) (t - 1 - (f + 1)).toNat
        (by rw [hq]; omega)
      have hc3 := integral_cell hdt s n (t - 1) (by omega) (by omega)
        ((((t - 1 : Int)) : ℝ) * dt) b (le_refl _)
        (by push_cast; exact htb.le) (by push_cast; rw [sub_add_cancel]; exact hbt)
      have he1 : (((f + 1 : Int) : ℝ) + (((t - 1 - (f + 1)).toNat : Nat) : ℝ)) * dt
          = ((t - 1 : Int) : ℝ) * dt := by
        rw [hqr]
        push_cast
        ring
      have he0 : ((f + 1 : Int) : ℝ) * dt = ((f : ℝ) + 1) * dt := by push_cast; rfl
      rw [he1, he0] at hc2
      refine ⟨(hc1.1.trans hc2.1).trans hc3.1, ?_⟩
      unfold addFullIntervals
      rw [hc2.2, he0, zero_add, ← hc1.2, ← hc3.2,
        intervalIntegral.integral_add_adjacent_intervals hc1.1 hc2.1,
        intervalIntegral.integral_add_adjacent_intervals (hc1.1.trans hc2.1) hc3.1]

/-- With no sample the interpolant is zero everywhere. -/
theorem sampleInterpolant_empty {dt : ℝ} (hdt : 0 < dt) (s : Int → ℝ) (τ : ℝ) :
    sampleInterpolant 0 dt s 0 τ = 0 := by
  unfold sampleInterpolant
  rw [if_neg]
  rintro ⟨h1, h2⟩
  have : ((((0 : Nat) : ℝ)) - 1) * dt < 0 := by
    rw [Nat.cast_zero, zero_sub, neg_one_mul]
    exact neg_lt_zero.mpr hdt
  linarith

/-- A value of `long` is not changed by the conversion. -/
theorem toLong_of_range (outOfRange : Int → Int) {z : Int} (h1 : -2 ^ 63 ≤ z)
    (h2 : z < 2 ^ 63) : toLong outOfRange z = z := by
  unfold toLong
  rw [if_pos ⟨h1, h2⟩]

/-- A size below `2^63` is not changed by the conversion to `long`. -/
theorem sizeToLong_of_lt {n : Nat} (h : (n : Int) < 2 ^ 63) : sizeToLong n = (n : Int) := by
  unfold sizeToLong
  rw [Int.emod_eq_of_lt (by omega) (by omega)]
  omega

/-- The conversion of a size to `long` does not exceed the size. -/
theorem sizeToLong_le (n : Nat) : sizeToLong n ≤ (n : Int) := by
  unfold sizeToLong
  omega

/-- The value of `computeSampleTimeIntegral` on a non-empty sample when the conversions to
`long` are in range, with the clamped bounds named. -/
theorem computeSampleTimeIntegral_unfold (outOfRange : Int → Int)
    (fromTime toTime onsetTime dt : ℝ) (hdt : 0 < dt) (s : Int → ℝ)
    (n : Nat) (hn : n ≠ 0) (hsize : (n : Int) < 2 ^ 63) (a b : ℝ)
    (ha : a = max (fromTime - onsetTime) 0)
    (hb : b = min (toTime - onsetTime) (((n : ℝ) - 1) * dt))
    (hfrom : ⌊a / dt⌋ < 2 ^ 63) (hto : -2 ^ 63 ≤ ⌈b / dt⌉) :
    computeSampleTimeIntegral outOfRange fromTime toTime onsetTime dt s n =
    (if max 0 ⌊a / dt⌋ ≥ min ((n : Int) - 1) ⌈b / dt⌉ then 0
     else if min ((n : Int) - 1) ⌈b / dt⌉ - max 0 ⌊a / dt⌋ = 1 then
       integrate dt s (max 0 ⌊a / dt⌋) a b
     else
       addFullIntervals dt s (max 0 ⌊a / dt⌋) (min ((n : Int) - 1) ⌈b / dt⌉)
         (0 + integrate dt s (max 0 ⌊a / dt⌋) a (((max 0 ⌊a / dt⌋ + 1 : Int) : ℝ) * dt))
       + integrate dt s (min ((n : Int) - 1) ⌈b / dt⌉ - 1)
           (((min ((n : Int) - 1) ⌈b / dt⌉ - 1 : Int) : ℝ) * dt) b) := by
  have hc : (((n - 1 : Nat)) : ℝ) = (n : ℝ) - 1 := Nat.cast_pred (Nat.pos_of_ne_zero hn)
  have ha0 : 0 ≤ a := by rw [ha]; exact le_max_right _ _
  have hf0 : 0 ≤ ⌊a / dt⌋ := Int.floor_nonneg.mpr (div_nonneg ha0 hdt.le)
  have hbn : b ≤ ((n : ℝ) - 1) * dt := by rw [hb]; exact min_le_right _ _
  have htn : ⌈b / dt⌉ ≤ (n : Int) - 1 := by
    refine Int.ceil_le.mpr ?_
    push_cast
    exact (div_le_iff₀ hdt).mpr hbn
  have e1 : toLong outOfRange ⌊a / dt⌋ = ⌊a / dt⌋ :=
    toLong_of_range outOfRange (by omega) hfrom
  have e2 : toLong outOfRange ⌈b / dt⌉ = ⌈b / dt⌉ :=
    toLong_of_range outOfRange hto (by omega)
  unfold computeSampleTimeIntegral
  rw [if_neg hn]
  simp only [hc]
  rw [← ha, ← hb, e1, e2, sizeToLong_of_lt hsize]

/-- The integral in the shifted time, from which the claim follows. -/
theorem sample_shifted (outOfRange : Int → Int) {dt : ℝ} (hdt : 0 < dt) (s : Int → ℝ)
    (n : Nat) (fromTime toTime onsetTime : ℝ) (hft : fromTime ≤ toTime)
    (hsize : (n : Int) < 2 ^ 63)
    (hfrom : ⌊max (fromTime - onsetTime) 0 / dt⌋ < 2 ^ 63)
    (hto : -2 ^ 63 ≤ ⌈min (toTime - onsetTime) (((n : ℝ) - 1) * dt) / dt⌉) :
    IntervalIntegrable (sampleInterpolant 0 dt s n) volume (fromTime - onsetTime)
      (toTime - onsetTime) ∧
    computeSampleTimeIntegral outOfRange fromTime toTime onsetTime dt s n
      = ∫ τ in (fromTime - onsetTime)..(toTime - onsetTime), sampleInterpolant 0 dt s n τ := by
  by_cases hn : n = 0
  · subst hn
    have h0 : sampleInterpolant 0 dt s 0 = fun _ => (0 : ℝ) :=
      funext (sampleInterpolant_empty hdt s)
    rw [h0]
    refine ⟨intervalIntegrable_const, ?_⟩
    rw [intervalIntegral.integral_zero]
    unfold computeSampleTimeIntegral
    rw [if_pos rfl]
  · have hn1 : (1 : ℝ) ≤ (n : ℝ) := by exact_mod_cast Nat.pos_of_ne_zero hn
    have hL : (0 : ℝ) ≤ ((n : ℝ) - 1) * dt := mul_nonneg (by linarith) hdt.le
    have hab0 : fromTime - onsetTime ≤ toTime - onsetTime := by linarith
    rw [computeSampleTimeIntegral_unfold outOfRange fromTime toTime onsetTime dt hdt s n hn
      hsize _ _ rfl rfl hfrom hto]
    clear hfrom hto
    generalize fromTime - onsetTime = a0 at hab0 ⊢
    generalize toTime - onsetTime = b0 at hab0 ⊢
    by_cases hb0 : b0 ≤ 0
    · have hz := integral_left dt s n a0 b0 hab0 hb0
      refine ⟨hz.1, ?_⟩
      rw [hz.2, if_pos]
      have h1 : ⌈min b0 (((n : ℝ) - 1) * dt) / dt⌉ ≤ 0 := by
        refine Int.ceil_le.mpr ?_
        rw [Int.cast_zero]
        exact div_nonpos_of_nonpos_of_nonneg (le_trans (min_le_left _ _) hb0) hdt.le
      exact le_trans (min_le_right _ _) (le_trans h1 (le_max_left _ _))
    · by_cases ha0 : ((n : ℝ) - 1) * dt ≤ a0
      · have hz := integral_right dt s n a0 b0 hab0 ha0
        refine ⟨hz.1, ?_⟩
        rw [hz.2, if_pos]
        have h1 : (n : Int) - 1 ≤ ⌊max a0 0 / dt⌋ := by
          refine Int.le_floor.mpr ?_
          push_cast
          exact (le_div_iff₀ hdt).mpr (le_trans ha0 (le_max_left _ _))
        exact le_trans (min_le_left _ _) (le_trans h1 (le_max_right _ _))
      · have hb0p : 0 < b0 := not_le.mp hb0
        have ha0L : a0 < ((n : ℝ) - 1) * dt := not_le.mp ha0
        have hA : 0 ≤ max a0 0 := le_max_right _ _
        have hAB : max a0 0 ≤ min b0 (((n : ℝ) - 1) * dt) :=
          le_min (max_le hab0 hb0p.le) (max_le ha0L.le hL)
        have hB : min b0 (((n : ℝ) - 1) * dt) ≤ ((n : ℝ) - 1) * dt := min_le_right _ _
        have hc := sample_core hdt s n (max a0 0) (min b0 (((n : ℝ) - 1) * dt)) hA hAB hB
        have hl : IntervalIntegrable (sampleInterpolant 0 dt s n) volume a0 (max a0 0) ∧
            ∫ τ in a0..(max a0 0), sampleInterpolant 0 dt s n τ = 0 := by
          by_cases h : 0 ≤ a0
          · rw [max_eq_left h]
            exact ⟨IntervalIntegrable.refl, intervalIntegral.integral_same⟩
          · rw [max_eq_right (not_le.mp h).le]
            exact integral_left dt s n a0 0 (not_le.mp h).le (le_refl _)
        have hr : IntervalIntegrable (sampleInterpolant 0 dt s n) volume
              (min b0 (((n : ℝ) - 1) * dt)) b0 ∧
            ∫ τ in (min b0 (((n : ℝ) - 1) * dt))..b0, sampleInterpolant 0 dt s n τ = 0 := by
          by_cases h : b0 ≤ ((n : ℝ) - 1) * dt
          · rw [min_eq_left h]
            exact ⟨IntervalIntegrable.refl, intervalIntegral.integral_same⟩
          · rw [min_eq_right (not_le.mp h).le]
            exact integral_right dt s n _ b0 (not_le.mp h).le (le_refl _)
        refine ⟨(hl.1.trans hc.1).trans hr.1, ?_⟩
        rw [hc.2, ← intervalIntegral.integral_add_adjacent_intervals (hl.1.trans hc.1) hr.1,
          ← intervalIntegral.integral_add_adjacent_intervals hl.1 hc.1, hl.2, hr.2, zero_add,
          add_zero]

/-- The function `computeSampleTimeIntegral` returns zero when the integration interval does
not reach into the sample interval and the conversions to `long` are in range. -/
theorem computeSampleTimeIntegral_no_overlap (outOfRange : Int → Int) {dt : ℝ} (hdt : 0 < dt)
    (s : Int → ℝ) (n : Nat) (fromTime toTime onsetTime : ℝ)
    (hsize : (n : Int) < 2 ^ 63)
    (hfrom : ⌊max (fromTime - onsetTime) 0 / dt⌋ < 2 ^ 63)
    (hto : -2 ^ 63 ≤ ⌈min (toTime - onsetTime) (((n : ℝ) - 1) * dt) / dt⌉)
    (h : toTime ≤ onsetTime ∨ onsetTime + ((n : ℝ) - 1) * dt ≤ fromTime) :
    computeSampleTimeIntegral outOfRange fromTime toTime onsetTime dt s n = 0 := by
  by_cases hn : n = 0
  · subst hn
    unfold computeSampleTimeIntegral
    rw [if_pos rfl]
  · have hn1 : (1 : ℝ) ≤ (n : ℝ) := by exact_mod_cast Nat.pos_of_ne_zero hn
    have hL : (0 : ℝ) ≤ ((n : ℝ) - 1) * dt := mul_nonneg (by linarith) hdt.le
    rw [computeSampleTimeIntegral_unfold outOfRange fromTime toTime onsetTime dt hdt s n hn
      hsize _ _ rfl rfl hfrom hto, if_pos]
    rcases h with h | h
    · have h1 : ⌈min (toTime - onsetTime) (((n : ℝ) - 1) * dt) / dt⌉ ≤ 0 := by
        refine Int.ceil_le.mpr ?_
        rw [Int.cast_zero]
        exact div_nonpos_of_nonpos_of_nonneg (le_trans (min_le_left _ _) (by linarith)) hdt.le
      exact le_trans (min_le_right _ _) (le_trans h1 (le_max_left _ _))
    · have h1 : (n : Int) - 1 ≤ ⌊max (fromTime - onsetTime) 0 / dt⌋ := by
        refine Int.le_floor.mpr ?_
        push_cast
        exact (le_div_iff₀ hdt).mpr (le_trans (by linarith) (le_max_left _ _))
      exact le_trans (min_le_left _ _) (le_trans h1 (le_max_right _ _))

/-- C15, amended: in exact (real) arithmetic, for a positive sampling interval,
`fromTime ≤ toTime`, a sample size below `2^63`, and times for which the two conversions to
`long` are in range (the floor of `max(from - onsetTime, 0) / samplingInterval` is below
`2^63` and the ceiling of `min(to - onsetTime, (sampleSize - 1) * samplingInterval) /
samplingInterval` is at least `-2^63`), `computeSampleTimeIntegral` returns the integral over
the interval from `fromTime` to `toTime` of the piecewise-linear interpolant of the samples
placed at the times `onsetTime + k * samplingInterval`, `k = 0, ..., sampleSize - 1`, which is
zero outside the sample interval (and the interpolant is integrable there, so the integral is
a proper one); the function returns `0` when the sample is empty, and, under the same
conditions, when the integration interval does not overlap the sample interval.  This holds
whatever an out-of-range conversion returns. -/
theorem sample_time_integral (outOfRange : Int → Int)
    (fromTime toTime onsetTime samplingInterval : ℝ)
    (sample : Int → ℝ) (sampleSize : Nat) (hdt : 0 < samplingInterval)
    (hft : fromTime ≤ toTime) (hsize : sampleSize < 2 ^ 63)
    (hfrom : ⌊max (fromTime - onsetTime) 0 / samplingInterval⌋ < 2 ^ 63)
    (hto : -2 ^ 63 ≤
      ⌈min (toTime - onsetTime) (((sampleSize : ℝ) - 1) * samplingInterval) /
        samplingInterval⌉) :
    IntervalIntegrable (sampleInterpolant onsetTime samplingInterval sample sampleSize) volume
      fromTime toTime ∧
    computeSampleTimeIntegral outOfRange fromTime toTime onsetTime samplingInterval sample
        sampleSize
      = ∫ t in fromTime..toTime,
          sampleInterpolant onsetTime samplingInterval sample sampleSize t ∧
    (sampleSize = 0 →
      computeSampleTimeIntegral outOfRange fromTime toTime onsetTime samplingInterval sample
        sampleSize = 0) ∧
    (toTime ≤ onsetTime ∨
        onsetTime + ((sampleSize : ℝ) - 1) * samplingInterval ≤ fromTime →
      computeSampleTimeIntegral outOfRange fromTime toTime onsetTime samplingInterval sample
        sampleSize = 0) := by
  have hsz : (sampleSize : Int) < 2 ^ 63 := by exact_mod_cast hsize
  have hs := sample_shifted outOfRange hdt sample sampleSize fromTime toTime onsetTime hft hsz
    hfrom hto
  have hfun : sampleInterpolant onsetTime samplingInterval sample sampleSize
      = fun t => sampleInterpolant 0 samplingInterval sample sampleSize (t - onsetTime) :=
    funext (sampleInterpolant_shift onsetTime samplingInterval sample sampleSize)
  refine ⟨?_, ?_, ?_, ?_⟩
  · rw [hfun]
    have h := hs.1.comp_sub_right onsetTime
    rw [sub_add_cancel, sub_add_cancel] at h
    exact h
  · rw [hs.2, hfun]
    exact (intervalIntegral.integral_comp_sub_right
      (sampleInterpolant 0 samplingInterval sample sampleSize) onsetTime).symm
  · intro h0
    subst h0
    unfold computeSampleTimeIntegral
    rw [if_pos rfl]
  · exact computeSampleTimeIntegral_no_overlap outOfRange hdt sample sampleSize fromTime toTime
      onsetTime hsz hfrom hto

theorem sample_time_integral_witness :
    (0 : ℝ) < 1 ∧ (1 / 2 : ℝ) ≤ 2 ∧
    (IntervalIntegrable (sampleInterpolant 0 1 (fun k => ((k : Int) : ℝ)) 3) volume (1 / 2) 2 ∧
     computeSampleTimeIntegral integerIndefinite (1 / 2) 2 0 1 (fun k => ((k : Int) : ℝ)) 3
       = ∫ t in (1 / 2 : ℝ)..2, sampleInterpolant 0 1 (fun k => ((k : Int) : ℝ)) 3 t ∧
     ((3 : Nat) = 0 →
       computeSampleTimeIntegral integerIndefinite (1 / 2) 2 0 1 (fun k => ((k : Int) : ℝ)) 3
         = 0) ∧
     ((2 : ℝ) ≤ 0 ∨ (0 : ℝ) + (((3 : Nat) : ℝ) - 1) * 1 ≤ 1 / 2 →
       computeSampleTimeIntegral integerIndefinite (1 / 2) 2 0 1 (fun k => ((k : Int) : ℝ)) 3
         = 0)) :=
  ⟨by norm_num, by norm_num,
    sample_time_integral integerIndefinite (1 / 2) 2 0 1 (fun k => ((k : Int) : ℝ)) 3
      (by norm_num) (by norm_num) (by norm_num)
      (Int.floor_lt.mpr (by norm_num))
      (le_trans (by norm_num) (Int.ceil_nonneg (by norm_num)))⟩

/-- C15, counterexample.  First, `from = 2^64`, `to = 2^65`, `onsetTime = 0`,
`samplingInterval = 1` and three samples of value 1: the integration interval lies beyond the
sample interval from 0 to 2, but `floor(from / samplingInterval) = 2^64` is not a `long`; with
the result `-2^63` of the conversion on x86-64 the clamped `fromIndex` is 0, `toIndex` is 2, and
the function returns `2 - 2^64`, not 0.  Second, a sample size of `2^63 + 2` with `from = 0`,
`to = 1`: `static_cast<long>(sampleSize) - 1` is negative, so is `toIndex`, and the function
returns 0, where the integral of the interpolant (the constant 1 on the interval) is 1. -/
theorem sample_time_integral_counterexample :
    ((0 : ℝ) < 1 ∧ (2 : ℝ) ^ 64 ≤ 2 ^ 65 ∧
      (0 : ℝ) + (((3 : Nat) : ℝ) - 1) * 1 ≤ 2 ^ 64 ∧
      computeSampleTimeIntegral integerIndefinite (2 ^ 64) (2 ^ 65) 0 1
        (fun _ => (1 : ℝ)) 3 = 2 - 2 ^ 64 ∧
      (2 - 2 ^ 64 : ℝ) ≠ 0) ∧
    ((0 : ℝ) ≤ 1 ∧
      computeSampleTimeIntegral integerIndefinite 0 1 0 1 (fun _ => (1 : ℝ)) (2 ^ 63 + 2) = 0 ∧
      ∫ t in (0 : ℝ)..1, sampleInterpolant 0 1 (fun _ => (1 : ℝ)) (2 ^ 63 + 2) t = 1) := by
  refine ⟨⟨by norm_num, by norm_num, by norm_num, ?_, by norm_num⟩, by norm_num, ?_, ?_⟩
  · have hfl : ⌊max ((2 : ℝ) ^ 64 - 0) 0 / 1⌋ = 2 ^ 64 := by
      have h : max ((2 : ℝ) ^ 64 - 0) 0 / 1 = (((2 ^ 64 : Int)) : ℝ) := by
        rw [max_eq_left (by norm_num)]
        norm_num
      rw [h, Int.floor_intCast]
    have hce : ⌈min ((2 : ℝ) ^ 65 - 0) ((((3 - 1 : Nat)) : ℝ) * 1) / 1⌉ = 2 := by
      have h : min ((2 : ℝ) ^ 65 - 0) ((((3 - 1 : Nat)) : ℝ) * 1) / 1 = (((2 : Int)) : ℝ) := by
        rw [min_eq_right (by norm_num)]
        norm_num
      rw [h, Int.ceil_intCast]
    have h1 : toLong integerIndefinite (2 ^ 64) = -2 ^ 63 := by decide
    have h2 : toLong integerIndefinite 2 = 2 := by decide
    have h3 : sizeToLong 3 = 3 := by decide
    unfold computeSampleTimeIntegral
    rw [if_neg (by norm_num)]
    simp only [hfl, hce, h1, h2, h3]
    norm_num [integrate, addFullIntervals]
  · have hce : ⌈min ((1 : ℝ) - 0) ((((2 ^ 63 + 2 - 1 : Nat)) : ℝ) * 1) / 1⌉ = 1 := by
      have h : min ((1 : ℝ) - 0) ((((2 ^ 63 + 2 - 1 : Nat)) : ℝ) * 1) / 1
          = (((1 : Int)) : ℝ) := by
        rw [min_eq_left (by norm_num)]
        norm_num
      rw [h, Int.ceil_intCast]
    have hfl : ⌊max ((0 : ℝ) - 0) 0 / 1⌋ = 0 := by norm_num
    have h1 : toLong integerIndefinite 0 = 0 := by decide
    have h2 : toLong integerIndefinite 1 = 1 := by decide
    have h3 : sizeToLong (2 ^ 63 + 2) = -2 ^ 63 + 2 := by decide
    unfold computeSampleTimeIntegral
    rw [if_neg (by norm_num)]
    simp only [hfl, hce, h1, h2, h3]
    norm_num
  · have hc := integral_cell (show (0 : ℝ) < 1 by norm_num) (fun _ => (1 : ℝ)) (2 ^ 63 + 2) 0
      (le_refl _) (by norm_num) 0 1 (by norm_num) (by norm_num) (by norm_num)
    rw [hc.2]
    norm_num [integrate]

/-! ## The reads of computeSampleTimeIntegral -/

/-- The traced loop computes the value of the loop. -/
theorem addFullIntervalsTraced_fst {R : Type} [LinearOrderedField R] (dt : R) (s : Int → R) (f t : Int) (init : R × List Int) :
    (addFullIntervalsTraced dt s f t init).1 = addFullIntervals dt s f t init.1 := by
  unfold addFullIntervalsTraced addFullIntervals
  generalize (t - 1 - (f + 1)).toNat = q
  induction q generalizing init with
  | zero => rfl
  | succ q ih =>
    rw [List.range_succ, List.foldl_append, List.foldl_append, List.foldl_cons, List.foldl_nil,
      List.foldl_cons, List.foldl_nil, ih]

/-- The reads of the traced loop: the ones recorded before it, and indices from
`fromIndex + 1` to `toIndex - 1`. -/
theorem addFullIntervalsTraced_snd {R : Type} [LinearOrderedField R] (dt : R) (s : Int → R) (f t : Int) (init : R × List Int)
    (k : Int) (hk : k ∈ (addFullIntervalsTraced dt s f t init).2) :
    k ∈ init.2 ∨ (f + 1 ≤ k ∧ k ≤ t - 1) := by
  unfold addFullIntervalsTraced at hk
  have key : ∀ q : Nat, (q : Int) ≤ t - 1 - (f + 1) →
      k ∈ ((List.range q).foldl
        (fun (acc : R × List Int) (k : Nat) =>
          (acc.1 + 1 / 2 * dt * (s (f + 1 + (k : Int)) + s (f + 1 + (k : Int) + 1)),
            acc.2 ++ [f + 1 + (k : Int), f + 1 + (k : Int) + 1])) init).2 →
      k ∈ init.2 ∨ (f + 1 ≤ k ∧ k ≤ t - 1) := by
    intro q
    induction q with
    | zero => intro _ h; exact Or.inl h
    | succ q ih =>
      intro hq h
      rw [List.range_succ, List.foldl_append, List.foldl_cons, List.foldl_nil] at h
      simp only [List.mem_append, List.mem_cons, List.mem_singleton, List.not_mem_nil,
        or_false] at h
      push_cast at hq
      rcases h with h | h | h
      · exact ih (by omega) h
      · exact Or.inr (by omega)
      · exact Or.inr (by omega)
  by_cases hq : 0 ≤ t - 1 - (f + 1)
  · exact key _ (by rw [Int.toNat_of_nonneg hq]) hk
  · have h0 : (t - 1 - (f + 1)).toNat = 0 := Int.toNat_eq_zero.mpr (by omega)
    rw [h0] at hk
    exact Or.inl hk

section SampleReadsProofs

variable {R : Type} [LinearOrderedField R] [FloorRing R]

/-- The reads after the clamping of the two indices are between the two indices. -/
theorem computeSampleTimeIntegralTraced_bounds (outOfRange : Int → Int)
    (fromTime toTime onsetTime dt : R) (s : Int → R) (n : Nat) (k : Int)
    (hk : k ∈
      (computeSampleTimeIntegralTraced outOfRange fromTime toTime onsetTime dt s n).2) :
    0 ≤ k ∧ k < (n : Int) := by
  unfold computeSampleTimeIntegralTraced at hk
  by_cases hn : n = 0
  · rw [if_pos hn] at hk
    exact absurd hk (List.not_mem_nil k)
  · rw [if_neg hn] at hk
    simp only [] at hk
    have hf : (0 : Int) ≤
        max 0 (toLong outOfRange ⌊max (fromTime - onsetTime) 0 / dt⌋) := le_max_left _ _
    have ht : min (sizeToLong n - 1)
        (toLong outOfRange ⌈min (toTime - onsetTime) (((n - 1 : Nat) : R) * dt) / dt⌉)
          ≤ (n : Int) - 1 :=
      le_trans (min_le_left _ _) (by have := sizeToLong_le n; omega)
    generalize max (0 : Int) (toLong outOfRange ⌊max (fromTime - onsetTime) 0 / dt⌋) = f
      at hk hf
    generalize min (sizeToLong n - 1)
      (toLong outOfRange ⌈min (toTime - onsetTime) (((n - 1 : Nat) : R) * dt) / dt⌉) = t
      at hk ht
    by_cases h1 : f ≥ t
    · rw [if_pos h1] at hk
      exact absurd hk (List.not_mem_nil k)
    · rw [if_neg h1] at hk
      by_cases h2 : t - f = 1
      · rw [if_pos h2] at hk
        simp only [integrateTraced, List.mem_cons, List.mem_singleton, List.not_mem_nil,
          or_false] at hk
        omega
      · rw [if_neg h2] at hk
        simp only [List.mem_append] at hk
        rcases hk with hk | hk
        · rcases addFullIntervalsTraced_snd dt s f t _ k hk with h | h
          · simp only [integrateTraced, List.mem_cons, List.mem_singleton, List.not_mem_nil,
              or_false] at h
            omega
          · omega
        · simp only [integrateTraced, List.mem_cons, List.mem_singleton, List.not_mem_nil,
            or_false] at hk
          omega

/-- The traced function returns the value of `computeSampleTimeIntegral`. -/
theorem computeSampleTimeIntegralTraced_fst (outOfRange : Int → Int)
    (fromTime toTime onsetTime dt : R) (s : Int → R) (n : Nat) :
    (computeSampleTimeIntegralTraced outOfRange fromTime toTime onsetTime dt s n).1
      = computeSampleTimeIntegral outOfRange fromTime toTime onsetTime dt s n := by
  unfold computeSampleTimeIntegralTraced computeSampleTimeIntegral
  by_cases hn : n = 0
  · rw [if_pos hn, if_pos hn]
  · rw [if_neg hn, if_neg hn]
    simp only []
    split_ifs
    · rfl
    · rfl
    · simp only [addFullIntervalsTraced_fst, integrateTraced]

/-- A sample of at most one value is not read. -/
theorem computeSampleTimeIntegralTraced_short (outOfRange : Int → Int)
    (fromTime toTime onsetTime dt : R) (s : Int → R) (n : Nat) (hn : n ≤ 1) :
    (computeSampleTimeIntegralTraced outOfRange fromTime toTime onsetTime dt s n).2 = [] := by
  unfold computeSampleTimeIntegralTraced
  by_cases h0 : n = 0
  · rw [if_pos h0]
  · rw [if_neg h0]
    simp only []
    have h1 : n = 1 := by omega
    subst h1
    rw [if_pos]
    have h1 : sizeToLong 1 - 1 = 0 := by decide
    exact le_trans (min_le_left _ _) (by rw [h1]; exact le_max_left _ _)

/-- C21: for every `from`, `to` and `onsetTime`, every sampling interval other than zero and
every sample size, each index `k` at which `computeSampleTimeIntegral` reads `sample[k]`
satisfies `0 ≤ k < sampleSize`; this includes the reads `sample[index + 1]` of `integrate`.
Nothing is read when the sample size is 0 or 1.  The reads are the ones that the traced
function records, whose value is the value of `computeSampleTimeIntegral`.  This holds
whatever a conversion to `long` that is out of range returns. -/
theorem sample_reads_in_range (outOfRange : Int → Int)
    (fromTime toTime onsetTime samplingInterval : R)
    (sample : Int → R) (sampleSize : Nat) (_hdt : samplingInterval ≠ 0) :
    (computeSampleTimeIntegralTraced outOfRange fromTime toTime onsetTime samplingInterval
        sample sampleSize).1
      = computeSampleTimeIntegral outOfRange fromTime toTime onsetTime samplingInterval sample
          sampleSize ∧
    (∀ k ∈ (computeSampleTimeIntegralTraced outOfRange fromTime toTime onsetTime
        samplingInterval sample sampleSize).2, 0 ≤ k ∧ k < (sampleSize : Int)) ∧
    (sampleSize ≤ 1 →
      (computeSampleTimeIntegralTraced outOfRange fromTime toTime onsetTime samplingInterval
        sample sampleSize).2 = []) :=
  ⟨computeSampleTimeIntegralTraced_fst outOfRange fromTime toTime onsetTime samplingInterval
      sample sampleSize,
    fun k hk => computeSampleTimeIntegralTraced_bounds outOfRange fromTime toTime onsetTime
      samplingInterval sample sampleSize k hk,
    computeSampleTimeIntegralTraced_short outOfRange fromTime toTime onsetTime
      samplingInterval sample sampleSize⟩

end SampleReadsProofs

theorem sample_reads_in_range_witness :
    (1 : ℚ) ≠ 0 ∧
    ∀ k ∈ (computeSampleTimeIntegralTraced integerIndefinite (1 / 2 : ℚ) 4 0 1
        (fun j => ((j : Int) : ℚ)) 6).2,
      0 ≤ k ∧ k < ((6 : Nat) : Int) :=
  ⟨one_ne_zero,
    (sample_reads_in_range integerIndefinite (1 / 2 : ℚ) 4 0 1 (fun j => ((j : Int) : ℚ)) 6
      one_ne_zero).2.1⟩

/-! ## The faces passed to the fault refiner -/

section Refiner

variable {R : Type} [Zero R] [One R]

/-- A fault face whose `element` is not positive adds no call. -/
theorem refineFace_skip (Refinement : Int) (m : MeshReader R) (FaceIndex : Nat) (f : Fault R)
    (calls : List (RefinerCall R)) (h : f.element ≤ 0) :
    refineFace Refinement m FaceIndex f calls = Except.ok calls := by
  unfold refineFace
  simp only []
  rw [if_neg (not_lt.mpr h)]

/-- A fault face whose `element` is positive adds one call with its face index, when its side
is a side of a tetrahedron. -/
theorem refineFace_call (Refinement : Int) (m : MeshReader R) (FaceIndex : Nat) (f : Fault R)
    (calls calls2 : List (RefinerCall R)) (h : 0 < f.element)
    (h2 : refineFace Refinement m FaceIndex f calls = Except.ok calls2) :
    calls2.map (fun c => c.FaceIndex) = calls.map (fun c => c.FaceIndex) ++ [FaceIndex] := by
  unfold refineFace at h2
  simp only [] at h2
  rw [if_pos h] at h2
  cases hr : (getReferenceFace f.side : Except String (TriangleT R)) with
  | error e =>
    rw [hr] at h2
    cases h2
  | ok t =>
    rw [hr] at h2
    cases h2
    simp

/-- The function `getReferenceFace` returns a face for the sides 0, 1, 2 and 3. -/
theorem getReferenceFace_ok (s : Int) (h0 : 0 ≤ s) (h4 : s < 4) :
    ∃ t : TriangleT R, getReferenceFace s = Except.ok t := by
  have hs : s = 0 ∨ s = 1 ∨ s = 2 ∨ s = 3 := by omega
  rcases hs with rfl | rfl | rfl | rfl
  · exact ⟨_, rfl⟩
  · exact ⟨_, rfl⟩
  · exact ⟨_, rfl⟩
  · exact ⟨_, rfl⟩

/-- The face indices that the loop passes to the refiner are the indices of the entries with
`element > 0`, in ascending order. -/
theorem refineFaces_faces (Refinement : Int) (m : MeshReader R) (fs : List (Fault R)) :
    ∀ (k : Nat) (calls out : List (RefinerCall R)),
      refineFaces Refinement m k fs calls = Except.ok out →
      out.map (fun c => c.FaceIndex)
        = calls.map (fun c => c.FaceIndex)
          ++ faceIndicesFrom (fun f => decide (f.element > 0)) k fs := by
  induction fs with
  | nil =>
    intro k calls out h
    simp only [refineFaces] at h
    cases h
    simp [faceIndicesFrom]
  | cons f rest ih =>
    intro k calls out h
    simp only [refineFaces] at h
    by_cases hf : 0 < f.element
    · cases hr : refineFace Refinement m k f calls with
      | error e =>
        rw [hr] at h
        cases h
      | ok calls2 =>
        rw [hr] at h
        rw [ih (k + 1) calls2 out h, refineFace_call Refinement m k f calls calls2 hf hr]
        simp [faceIndicesFrom, hf]
    · rw [refineFace_skip Refinement m k f calls (not_lt.mp hf)] at h
      rw [ih (k + 1) calls out h]
      simp [faceIndicesFrom, hf]

/-- The loop returns when every entry with `element > 0` has a side from 0 to 3. -/
theorem refineFaces_ok (Refinement : Int) (m : MeshReader R) (fs : List (Fault R))
    (hs : ∀ f ∈ fs, 0 < f.element → 0 ≤ f.side ∧ f.side < 4) :
    ∀ (k : Nat) (calls : List (RefinerCall R)),
      ∃ out, refineFaces Refinement m k fs calls = Except.ok out := by
  induction fs with
  | nil =>
    intro k calls
    exact ⟨calls, rfl⟩
  | cons f rest ih =>
    intro k calls
    have ih2 := ih (fun g hg => hs g (List.mem_cons_of_mem _ hg))
    simp only [refineFaces]
    by_cases hf : 0 < f.element
    · obtain ⟨h0, h4⟩ := hs f (List.mem_cons_self _ _) hf
      obtain ⟨t, ht⟩ := getReferenceFace_ok (R := R) f.side h0 h4
      have hr : ∃ calls2, refineFace Refinement m k f calls = Except.ok calls2 := by
        unfold refineFace
        simp only []
        rw [if_pos hf, ht]
        exact ⟨_, rfl⟩
      obtain ⟨calls2, hc⟩ := hr
      rw [hc]
      exact ih2 (k + 1) calls2
    · rw [refineFace_skip Refinement m k f calls (not_lt.mp hf)]
      exact ih2 (k + 1) calls

/-- The faces that `initReveiverLocations` passes to the refiner: the faces with
`Fault.element > 0`. -/
theorem initReveiverLocations_faces (Refinement : Int) (m : MeshReader R)
    (calls : List (RefinerCall R)) (h : initReveiverLocations Refinement m = Except.ok calls) :
    calls.map (fun c => c.FaceIndex)
      = faceIndicesFrom (fun f => decide (f.element > 0)) 0 m.m_fault := by
  have := refineFaces_faces Refinement m m.m_fault 0 [] calls h
  simpa using this

end Refiner

/-- The faces for which `generate` takes `(f.element, f.side)`: the faces with
`Fault.element >= 0`. -/
theorem generateElementSide_own {R : Type} (f : Fault R) (h : 0 ≤ f.element) :
    generateElementSide f = (f.element, f.side) := by
  unfold generateElementSide
  rw [if_pos h]

theorem isPlus_tetA_above :
    isPlus Real.sqrt referenceTables ⟨0, 0, 5⟩ RefPointMethod.Point (twoTetsVertices ℝ) tetA 0
      = true := by
  simp only [isPlus, localNormal_tetA, faceNode_tetA, missingNode_tetA]
  simp [MeshTools.sub, MeshTools.dot]

/-- The identifiers of the fault entry of `twoTets` for the reference point `(0, 0, 5)`, above
the face: element 0 is the plus side. -/
theorem extract_twoTets_above :
    ∃ f : Fault ℝ,
      ((twoTets ℝ).extractFaultInformation Real.sqrt referenceTables ⟨0, 0, 5⟩
        RefPointMethod.Point).m_fault = [f] ∧
      f.element = 0 ∧ f.side = 0 ∧ f.neighborElement = 1 ∧ f.neighborSide = 0 := by
  refine ⟨faultEntry Real.sqrt referenceTables ⟨0, 0, 5⟩ RefPointMethod.Point 2
    (twoTetsVertices ℝ) tetA 0, ?_, ?_⟩
  · rw [extract_fault]
    simp only [twoTets, processedSides_twoTets, List.nil_append, List.map_cons, List.map_nil,
      List.length_cons, List.length_nil]
  · have hids := faultEntry_ids Real.sqrt referenceTables ⟨0, 0, 5⟩ RefPointMethod.Point 2
      (twoTetsVertices ℝ) tetA 0
    rw [if_pos isPlus_tetA_above] at hids
    simp only [Prod.ext_iff] at hids
    obtain ⟨e1, e2, e3, e4, _⟩ := hids
    rw [e1, e2, e3, e4]
    exact ⟨rfl, rfl, by decide, rfl⟩

/-- C22: `initReveiverLocations` does not pass every fault face with `Fault.element >= 0` to
the refiner.  In `twoTets` with the reference point `(0, 0, 5)` the single fault face has
element 0 as its plus side (`Fault.element = 0`), and `FaultBarycentreGenerator::generate`
takes `(f.element, f.side) = (0, 0)` for it; yet `initReveiverLocations` returns without a
call of the refiner, because it tests `ElementIndex > 0`.  With the reference point
`(0, 0, -5)` the plus side of the same face is element 1, and the face is passed to the
refiner. -/
theorem refiner_misses_element_zero :
    (((twoTets ℝ).extractFaultInformation Real.sqrt referenceTables ⟨0, 0, 5⟩
        RefPointMethod.Point).m_fault.map
      (fun f => (f.element, f.side, f.neighborElement, f.neighborSide)) = [(0, 0, 1, 0)]) ∧
    (((twoTets ℝ).extractFaultInformation Real.sqrt referenceTables ⟨0, 0, 5⟩
        RefPointMethod.Point).m_fault.map generateElementSide = [(0, 0)]) ∧
    (∀ Refinement : Int,
      (initReveiverLocations Refinement
        ((twoTets ℝ).extractFaultInformation Real.sqrt referenceTables ⟨0, 0, 5⟩
          RefPointMethod.Point)).map (fun calls => calls.map (fun c => c.FaceIndex))
        = Except.ok []) ∧
    (∀ Refinement : Int,
      (initReveiverLocations Refinement
        ((twoTets ℝ).extractFaultInformation Real.sqrt referenceTables ⟨0, 0, -5⟩
          RefPointMethod.Point)).map (fun calls => calls.map (fun c => c.FaceIndex))
        = Except.ok [0]) := by
  obtain ⟨f, hf, e1, e2, e3, e4⟩ := extract_twoTets_above
  refine ⟨?_, ?_, ?_, ?_⟩
  · rw [hf]
    simp [e1, e2, e3, e4]
  · rw [hf]
    simp [generateElementSide, e1, e2]
  · intro Refinement
    unfold initReveiverLocations
    rw [hf]
    simp only [refineFaces]
    rw [refineFace_skip Refinement _ 0 f [] (le_of_eq e1)]
    rfl
  · intro Refinement
    unfold initReveiverLocations
    rw [extract_twoTets_below]
    rfl

end seissol
